import Mathlib

/-!
# Strelka: variant-call annotation record and the starling driver loop

A shallow embedding of

* `src/c++/lib/applications/strelka/strelka_vcf_locus_info.hh`
  (filter enumeration, `get_label`, `strelka_filter_keeper`, `strelka_feature_keeper`,
  `strelka_shared_modifiers`);
* `src/c++/lib/applications/starling/starling_run.cpp` (`starling_run`).

Conventions.

* An `assert`, a thrown C++ exception and `exit(EXIT_FAILURE)` all end the run; they are
  the `Except.error` results below, tagged by a `Failure`.
* A `std::ostream&` sink is the text written to it so far: `write` takes the text already
  in the sink and returns the text afterwards.
* `std::bitset<N>` is a function `Fin N → Bool`; `test` and `set` check their index and
  throw `std::out_of_range`, as the library does.
-/

/-- The ways in which the embedded code stops a run. -/
inductive Failure where
  /-- An `assert(...)` whose condition is false; the text is the message of the assertion. -/
  | assertion (msg : String)
  /-- The `std::out_of_range` exception of `std::bitset::test` and `std::bitset::set`. -/
  | out_of_range
  /-- An access outside a `std::array` (undefined behaviour in C++). -/
  | undefined_access
  /-- The exception `illumina::common::LogicException` with its message. -/
  | LogicException (msg : String)
  /-- The text logged before `exit(EXIT_FAILURE)`. -/
  | exit_failure (log : String)
  /-- An error raised by a collaborator whose code is outside the embedded files. -/
  | collaborator (msg : String)
  deriving DecidableEq

deriving instance DecidableEq for Except

/-- The class template `std::bitset<N>`: one boolean per position below `N`. -/
structure bitset (N : Nat) where
  /-- The value of each bit. -/
  bits : Fin N → Bool

namespace bitset

/-- The member `reset()`: every bit becomes false. -/
def reset {N : Nat} (_b : bitset N) : bitset N := ⟨fun _ => false⟩

/-- The member `test(i)`: the value of bit `i`, or `std::out_of_range` when `i ≥ N`. -/
def test {N : Nat} (b : bitset N) (i : Nat) : Except Failure Bool :=
  if h : i < N then .ok (b.bits ⟨i, h⟩) else .error .out_of_range

/-- The member `set(i)`: bit `i` becomes true, or `std::out_of_range` when `i ≥ N`. -/
def set {N : Nat} (b : bitset N) (i : Nat) : Except Failure (bitset N) :=
  if h : i < N then .ok ⟨Function.update b.bits ⟨i, h⟩ true⟩ else .error .out_of_range

/-- The member `none()`: true when no bit is set. -/
def none {N : Nat} (b : bitset N) : Bool := decide (∀ i : Fin N, b.bits i = false)

end bitset

namespace STRELKA_VCF_FILTERS

/-- The enumeration `STRELKA_VCF_FILTERS::index_t`, in declaration order. -/
inductive index_t where
  | HighDepth
  | LowEVS
  | BCNoise
  | SpanDel
  | QSS_ref
  | Repeat
  | iHpol
  | IndelBCNoise
  | QSI_ref
  | Nonref
  | SIZE
  deriving DecidableEq

/-- The integer value of an enumerator: its place in the declaration, from zero. -/
def index_t.toNat : index_t → Nat
  | .HighDepth => 0
  | .LowEVS => 1
  | .BCNoise => 2
  | .SpanDel => 3
  | .QSS_ref => 4
  | .Repeat => 5
  | .iHpol => 6
  | .IndelBCNoise => 7
  | .QSI_ref => 8
  | .Nonref => 9
  | .SIZE => 10

/-- The enumerator `SIZE` used as a number (bitset width and loop bound). -/
@[reducible] def SIZE : Nat := index_t.SIZE.toNat

/-- The function `get_label`: a `switch` over the enumerators, in the order of the source;
the `default` branch is `assert(false && "Unknown vcf filter id")`. -/
def get_label (idx : Nat) : Except Failure String :=
  if idx = index_t.HighDepth.toNat then .ok "HighDepth"
  else if idx = index_t.BCNoise.toNat then .ok "BCNoise"
  else if idx = index_t.SpanDel.toNat then .ok "SpanDel"
  else if idx = index_t.QSS_ref.toNat then .ok "QSS_ref"
  else if idx = index_t.Repeat.toNat then .ok "Repeat"
  else if idx = index_t.iHpol.toNat then .ok "iHpol"
  else if idx = index_t.IndelBCNoise.toNat then .ok "BCNoise"
  else if idx = index_t.QSI_ref.toNat then .ok "QSI_ref"
  else if idx = index_t.LowEVS.toNat then .ok "LowEVS"
  else if idx = index_t.Nonref.toNat then .ok "Nonref"
  else .error (.assertion "Unknown vcf filter id")

end STRELKA_VCF_FILTERS

/-- The struct `strelka_filter_keeper`: a bitset over the filter enumeration. -/
structure strelka_filter_keeper where
  /-- The private member `_filters`. -/
  _filters : bitset STRELKA_VCF_FILTERS.SIZE

namespace strelka_filter_keeper

/-- The member `clear()`. -/
def clear (k : strelka_filter_keeper) : strelka_filter_keeper := ⟨k._filters.reset⟩

/-- The constructor: it calls `clear()`, so every bit starts false. -/
def new : strelka_filter_keeper := clear ⟨⟨fun _ => false⟩⟩

/-- The member `set(i)`: an assertion failure when bit `i` is already set, else sets it. -/
def set (k : strelka_filter_keeper) (i : STRELKA_VCF_FILTERS.index_t) :
    Except Failure strelka_filter_keeper :=
  match k._filters.test i.toNat with
  | .error e => .error e
  | .ok true => .error (.assertion "Setting filter twice")
  | .ok false =>
    match k._filters.set i.toNat with
    | .error e => .error e
    | .ok b => .ok ⟨b⟩

/-- One pass through the body of the `for` loop of `write`, at index `i`; the state is
the flag `is_sep` and the text of the sink. -/
def write_body (k : strelka_filter_keeper) (st : Bool × String) (i : Nat) :
    Except Failure (Bool × String) :=
  match k._filters.test i with
  | .error e => .error e
  | .ok false => .ok st
  | .ok true =>
    match STRELKA_VCF_FILTERS.get_label i with
    | .error e => .error e
    | .ok label => .ok (true, (if st.1 then st.2 ++ ";" else st.2) ++ label)

/-- The `for` loop of `write` over the indices still to visit. -/
def write_loop (k : strelka_filter_keeper) : List Nat → Bool × String →
    Except Failure (Bool × String)
  | [], st => .ok st
  | i :: rest, st =>
    match write_body k st i with
    | .error e => .error e
    | .ok st1 => write_loop k rest st1

/-- The member `write(os)`: the text of the sink after the call. -/
def write (k : strelka_filter_keeper) (os : String) : Except Failure String :=
  if k._filters.none then .ok (os ++ "PASS")
  else
    match write_loop k (List.range STRELKA_VCF_FILTERS.SIZE) (false, os) with
    | .error e => .error e
    | .ok st => .ok st.2

/-- The indices of the bits that are set, in ascending enumerator order. -/
def setBits (k : strelka_filter_keeper) : List Nat :=
  (List.range STRELKA_VCF_FILTERS.SIZE).filter (fun i => decide (k._filters.test i = .ok true))

end strelka_filter_keeper

/-- The filter label of an index: `label` is what `get_label` returns for `i`. -/
def isLabelOf (i : Nat) (label : String) : Prop :=
  STRELKA_VCF_FILTERS.get_label i = .ok label

instance (i : Nat) (label : String) : Decidable (isLabelOf i label) :=
  inferInstanceAs (Decidable (STRELKA_VCF_FILTERS.get_label i = .ok label))

/-- The index whose label a filter is written with: `IndelBCNoise` is written with the
label of `BCNoise`, every other filter with its own. -/
def writtenAs (i : Nat) : Nat :=
  if i = STRELKA_VCF_FILTERS.index_t.IndelBCNoise.toNat then
    STRELKA_VCF_FILTERS.index_t.BCNoise.toNat
  else i

/-- The text of a sink split at every `;`: the pieces between the separators, in order.
This is the reading side of the filter column, used to compare with what `write` emits. -/
def splitOnSemicolon (s : String) : List String :=
  (s.data.splitOn ';').map String.mk

/-- The members of a `FEATURESET` template argument that `strelka_feature_keeper` uses.
The feature sets are declared in `strelkaScoringFeatures.hh`, which is not among the
embedded files, so they are a parameter: the number of features and their labels. -/
structure FEATURESET where
  /-- The enumerator `FEATURESET::SIZE`. -/
  SIZE : Nat
  /-- The function `FEATURESET::get_feature_label`. -/
  get_feature_label : Nat → String

/-- The class template `strelka_feature_keeper<FEATURESET>`. The values are C++ `double`s;
they are only stored and printed, so their type `V` is left open. -/
structure strelka_feature_keeper (FS : FEATURESET) (V : Type) where
  /-- The private member `_isFeatureSet`. -/
  _isFeatureSet : bitset FS.SIZE
  /-- The private member `_featureVal`. -/
  _featureVal : Fin FS.SIZE → V

namespace strelka_feature_keeper

variable {FS : FEATURESET} {V : Type}

/-- The member `clear()`: only the flags are reset, the stored values stay. -/
def clear (k : strelka_feature_keeper FS V) : strelka_feature_keeper FS V :=
  ⟨k._isFeatureSet.reset, k._featureVal⟩

/-- The constructor: it calls `clear()`. The array is not initialised by the constructor,
so its first content `uninit` is whatever the memory holds. -/
def new (uninit : Fin FS.SIZE → V) : strelka_feature_keeper FS V :=
  clear ⟨⟨fun _ => false⟩, uninit⟩

/-- The member `test(i)`. -/
def test (k : strelka_feature_keeper FS V) (i : Nat) : Except Failure Bool :=
  k._isFeatureSet.test i

/-- The member `set(i, val)`: an assertion failure when slot `i` is already assigned. -/
def set (k : strelka_feature_keeper FS V) (i : Nat) (val : V) :
    Except Failure (strelka_feature_keeper FS V) :=
  match k.test i with
  | .error e => .error e
  | .ok true => .error (.assertion "Set scoring feature twice")
  | .ok false =>
    if h : i < FS.SIZE then
      match k._isFeatureSet.set i with
      | .error e => .error e
      | .ok b => .ok ⟨b, Function.update k._featureVal ⟨i, h⟩ val⟩
    else .error .undefined_access

/-- The member `get(i)`: an assertion failure when slot `i` is not assigned. -/
def get (k : strelka_feature_keeper FS V) (i : Nat) : Except Failure V :=
  match k.test i with
  | .error e => .error e
  | .ok false => .error (.assertion "Requesting undefined feature")
  | .ok true =>
    if h : i < FS.SIZE then .ok (k._featureVal ⟨i, h⟩) else .error .undefined_access

/-- One pass through the body of the `for` loop of `write`, at `featureIndex`; `fmt` is
the text that `os << value` produces for a `double`. -/
def write_body (fmt : V → String) (k : strelka_feature_keeper FS V) (os : String)
    (featureIndex : Nat) : Except Failure String :=
  let os1 := if featureIndex > 0 then os ++ "," else os
  match k.get featureIndex with
  | .error e => .error e
  | .ok v => .ok (os1 ++ FS.get_feature_label featureIndex ++ ":" ++ fmt v)

/-- The `for` loop of `write` over the indices still to visit. -/
def write_loop (fmt : V → String) (k : strelka_feature_keeper FS V) :
    List Nat → String → Except Failure String
  | [], os => .ok os
  | i :: rest, os =>
    match write_body fmt k os i with
    | .error e => .error e
    | .ok os1 => write_loop fmt k rest os1

/-- The member `write(os)`: the text of the sink after the call. -/
def write (fmt : V → String) (k : strelka_feature_keeper FS V) (os : String) :
    Except Failure String :=
  write_loop fmt k (List.range FS.SIZE) os

end strelka_feature_keeper

/-- The two keepers an annotation record exposes as public members: `filters` and
`dfeatures` of `strelka_shared_modifiers`. -/
structure KeeperPair (FS : FEATURESET) (V : Type) where
  /-- The member `filters`. -/
  filters : strelka_filter_keeper
  /-- The member `dfeatures`. -/
  dfeatures : strelka_feature_keeper FS V

/-- One call of a public member of one of the two keepers. -/
inductive KeeperOp (V : Type) where
  | filter_set (i : STRELKA_VCF_FILTERS.index_t)
  | filter_write
  | filter_clear
  | feature_set (i : Nat) (val : V)
  | feature_get (i : Nat)
  | feature_test (i : Nat)
  | feature_write
  | feature_clear
  deriving DecidableEq

namespace KeeperPair

variable {FS : FEATURESET} {V : Type}

/-- Both keepers as their constructors leave them. -/
def new (uninit : Fin FS.SIZE → V) : KeeperPair FS V :=
  ⟨strelka_filter_keeper.new, strelka_feature_keeper.new uninit⟩

/-- The effect of one call on the two keepers; a failing call ends the run. The values
returned by `get`, `test` and `write` do not change the keepers and are dropped. -/
def apply (fmt : V → String) (r : KeeperPair FS V) : KeeperOp V →
    Except Failure (KeeperPair FS V)
  | .filter_set i =>
    match r.filters.set i with
    | .error e => .error e
    | .ok f => .ok ⟨f, r.dfeatures⟩
  | .filter_write =>
    match r.filters.write "" with
    | .error e => .error e
    | .ok _ => .ok r
  | .filter_clear => .ok ⟨r.filters.clear, r.dfeatures⟩
  | .feature_set i val =>
    match r.dfeatures.set i val with
    | .error e => .error e
    | .ok d => .ok ⟨r.filters, d⟩
  | .feature_get i =>
    match r.dfeatures.get i with
    | .error e => .error e
    | .ok _ => .ok r
  | .feature_test i =>
    match r.dfeatures.test i with
    | .error e => .error e
    | .ok _ => .ok r
  | .feature_write =>
    match r.dfeatures.write fmt "" with
    | .error e => .error e
    | .ok _ => .ok r
  | .feature_clear => .ok ⟨r.filters, r.dfeatures.clear⟩

/-- The calls of a sequence that are carried out: the sequence up to, and without, the
first call that fails. -/
def executed (fmt : V → String) : KeeperPair FS V → List (KeeperOp V) → List (KeeperOp V)
  | _, [] => []
  | r, op :: rest =>
    match apply fmt r op with
    | .error _ => []
    | .ok r1 => op :: executed fmt r1 rest

/-- The calls among `ops` that assign filter `i`. -/
def filterSets (i : STRELKA_VCF_FILTERS.index_t) (ops : List (KeeperOp V)) : Nat :=
  (ops.filter (fun op => match op with
    | .filter_set j => decide (j = i)
    | _ => false)).length

/-- The calls among `ops` that assign feature slot `i`. -/
def featureSets (i : Nat) (ops : List (KeeperOp V)) : Nat :=
  (ops.filter (fun op => match op with
    | .feature_set j _ => decide (j = i)
    | _ => false)).length

/-- Whether a call is one of the two `clear()` members. -/
def isClear : KeeperOp V → Bool
  | .filter_clear => true
  | .feature_clear => true
  | _ => false

end KeeperPair

/-- Example feature set with two features. -/
def exampleFeatures : FEATURESET := ⟨2, fun i => if i = 0 then "F0" else "F1"⟩

/-- Example keepers over `exampleFeatures` with integer values, as constructed. -/
def exampleKeepers : KeeperPair exampleFeatures Int := KeeperPair.new (fun _ => 0)

/-- Example printing of a value. -/
def exampleFmt (v : Int) : String := if v = 0 then "0" else "1"

/-- The access `b[i]` of `std::bitset`: the value of bit `i`, with no range check (an
index at or above `N` is undefined behaviour). -/
def bitset.get {N : Nat} (b : bitset N) (i : Nat) : Except Failure Bool :=
  if h : i < N then .ok (b.bits ⟨i, h⟩) else .error .undefined_access

/-- Modelled from the spec: the type `feature_type` is declared in
`calibration/VariantScoringModel.hh`, which is not among the embedded files. The source
uses it as a keyed container (`m[i] = val`, `m.at(i)`, iteration over pairs with `first`
and `second`), and the spec says that `write_features` emits its pairs in feature-ID
order: it is a `std::map` from feature IDs to values, held as the list of its pairs in
ascending key order. -/
structure feature_type (V : Type) where
  /-- The pairs of the map, in the order of iteration. -/
  entries : List (Nat × V)

namespace feature_type

variable {V : Type}

/-- The pairs after `m[k] = v`: the pair with key `k` is replaced, or put in at its place
in the key order. -/
def assignEntries : List (Nat × V) → Nat → V → List (Nat × V)
  | [], k, v => [(k, v)]
  | (k1, v1) :: rest, k, v =>
    if k < k1 then (k, v) :: (k1, v1) :: rest
    else if k = k1 then (k, v) :: rest
    else (k1, v1) :: assignEntries rest k v

/-- The statement `m[k] = v`. -/
def assign (m : feature_type V) (k : Nat) (v : V) : feature_type V :=
  ⟨assignEntries m.entries k v⟩

/-- The member `at(k)`: the value stored for `k`, or `std::out_of_range` when there is none. -/
def «at» (m : feature_type V) (k : Nat) : Except Failure V :=
  match m.entries.find? (fun e => e.1 == k) with
  | some e => .ok e.2
  | none => .error .out_of_range

/-- The keys of the map, in the order of iteration. -/
def keys (m : feature_type V) : List Nat := m.entries.map Prod.fst

end feature_type

/-- The class template `strelka_shared_modifiers<_evs_featureset, _evs_dev_featureset>`:
the annotation record of a call. `FS` is the production feature set, `DFS` the development
feature set, `V` the type of the values (C++ `double`). -/
structure strelka_shared_modifiers (FS DFS : FEATURESET) (V : Type) where
  /-- The member `isEVS`. -/
  isEVS : Bool
  /-- The member `EVS`. -/
  EVS : V
  /-- The member `filters`. -/
  filters : strelka_filter_keeper
  /-- The member `dfeatures`. -/
  dfeatures : strelka_feature_keeper DFS V
  /-- The private member `_isFeatureSet`. -/
  _isFeatureSet : bitset FS.SIZE
  /-- The private member `_featureVal`. -/
  _featureVal : feature_type V

namespace strelka_shared_modifiers

variable {FS DFS : FEATURESET} {V : Type}

/-- The record as its default member initialisers and the constructors of its members
leave it: `isEVS` false, `EVS` zero, both keepers cleared, no feature flag set, an empty
map. `zero` is the `double` 0 and `uninit` the first content of the array of `dfeatures`. -/
def new (zero : V) (uninit : Fin DFS.SIZE → V) : strelka_shared_modifiers FS DFS V :=
  ⟨false, zero, strelka_filter_keeper.new, strelka_feature_keeper.new uninit,
    ⟨fun _ => false⟩, ⟨[]⟩⟩

/-- The member `set_feature(i, val)`: an assertion failure when slot `i` is already
assigned. -/
def set_feature (m : strelka_shared_modifiers FS DFS V) (i : Nat) (val : V) :
    Except Failure (strelka_shared_modifiers FS DFS V) :=
  match m._isFeatureSet.test i with
  | .error e => .error e
  | .ok true => .error (.assertion "Set scoring feature twice")
  | .ok false =>
    match m._isFeatureSet.set i with
    | .error e => .error e
    | .ok b => .ok ⟨m.isEVS, m.EVS, m.filters, m.dfeatures, b, m._featureVal.assign i val⟩

/-- The member `get_feature(i)`: `assert(_isFeatureSet.test(i))`, then `_featureVal.at(i)`. -/
def get_feature (m : strelka_shared_modifiers FS DFS V) (i : Nat) : Except Failure V :=
  match m._isFeatureSet.test i with
  | .error e => .error e
  | .ok false => .error (.assertion "_isFeatureSet.test(i)")
  | .ok true => m._featureVal.«at» i

/-- The member `test_feature(i)`: `_isFeatureSet[i]`. -/
def test_feature (m : strelka_shared_modifiers FS DFS V) (i : Nat) : Except Failure Bool :=
  m._isFeatureSet.get i

/-- The member `get_features()`. -/
def get_features (m : strelka_shared_modifiers FS DFS V) : feature_type V := m._featureVal

/-- The range-for loop of `write_features` over the pairs still to visit; `ix` counts the
pairs written so far and `fmt` is the text that `os << value` produces for a `double`. -/
def write_features_loop (FS : FEATURESET) (fmt : V → String) :
    List (Nat × V) → Nat → String → String
  | [], _, os => os
  | val :: rest, ix, os =>
    write_features_loop FS fmt rest (ix + 1)
      ((if ix > 0 then os ++ "," else os) ++ FS.get_feature_label val.1 ++ ":" ++ fmt val.2)

/-- The member `write_features(os)`: the text of the sink after the call. -/
def write_features (fmt : V → String) (m : strelka_shared_modifiers FS DFS V)
    (os : String) : String :=
  write_features_loop FS fmt m._featureVal.entries 0 os

/-- The record after the calls `set_feature(i, v)` for the pairs `(i, v)` of a list, in
the order of the list; a failing call ends the run. -/
def set_features (m : strelka_shared_modifiers FS DFS V) :
    List (Nat × V) → Except Failure (strelka_shared_modifiers FS DFS V)
  | [] => .ok m
  | (i, v) :: rest =>
    match m.set_feature i v with
    | .error e => .error e
    | .ok m1 => set_features m1 rest

/-- The state of a record that its members keep: the pairs of the map are in ascending
key order, and the map holds a pair for `i` exactly when the flag of `i` is set. -/
def wellFormed (m : strelka_shared_modifiers FS DFS V) : Prop :=
  m._featureVal.keys.Sorted (· < ·) ∧
    ∀ i, i ∈ m._featureVal.keys ↔ m._isFeatureSet.test i = .ok true

end strelka_shared_modifiers

/-- Example record over `exampleFeatures` (for both feature sets) with integer values. -/
def exampleRecord : strelka_shared_modifiers exampleFeatures exampleFeatures Int :=
  strelka_shared_modifiers.new 0 (fun _ => 0)

/-- Example feature set with three features. -/
def exampleFeatures3 : FEATURESET :=
  ⟨3, fun i => if i = 0 then "QSS_NT" else if i = 1 then "N_FDP_RATE" else "T_FDP_RATE"⟩

/-- Example record over `exampleFeatures3` with integer values. -/
def exampleRecord3 : strelka_shared_modifiers exampleFeatures3 exampleFeatures Int :=
  strelka_shared_modifiers.new 0 (fun _ => 0)

/-- Modelled from the spec: the type `pos_t` is declared in a header that is not among the
embedded files; the spec says that all positions are reference-coordinate integers. -/
abbrev pos_t := Int

namespace INPUT_TYPE

/-- The enumeration `INPUT_TYPE::index_t` of `starling_run.cpp`. -/
inductive index_t where
  | CANDIDATE_INDELS
  | FORCED_GT_VARIANTS
  | PLOIDY_REGION
  | NOCOMPRESS_REGION
  deriving DecidableEq

/-- The integer value of an enumerator. -/
def index_t.toNat : index_t → Nat
  | .CANDIDATE_INDELS => 0
  | .FORCED_GT_VARIANTS => 1
  | .PLOIDY_REGION => 2
  | .NOCOMPRESS_REGION => 3

end INPUT_TYPE

/-- The members of `pos_range` that `starling_run` reads (`dopt.report_range_limit`). -/
structure pos_range where
  begin_pos : pos_t
  is_end_pos : Bool
  end_pos : pos_t
  deriving DecidableEq

/-- The range type `known_pos_range2`, built from a begin and an end position. -/
structure known_pos_range2 where
  begin_pos : pos_t
  end_pos : pos_t
  deriving DecidableEq

/-- The members of `starling_options` that `starling_run` reads. -/
structure starling_options where
  max_indel_size : Nat
  bam_filename : String
  bam_seq_name : String
  deriving DecidableEq

/-- An alignment record; the driver hands it on without looking inside. -/
structure bam_record where
  qname : String
  deriving DecidableEq

/-- What `starling_run` reads of a `vcf_record`: the 1-based `pos` and the results of its
predicates `is_indel()`, `is_snv()` and `is_left_shifted()`. -/
structure vcf_record where
  pos : pos_t
  is_indel : Bool
  is_snv : Bool
  is_left_shifted : Bool
  line : String
  deriving DecidableEq

/-- What `starling_run` reads of a `bed_record`. -/
structure bed_record where
  begin : pos_t
  «end» : pos_t
  line : String
  deriving DecidableEq

namespace HTS_TYPE

/-- The record types the merged stream distinguishes; `NONE` stands for every value other
than the three that `starling_run` tests for. -/
inductive index_t where
  | NONE
  | BAM
  | VCF
  | BED
  deriving DecidableEq

end HTS_TYPE

/-- The payload of the current record of the merged stream (`getCurrentBam`,
`getCurrentVcf`, `getCurrentBed`). -/
inductive HtsPayload where
  | bam (read : bam_record)
  | vcf (vcfRecord : vcf_record)
  | bed (bedRecord : bed_record)
  | other
  deriving DecidableEq

/-- The current record of `HtsMergeStreamer` after a successful `next()`. -/
structure HtsRecord where
  /-- The result of `getCurrentPos()`. -/
  currentPos : pos_t
  /-- The result of `getCurrentIndex()`. -/
  currentIndex : Nat
  /-- The record itself. -/
  payload : HtsPayload
  deriving DecidableEq

/-- The result of `getCurrentType()`. -/
def HtsRecord.getCurrentType (r : HtsRecord) : HTS_TYPE.index_t :=
  match r.payload with
  | .bam _ => .BAM
  | .vcf _ => .VCF
  | .bed _ => .BED
  | .other => .NONE

/-- A call the driver makes on the position processor `sppr`, directly or through the
helpers `process_genomic_read` and `process_candidate_indel` that receive `sppr`. -/
inductive Call where
  | set_head_pos (pos : pos_t)
  | process_genomic_read (read : bam_record) (currentPos : pos_t) (begin_pos : pos_t)
  | process_candidate_indel (max_indel_size : Nat) (vcfRecord : vcf_record)
      (sample_no : Nat) (is_forced_output : Bool)
  | insert_forced_output_pos (pos : pos_t)
  | insert_ploidy_region (range : known_pos_range2) (ploidy : Nat)
  | insert_nocompress_region (range : known_pos_range2)
  | reset
  deriving DecidableEq

/-- Modelled from the spec: the default of the parameter `sample_no` of
`process_candidate_indel`, declared in a header that is not among the embedded files;
the spec gives the signature as `[sample=0]`. -/
def default_sample_no : Nat := 0

/-- Modelled from the spec: the default of the parameter `is_forced_output` of
`process_candidate_indel`, declared in a header that is not among the embedded files;
the spec gives the signature as `[forced=false]`. -/
def default_is_forced_output : Bool := false

/-- What `starling_run` obtains from code outside the embedded files. The processor is
deterministic, so the flag `insert_ploidy_region` returns is a function of the calls made
on it before. -/
structure Collaborators where
  /-- The value of `dopt.report_range_limit`. -/
  report_range_limit : pos_range
  /-- The result of `readStream.target_name_to_id(opt.bam_seq_name)`. -/
  tid : Int
  /-- The function `parsePloidyFromBedStrict`; it may throw. -/
  parsePloidyFromBedStrict : String → Except Failure Nat
  /-- The flag returned by `sppr.insert_ploidy_region(range, ploidy)` after the calls in
  the first argument. -/
  insert_ploidy_region : List Call → known_pos_range2 → Nat → Bool

/-- The test of the `break` statement: the range limit has an end and the position is at
or beyond that end plus `max_indel_size`. -/
def is_cutoff (opt : starling_options) (env : Collaborators) (r : HtsRecord) : Bool :=
  env.report_range_limit.is_end_pos &&
    decide (r.currentPos ≥ env.report_range_limit.end_pos + (opt.max_indel_size : pos_t))

/-- The `if`/`else if` chain of the loop body that follows `set_head_pos`: the calls made
for the record, and the failure that ends the run if there is one. `hist` holds the calls
made so far, `set_head_pos` of this record included. -/
def dispatch (opt : starling_options) (env : Collaborators) (hist : List Call)
    (r : HtsRecord) : List Call × Option Failure :=
  match r.payload with
  | .bam read =>
    ([.process_genomic_read read r.currentPos env.report_range_limit.begin_pos], none)
  | .vcf vcfRecord =>
    if r.currentIndex = INPUT_TYPE.index_t.CANDIDATE_INDELS.toNat then
      if vcfRecord.is_indel then
        if vcfRecord.is_left_shifted then
          ([.process_candidate_indel opt.max_indel_size vcfRecord
              default_sample_no default_is_forced_output], none)
        else ([], some (.assertion "Indels are not left-shifted in candidate indel VCF"))
      else ([], none)
    else if r.currentIndex = INPUT_TYPE.index_t.FORCED_GT_VARIANTS.toNat then
      if vcfRecord.is_indel then
        if vcfRecord.is_left_shifted then
          ([.process_candidate_indel opt.max_indel_size vcfRecord 0 true], none)
        else ([], some (.assertion "Indels are not left-shifted in forced genotype VCF"))
      else if vcfRecord.is_snv then
        ([.insert_forced_output_pos (vcfRecord.pos - 1)], none)
      else ([], none)
    else ([], some (.assertion "Unexpected hts index"))
  | .bed bedRecord =>
    if r.currentIndex = INPUT_TYPE.index_t.PLOIDY_REGION.toNat then
      let ploidyRange : known_pos_range2 := ⟨bedRecord.begin, bedRecord.«end»⟩
      match env.parsePloidyFromBedStrict bedRecord.line with
      | .error e => ([], some e)
      | .ok ploidy =>
        if ploidy = 0 ∨ ploidy = 1 then
          if env.insert_ploidy_region hist ploidyRange ploidy then
            ([.insert_ploidy_region ploidyRange ploidy], none)
          else
            ([.insert_ploidy_region ploidyRange ploidy],
              some (.LogicException
                ("ERROR: ploidy bedfile record conflicts with prior record. Bedfile line: \x27"
                  ++ bedRecord.line ++ "\x27\n")))
        else ([], none)
    else if r.currentIndex = INPUT_TYPE.index_t.NOCOMPRESS_REGION.toNat then
      ([.insert_nocompress_region ⟨bedRecord.begin, bedRecord.«end»⟩], none)
    else ([], some (.assertion "Unexpected hts index"))
  | .other => ([], some (.exit_failure "ERROR: invalid input condition.\n"))

/-- The `while (streamData.next())` loop over the records the merged stream still holds.
`hist` is the list of calls made on the processor so far; the result is that list when
the loop is left, and the failure that ended the run if there is one. -/
def driver_loop (opt : starling_options) (env : Collaborators) :
    List HtsRecord → List Call → List Call × Option Failure
  | [], hist => (hist, none)
  | r :: rest, hist =>
    if is_cutoff opt env r then (hist, none)
    else
      let hist1 := hist ++ [Call.set_head_pos (r.currentPos - 1)]
      match dispatch opt env hist1 r with
      | (acts, some f) => (hist1 ++ acts, some f)
      | (acts, none) => driver_loop opt env rest (hist1 ++ acts)

/-- The function `starling_run` from the point where the collaborators are set up: the
check of the BAM filename, the check of the contig id, the loop, and the final `reset()`.
The result is the list of calls made on the processor, and the failure if the run has one. -/
def starling_run (opt : starling_options) (env : Collaborators) (stream : List HtsRecord) :
    List Call × Option Failure :=
  if opt.bam_filename = "" then ([], some (.assertion "! opt.bam_filename.empty()"))
  else if env.tid < 0 then
    ([], some (.LogicException
      ("ERROR: seq_name: \x27" ++ opt.bam_seq_name
        ++ "\x27 is not found in the header of BAM/CRAM file: \x27"
        ++ opt.bam_filename ++ "\x27\n")))
  else
    match driver_loop opt env stream [] with
    | (hist, some f) => (hist, some f)
    | (hist, none) => (hist ++ [Call.reset], none)

/-- The argument of a `set_head_pos` call; nothing for any other call. -/
def Call.headPos : Call → Option pos_t
  | .set_head_pos p => some p
  | _ => none

/-- Whether a call is `set_head_pos`. -/
def Call.isSetHeadPos (c : Call) : Bool := c.headPos.isSome

/-- The arguments of the `set_head_pos` calls of a list of calls, in the order of the calls. -/
def headArgs (calls : List Call) : List pos_t := calls.filterMap Call.headPos

/-- Whether a call is one the driver makes on an alignment-only run: `set_head_pos`,
`process_genomic_read` or `reset`. -/
def Call.isAlignmentRunCall : Call → Bool
  | .set_head_pos _ => true
  | .process_genomic_read _ _ _ => true
  | .reset => true
  | _ => false

/-- Whether a record comes from the alignment stream. -/
def HtsRecord.isAlignment (r : HtsRecord) : Bool := decide (r.getCurrentType = .BAM)

/-- Example options: `max_indel_size` is 50. -/
def exampleOptions : starling_options := ⟨50, "reads.bam", "chr1"⟩

/-- Example collaborators: the report range is `[100, 200)`, the contig is found, the
ploidy column of a BED line is read as 1, and the processor reports a conflict for a
ploidy region exactly when a ploidy region was inserted before. -/
def exampleCollaborators : Collaborators :=
  ⟨⟨100, true, 200⟩, 0, fun _ => .ok 1,
    fun hist _ _ => hist.all (fun c => match c with
      | .insert_ploidy_region _ _ => false
      | _ => true)⟩

/-- Example record: an alignment at position `p`. -/
def alignmentAt (p : pos_t) : HtsRecord := ⟨p, 0, .bam ⟨"read"⟩⟩

/-- The check that the position of each record is at most that of the next one. -/
def isNonDecreasing : List HtsRecord → Bool
  | a :: b :: rest => decide (a.currentPos ≤ b.currentPos) && isNonDecreasing (b :: rest)
  | _ => true

/-- The positions of a stream never decrease from one record to the next. -/
def nonDecreasing (stream : List HtsRecord) : Prop := isNonDecreasing stream = true

instance (stream : List HtsRecord) : Decidable (nonDecreasing stream) :=
  inferInstanceAs (Decidable (isNonDecreasing stream = true))

/-- The loop gets through the records `pre` with the calls `tr`: none of them is cut off
and none of them ends the run. -/
def reaches (opt : starling_options) (env : Collaborators) (pre : List HtsRecord)
    (tr : List Call) : Prop :=
  (∀ x ∈ pre, is_cutoff opt env x = false) ∧ driver_loop opt env pre [] = (tr, none)

instance (opt : starling_options) (env : Collaborators) (pre : List HtsRecord)
    (tr : List Call) : Decidable (reaches opt env pre tr) :=
  inferInstanceAs (Decidable
    ((∀ x ∈ pre, is_cutoff opt env x = false) ∧ driver_loop opt env pre [] = (tr, none)))

/-- The calls of one pass through the loop body for a record that is not cut off, after
the calls `hist`: `set_head_pos` and then the calls of the dispatch. -/
def recordCalls (opt : starling_options) (env : Collaborators) (hist : List Call)
    (r : HtsRecord) : List Call :=
  Call.set_head_pos (r.currentPos - 1) ::
    (dispatch opt env (hist ++ [Call.set_head_pos (r.currentPos - 1)]) r).1

/-- The records for which the loop body runs past the `break` test, in the order of the
stream: the loop of `driver_loop` with the records kept instead of the calls. -/
def dispatched (opt : starling_options) (env : Collaborators) :
    List HtsRecord → List Call → List HtsRecord
  | [], _ => []
  | r :: rest, hist =>
    if is_cutoff opt env r then []
    else
      let hist1 := hist ++ [Call.set_head_pos (r.currentPos - 1)]
      match dispatch opt env hist1 r with
      | (_, some _) => [r]
      | (acts, none) => r :: dispatched opt env rest (hist1 ++ acts)

/-- The calls made when the loop body runs for each of the records in turn, after the
calls `hist`. -/
def callsFor (opt : starling_options) (env : Collaborators) :
    List HtsRecord → List Call → List Call
  | [], hist => hist
  | r :: rest, hist => callsFor opt env rest (hist ++ recordCalls opt env hist r)

/-- Whether two half-open ranges have a position in common. -/
def known_pos_range2.overlaps (a b : known_pos_range2) : Bool :=
  decide (a.begin_pos < b.end_pos) && decide (b.begin_pos < a.end_pos)

/-- Modelled from the spec: `starling_pos_processor::insert_ploidy_region` is not among
the embedded files; the spec says that the ploidy insert returns `false` if the new
region overlaps an existing region with a different ploidy value. The existing regions
are those of the `insert_ploidy_region` calls made before. -/
def spec_insert_ploidy_region (hist : List Call) (range : known_pos_range2)
    (ploidy : Nat) : Bool :=
  hist.all (fun c => match c with
    | .insert_ploidy_region r p => !(r.overlaps range && decide (p ≠ ploidy))
    | _ => true)

/-- Modelled from the spec: `parsePloidyFromBedStrict` is not among the embedded files;
the spec says that the fourth column of the BED line is parsed strictly as an unsigned
integer. The columns are separated by tabs; a line without a fourth column, or with one
that is not a run of digits, is an error. -/
def spec_parsePloidyFromBedStrict (line : String) : Except Failure Nat :=
  match line.data.splitOn '\t' with
  | _ :: _ :: _ :: col :: _ =>
    if col ≠ [] ∧ col.all (fun c => decide ('0' ≤ c) && decide (c ≤ '9')) then
      .ok (col.foldl (fun n c => 10 * n + (c.toNat - '0'.toNat)) 0)
    else .error (.collaborator "unexpected format in ploidy bed file")
  | _ => .error (.collaborator "unexpected format in ploidy bed file")

/-- Example collaborators with the region index and the BED parser as the spec describes
them; the report range is `[100, 200)`. -/
def specCollaborators : Collaborators :=
  ⟨⟨100, true, 200⟩, 0, spec_parsePloidyFromBedStrict, spec_insert_ploidy_region⟩

/-- Example record: a line of the ploidy BED file, at the position where its range begins. -/
def ploidyBedAt (b e : pos_t) (line : String) : HtsRecord :=
  ⟨b, INPUT_TYPE.index_t.PLOIDY_REGION.toNat, .bed ⟨b, e, line⟩⟩

/-- Example record: a line of the forced-genotype VCF with 1-based position `pos`, at the
0-based position `pos - 1` of the stream. -/
def forcedVcfAt (pos : pos_t) (is_indel is_snv is_left_shifted : Bool) (line : String) :
    HtsRecord :=
  ⟨pos - 1, INPUT_TYPE.index_t.FORCED_GT_VARIANTS.toNat,
    .vcf ⟨pos, is_indel, is_snv, is_left_shifted, line⟩⟩

/-- Example record: a line of the candidate indel VCF with 1-based position `pos`. -/
def candidateVcfAt (pos : pos_t) (is_indel is_snv is_left_shifted : Bool) (line : String) :
    HtsRecord :=
  ⟨pos - 1, INPUT_TYPE.index_t.CANDIDATE_INDELS.toNat,
    .vcf ⟨pos, is_indel, is_snv, is_left_shifted, line⟩⟩

/-! ## Text lemmas -/

theorem intercalate_go_append (s : String) :
    ∀ (l : List String) (x y : String),
      String.intercalate.go (x ++ y) s l = x ++ String.intercalate.go y s l
  | [], _, _ => rfl
  | a :: l, x, y => by
    simp only [String.intercalate.go]
    rw [String.append_assoc, String.append_assoc, intercalate_go_append s l x,
      ← String.append_assoc]

theorem intercalate_cons_cons (s a b : String) (l : List String) :
    s.intercalate (a :: b :: l) = a ++ s ++ s.intercalate (b :: l) := by
  simp only [String.intercalate, String.intercalate.go]
  rw [String.append_assoc, intercalate_go_append, intercalate_go_append,
    String.append_assoc]

theorem intercalate_singleton (s a : String) : s.intercalate [a] = a := rfl

/-! ## The filter keeper -/

theorem get_label_defined (i : Nat) (h : i < STRELKA_VCF_FILTERS.SIZE) :
    ∃ label, STRELKA_VCF_FILTERS.get_label i = .ok label := by
  have h10 : i < 10 := h
  interval_cases i <;> exact ⟨_, rfl⟩

theorem bitset_test_lt {N : Nat} (b : bitset N) (i : Nat) (h : i < N) :
    b.test i = .ok (b.bits ⟨i, h⟩) := by
  simp [bitset.test, h]

/-- The text the loop of `write` has produced after visiting the indices `l`, from the
state `(b, os)`: what was in the sink, a separator if one is due, the labels joined. -/
theorem write_loop_spec (k : strelka_filter_keeper) :
    ∀ (l : List Nat), (∀ i ∈ l, i < STRELKA_VCF_FILTERS.SIZE) → ∀ (b : Bool) (os : String),
      ∃ labels : List String,
        List.Forall₂ isLabelOf (l.filter (fun i => decide (k._filters.test i = .ok true)))
          labels ∧
        k.write_loop l (b, os) = .ok (b || !labels.isEmpty,
          match labels with
          | [] => os
          | _ :: _ => (if b then os ++ ";" else os) ++ ";".intercalate labels)
  | [], _, b, os => ⟨[], by simp, by simp [strelka_filter_keeper.write_loop]⟩
  | i :: l, hl, b, os => by
    have hi : i < STRELKA_VCF_FILTERS.SIZE := hl i (List.mem_cons_self _ _)
    have hl1 : ∀ j ∈ l, j < STRELKA_VCF_FILTERS.SIZE :=
      fun j hj => hl j (List.mem_cons_of_mem _ hj)
    cases hb : k._filters.bits ⟨i, hi⟩ with
    | false =>
      obtain ⟨labels, h1, h2⟩ := write_loop_spec k l hl1 b os
      refine ⟨labels, ?_, ?_⟩
      · simpa [List.filter_cons, bitset_test_lt _ i hi, hb] using h1
      · simp only [strelka_filter_keeper.write_loop, strelka_filter_keeper.write_body,
          bitset_test_lt _ i hi, hb]
        exact h2
    | true =>
      obtain ⟨label, hlabel⟩ := get_label_defined i hi
      obtain ⟨labels, h1, h2⟩ :=
        write_loop_spec k l hl1 true ((if b then os ++ ";" else os) ++ label)
      refine ⟨label :: labels, ?_, ?_⟩
      · simp only [List.filter_cons, bitset_test_lt _ i hi, hb, decide_True, if_true]
        exact List.Forall₂.cons hlabel h1
      · simp only [strelka_filter_keeper.write_loop, strelka_filter_keeper.write_body,
          bitset_test_lt _ i hi, hb, hlabel]
        rw [h2]
        cases labels with
        | nil => simp [intercalate_singleton]
        | cons c cs =>
          simp [intercalate_cons_cons, String.append_assoc]

theorem setBits_eq_nil_iff (k : strelka_filter_keeper) :
    k.setBits = [] ↔ k._filters.none = true := by
  simp only [strelka_filter_keeper.setBits, bitset.none, List.filter_eq_nil_iff,
    List.mem_range, decide_eq_true_eq]
  constructor
  · intro h j
    have := h j.val j.isLt
    rw [bitset_test_lt _ _ j.isLt] at this
    cases hj : k._filters.bits j with
    | false => rfl
    | true => exact absurd (by rw [← hj]) this
  · intro h i hi
    rw [bitset_test_lt _ _ hi, h ⟨i, hi⟩]
    simp

/-- The text `write` produces, for any keeper and any sink. -/
theorem write_spec (k : strelka_filter_keeper) (os : String) :
    ∃ labels : List String,
      List.Forall₂ isLabelOf k.setBits labels ∧
      k.write os = .ok (os ++ if k.setBits = [] then "PASS" else ";".intercalate labels) := by
  obtain ⟨labels, h1, h2⟩ := write_loop_spec k (List.range STRELKA_VCF_FILTERS.SIZE)
    (fun i hi => List.mem_range.mp hi) false os
  refine ⟨labels, h1, ?_⟩
  by_cases hn : k._filters.none = true
  · simp [strelka_filter_keeper.write, hn, (setBits_eq_nil_iff k).mpr hn]
  · have hne : k.setBits ≠ [] := fun h => hn ((setBits_eq_nil_iff k).mp h)
    simp only [strelka_filter_keeper.write, hn, h2, if_neg hne]
    cases labels with
    | nil =>
      have : k.setBits = [] := by
        have := h1.length_eq
        simpa [strelka_filter_keeper.setBits] using this
      exact absurd this hne
    | cons c cs => simp

theorem get_label_fin_injective :
    ∀ i j : Fin 10, i ≠ j →
      STRELKA_VCF_FILTERS.get_label i.val = STRELKA_VCF_FILTERS.get_label j.val →
      (i.val = 2 ∧ j.val = 7) ∨ (i.val = 7 ∧ j.val = 2) := by
  decide

theorem get_label_fails_of_ge (idx : Nat) (h : STRELKA_VCF_FILTERS.SIZE ≤ idx) :
    STRELKA_VCF_FILTERS.get_label idx = .error (.assertion "Unknown vcf filter id") := by
  have h10 : 10 ≤ idx := h
  unfold STRELKA_VCF_FILTERS.get_label
  simp only [STRELKA_VCF_FILTERS.index_t.toNat]
  repeat rw [if_neg (by omega)]

theorem get_label_lt_of_ok (idx : Nat) (label : String)
    (h : STRELKA_VCF_FILTERS.get_label idx = .ok label) : idx < STRELKA_VCF_FILTERS.SIZE := by
  by_contra hge
  rw [get_label_fails_of_ge idx (Nat.le_of_not_lt hge)] at h
  cases h

theorem label_no_semicolon (i : Nat) (label : String) (h : isLabelOf i label) :
    ';' ∉ label.data := by
  have hlt : i < 10 := get_label_lt_of_ok i label h
  unfold isLabelOf at h
  interval_cases i <;> (cases h; decide)

theorem intercalate_data :
    ∀ ls : List String,
      (";".intercalate ls).data = [';'].intercalate (ls.map String.data)
  | [] => rfl
  | [a] => by simp [String.intercalate, String.intercalate.go, List.intercalate]
  | a :: b :: l => by
    rw [intercalate_cons_cons, String.data_append, String.data_append, intercalate_data (b :: l)]
    simp [List.intercalate, List.intersperse]

theorem split_intercalate (ls : List String) (hne : ls ≠ [])
    (h : ∀ l ∈ ls, ';' ∉ l.data) :
    ((";".intercalate ls).data.splitOn ';').map String.mk = ls := by
  rw [intercalate_data, List.splitOn_intercalate]
  · simp [List.map_map, Function.comp_def]
  · intro l hl
    obtain ⟨s, hs, rfl⟩ := List.mem_map.mp hl
    exact h s hs
  · simpa using hne

theorem mem_setBits (k : strelka_filter_keeper) (i : Nat) :
    i ∈ k.setBits ↔ k._filters.test i = .ok true := by
  simp only [strelka_filter_keeper.setBits, List.mem_filter, List.mem_range,
    decide_eq_true_eq]
  constructor
  · exact fun h => h.2
  · intro h
    refine ⟨?_, h⟩
    by_contra hge
    simp [bitset.test, hge] at h

theorem setBits_sorted (k : strelka_filter_keeper) : k.setBits.Sorted (· < ·) := by
  unfold strelka_filter_keeper.setBits
  exact (List.pairwise_lt_range _).sublist (List.filter_sublist _)

/-- C1: for every filter keeper and every sink, `write` appends the text `PASS` when no bit
is set, and otherwise appends the labels `get_label(i)` of the set bits `i`, taken in
ascending enumerator order over `0 .. SIZE-1` and joined by single `;` with no separator
before the first or after the last. -/
theorem C1_write_pass_or_joined_labels (k : strelka_filter_keeper) (os : String) :
    ∃ labels : List String,
      (∀ i, i ∈ k.setBits ↔ k._filters.test i = .ok true) ∧
      k.setBits.Sorted (· < ·) ∧
      List.Forall₂ isLabelOf k.setBits labels ∧
      (k._filters.none = true ↔ k.setBits = []) ∧
      k.write os = .ok (os ++ if k._filters.none then "PASS" else ";".intercalate labels) := by
  obtain ⟨labels, h1, h2⟩ := write_spec k os
  refine ⟨labels, mem_setBits k, setBits_sorted k, h1, (setBits_eq_nil_iff k).symm, ?_⟩
  rw [h2]
  by_cases hn : k._filters.none = true
  · simp [hn, (setBits_eq_nil_iff k).mpr hn]
  · have hne : k.setBits ≠ [] := fun h => hn ((setBits_eq_nil_iff k).mp h)
    simp [hn, hne]

theorem keeper_eq_of_bits (k : strelka_filter_keeper) (f : Fin STRELKA_VCF_FILTERS.SIZE → Bool)
    (h : ∀ i, k._filters.bits i = f i) : k = ⟨⟨f⟩⟩ := by
  cases k with
  | mk b =>
    cases b with
    | mk bits =>
      have : bits = f := funext h
      subst this
      rfl

theorem forall₂_isLabelOf_three (labels : List String)
    (h : List.Forall₂ isLabelOf [0, 1, 3] labels) :
    labels = ["HighDepth", "LowEVS", "SpanDel"] := by
  match labels, h with
  | _, .cons ha (.cons hb (.cons hc .nil)) =>
    unfold isLabelOf at ha hb hc
    cases ha
    cases hb
    cases hc
    rfl

/-- C6 (as stated, refuted): setting `HighDepth`, `LowEVS` and `SpanDel` on a new keeper and
writing it gives `HighDepth;LowEVS;SpanDel`, not `HighDepth;SpanDel;LowEVS`; the value of
the enumerator `LowEVS` is 1, not 4. -/
theorem C6_counterexample :
    (do
      let k ← strelka_filter_keeper.new.set .HighDepth
      let k ← k.set .LowEVS
      let k ← k.set .SpanDel
      k.write "") = Except.ok "HighDepth;LowEVS;SpanDel" ∧
    (do
      let k ← strelka_filter_keeper.new.set .HighDepth
      let k ← k.set .LowEVS
      let k ← k.set .SpanDel
      k.write "") ≠ Except.ok "HighDepth;SpanDel;LowEVS" ∧
    STRELKA_VCF_FILTERS.index_t.LowEVS.toNat = 1 := by
  decide

/-- C6 (amended): a filter keeper on which exactly the bits `HighDepth`, `LowEVS` and
`SpanDel` are set is written as the literal `HighDepth;LowEVS;SpanDel`, the ascending
enumerator order being `HighDepth = 0`, `LowEVS = 1`, `SpanDel = 3`. -/
theorem C6_write_three_filters (k : strelka_filter_keeper) (os : String)
    (h : ∀ i : STRELKA_VCF_FILTERS.index_t, k._filters.test i.toNat = .ok true ↔
      (i = .HighDepth ∨ i = .LowEVS ∨ i = .SpanDel)) :
    k.write os = .ok (os ++ "HighDepth;LowEVS;SpanDel") ∧
      STRELKA_VCF_FILTERS.index_t.HighDepth.toNat = 0 ∧
      STRELKA_VCF_FILTERS.index_t.LowEVS.toNat = 1 ∧
      STRELKA_VCF_FILTERS.index_t.SpanDel.toNat = 3 := by
  refine ⟨?_, rfl, rfl, rfl⟩
  have hk : k = ⟨⟨fun i => decide (i.val = 0 ∨ i.val = 1 ∨ i.val = 3)⟩⟩ := by
    apply keeper_eq_of_bits
    intro i
    have hb : ∀ (e : STRELKA_VCF_FILTERS.index_t) (he : e.toNat < STRELKA_VCF_FILTERS.SIZE),
        (k._filters.bits ⟨e.toNat, he⟩ = true ↔ (e = .HighDepth ∨ e = .LowEVS ∨ e = .SpanDel)) := by
      intro e he
      rw [← h e, bitset_test_lt _ _ he]
      constructor
      · intro hh; rw [hh]
      · intro hh; injection hh
    have hn : ∀ (n : Nat) (hn : n < STRELKA_VCF_FILTERS.SIZE),
        (k._filters.bits ⟨n, hn⟩ = true ↔ (n = 0 ∨ n = 1 ∨ n = 3)) := by
      intro n hn
      have h10 : n < 10 := hn
      interval_cases n
      · exact Iff.trans (hb .HighDepth (by decide)) (by decide)
      · exact Iff.trans (hb .LowEVS (by decide)) (by decide)
      · exact Iff.trans (hb .BCNoise (by decide)) (by decide)
      · exact Iff.trans (hb .SpanDel (by decide)) (by decide)
      · exact Iff.trans (hb .QSS_ref (by decide)) (by decide)
      · exact Iff.trans (hb .Repeat (by decide)) (by decide)
      · exact Iff.trans (hb .iHpol (by decide)) (by decide)
      · exact Iff.trans (hb .IndelBCNoise (by decide)) (by decide)
      · exact Iff.trans (hb .QSI_ref (by decide)) (by decide)
      · exact Iff.trans (hb .Nonref (by decide)) (by decide)
    obtain ⟨n, hlt⟩ := i
    have := hn n hlt
    cases hbit : k._filters.bits ⟨n, hlt⟩ with
    | true => rw [hbit] at this; simpa using this.mp rfl
    | false =>
      rw [hbit] at this
      have hno : ¬ (n = 0 ∨ n = 1 ∨ n = 3) := fun hh => by simpa using this.mpr hh
      simpa using hno
  subst hk
  obtain ⟨labels, h1, h2⟩ := write_spec
    (⟨⟨fun i => decide (i.val = 0 ∨ i.val = 1 ∨ i.val = 3)⟩⟩ : strelka_filter_keeper) os
  have hs : (⟨⟨fun i => decide (i.val = 0 ∨ i.val = 1 ∨ i.val = 3)⟩⟩ :
      strelka_filter_keeper).setBits = [0, 1, 3] := by decide
  rw [hs] at h1 h2
  rw [h2, forall₂_isLabelOf_three labels h1]
  rfl

/-- C6 (amended), at the keeper with the three bits set and an empty sink. -/
theorem C6_write_three_filters_witness :
    (∀ i : STRELKA_VCF_FILTERS.index_t,
      (⟨⟨fun j => decide (j.val = 0 ∨ j.val = 1 ∨ j.val = 3)⟩⟩ :
        strelka_filter_keeper)._filters.test i.toNat = .ok true ↔
      (i = .HighDepth ∨ i = .LowEVS ∨ i = .SpanDel)) ∧
    ((⟨⟨fun j => decide (j.val = 0 ∨ j.val = 1 ∨ j.val = 3)⟩⟩ :
        strelka_filter_keeper).write "" = .ok ("" ++ "HighDepth;LowEVS;SpanDel") ∧
      STRELKA_VCF_FILTERS.index_t.HighDepth.toNat = 0 ∧
      STRELKA_VCF_FILTERS.index_t.LowEVS.toNat = 1 ∧
      STRELKA_VCF_FILTERS.index_t.SpanDel.toNat = 3) :=
  ⟨fun i => by cases i <;> decide,
    C6_write_three_filters _ "" (fun i => by cases i <;> decide)⟩

theorem forall₂_exists_left {α β : Type} {R : α → β → Prop} {l₁ : List α} {l₂ : List β}
    (h : List.Forall₂ R l₁ l₂) : ∀ b ∈ l₂, ∃ a, R a b := by
  induction h with
  | nil => intro b hb; cases hb
  | cons hab _ ih =>
    intro b hb
    rcases List.mem_cons.mp hb with rfl | hb
    · exact ⟨_, hab⟩
    · exact ih b hb

/-- C7 (as stated, refuted): with no bit set `write` gives `PASS`, and splitting that on
`;` gives the one piece `PASS`, which is the label of no bit, while no bit is set; and the
keepers with only `BCNoise` set and with only `IndelBCNoise` set are written as the same
text, so the set of filters cannot be read back from the text. -/
theorem C7_counterexample :
    strelka_filter_keeper.new.write "" = .ok "PASS" ∧
    splitOnSemicolon "PASS" = ["PASS"] ∧
    strelka_filter_keeper.new.setBits = [] ∧
    ¬ List.Forall₂ isLabelOf strelka_filter_keeper.new.setBits (splitOnSemicolon "PASS") ∧
    ((strelka_filter_keeper.new.set .BCNoise).bind (fun k => k.write "") = .ok "BCNoise" ∧
      (strelka_filter_keeper.new.set .IndelBCNoise).bind (fun k => k.write "")
        = .ok "BCNoise") := by
  refine ⟨by decide, by decide, by decide, ?_, by decide, by decide⟩
  have h1 : strelka_filter_keeper.new.setBits = [] := by decide
  have h2 : splitOnSemicolon "PASS" = ["PASS"] := by decide
  rw [h1, h2]
  intro h
  cases h

theorem writtenAs_eq_of_label (i j : Nat) (label : String)
    (hi : isLabelOf i label) (hj : isLabelOf j label) : writtenAs i = writtenAs j := by
  have hi10 : i < 10 := get_label_lt_of_ok i label hi
  have hj10 : j < 10 := get_label_lt_of_ok j label hj
  by_cases hij : i = j
  · rw [hij]
  · have hne : (⟨i, hi10⟩ : Fin 10) ≠ ⟨j, hj10⟩ := fun h => hij (Fin.mk.inj h)
    have heq : STRELKA_VCF_FILTERS.get_label i = STRELKA_VCF_FILTERS.get_label j := by
      unfold isLabelOf at hi hj
      rw [hi, hj]
    rcases get_label_fin_injective ⟨i, hi10⟩ ⟨j, hj10⟩ hne heq with ⟨h1, h2⟩ | ⟨h1, h2⟩
    · simp only at h1 h2
      subst h1
      subst h2
      decide
    · simp only at h1 h2
      subst h1
      subst h2
      decide

theorem writtenAs_eq_of_labels {l₁ l₂ : List Nat} {labels : List String}
    (h₁ : List.Forall₂ isLabelOf l₁ labels) :
    List.Forall₂ isLabelOf l₂ labels → l₁.map writtenAs = l₂.map writtenAs := by
  induction h₁ generalizing l₂ with
  | nil => intro h₂; cases h₂; rfl
  | cons hab _ ih =>
    intro h₂
    cases h₂ with
    | cons hcb h₂ =>
      simp only [List.map_cons]
      rw [writtenAs_eq_of_label _ _ _ hab hcb, ih h₂]

/-- C7 (amended): for every filter keeper with at least one bit set, splitting the text
that `write` puts into an empty sink on `;` yields exactly the labels of the set bits, in
ascending enumerator order; with no bit set the text is `PASS`; and two keepers with a bit
set that are written as the same text have the same set bits once `IndelBCNoise` is
read as `BCNoise`, the filter whose label it shares. -/
theorem C7_split_written_labels (k : strelka_filter_keeper) :
    (k._filters.none = false →
      ∃ text, k.write "" = .ok text ∧
        List.Forall₂ isLabelOf k.setBits (splitOnSemicolon text)) ∧
    (k._filters.none = true → k.write "" = .ok "PASS") ∧
    (∀ k2 : strelka_filter_keeper, k._filters.none = false → k2._filters.none = false →
      k.write "" = k2.write "" → k.setBits.map writtenAs = k2.setBits.map writtenAs) := by
  have key : ∀ q : strelka_filter_keeper, q._filters.none = false →
      ∃ text, q.write "" = .ok text ∧
        List.Forall₂ isLabelOf q.setBits (splitOnSemicolon text) := by
    intro q hn
    obtain ⟨labels, h1, h2⟩ := write_spec q ""
    have hne : q.setBits ≠ [] := fun h => by
      rw [(setBits_eq_nil_iff q).mp h] at hn
      cases hn
    have hlne : labels ≠ [] := by
      intro hl
      subst hl
      exact hne (by simpa using h1.length_eq)
    refine ⟨";".intercalate labels, ?_, ?_⟩
    · rw [h2, if_neg hne]
      simp
    · unfold splitOnSemicolon
      rw [split_intercalate labels hlne]
      · exact h1
      · intro l hl
        obtain ⟨i, hi⟩ := forall₂_exists_left h1 l hl
        exact label_no_semicolon i l hi
  refine ⟨key k, ?_, ?_⟩
  · intro hn
    obtain ⟨labels, _, h2⟩ := write_spec k ""
    rw [h2, if_pos ((setBits_eq_nil_iff k).mpr hn)]
    simp
  · intro k2 hn hn2 hw
    obtain ⟨t1, hw1, hl1⟩ := key k hn
    obtain ⟨t2, hw2, hl2⟩ := key k2 hn2
    rw [hw1, hw2] at hw
    injection hw with ht
    subst ht
    exact writtenAs_eq_of_labels hl1 hl2

/-- C7 (amended), at the keeper with only `SpanDel` set. -/
theorem C7_split_written_labels_witness :
    ∃ text, (⟨⟨fun j => decide (j.val = 3)⟩⟩ : strelka_filter_keeper).write "" = .ok text ∧
      List.Forall₂ isLabelOf
        (⟨⟨fun j => decide (j.val = 3)⟩⟩ : strelka_filter_keeper).setBits
        (splitOnSemicolon text) :=
  (C7_split_written_labels ⟨⟨fun j => decide (j.val = 3)⟩⟩).1 (by decide)

/-- C8: `get_label` is defined on every filter ID below `SIZE`; the ten IDs are mapped onto
exactly the nine labels `HighDepth`, `LowEVS`, `BCNoise`, `SpanDel`, `QSS_ref`, `Repeat`,
`iHpol`, `QSI_ref`, `Nonref`; `IndelBCNoise` and `BCNoise` both give `BCNoise`, every other
ID gives the label of its own name, no other two distinct IDs share a label; and for an
index at or above `SIZE` the function fails (its assertion). -/
theorem C8_get_label_table :
    (∀ idx, idx < STRELKA_VCF_FILTERS.SIZE →
      ∃ label, STRELKA_VCF_FILTERS.get_label idx = .ok label) ∧
    (∀ label, (∃ idx, idx < STRELKA_VCF_FILTERS.SIZE ∧
        STRELKA_VCF_FILTERS.get_label idx = .ok label) ↔
      label ∈ ["HighDepth", "LowEVS", "BCNoise", "SpanDel", "QSS_ref", "Repeat", "iHpol",
        "QSI_ref", "Nonref"]) ∧
    (STRELKA_VCF_FILTERS.get_label STRELKA_VCF_FILTERS.index_t.IndelBCNoise.toNat
        = .ok "BCNoise" ∧
      STRELKA_VCF_FILTERS.get_label STRELKA_VCF_FILTERS.index_t.BCNoise.toNat
        = .ok "BCNoise") ∧
    (STRELKA_VCF_FILTERS.get_label STRELKA_VCF_FILTERS.index_t.HighDepth.toNat
        = .ok "HighDepth" ∧
      STRELKA_VCF_FILTERS.get_label STRELKA_VCF_FILTERS.index_t.LowEVS.toNat
        = .ok "LowEVS" ∧
      STRELKA_VCF_FILTERS.get_label STRELKA_VCF_FILTERS.index_t.SpanDel.toNat
        = .ok "SpanDel" ∧
      STRELKA_VCF_FILTERS.get_label STRELKA_VCF_FILTERS.index_t.QSS_ref.toNat
        = .ok "QSS_ref" ∧
      STRELKA_VCF_FILTERS.get_label STRELKA_VCF_FILTERS.index_t.Repeat.toNat
        = .ok "Repeat" ∧
      STRELKA_VCF_FILTERS.get_label STRELKA_VCF_FILTERS.index_t.iHpol.toNat
        = .ok "iHpol" ∧
      STRELKA_VCF_FILTERS.get_label STRELKA_VCF_FILTERS.index_t.QSI_ref.toNat
        = .ok "QSI_ref" ∧
      STRELKA_VCF_FILTERS.get_label STRELKA_VCF_FILTERS.index_t.Nonref.toNat
        = .ok "Nonref") ∧
    (∀ i j, i < STRELKA_VCF_FILTERS.SIZE → j < STRELKA_VCF_FILTERS.SIZE → i ≠ j →
      STRELKA_VCF_FILTERS.get_label i = STRELKA_VCF_FILTERS.get_label j →
      (i = STRELKA_VCF_FILTERS.index_t.BCNoise.toNat ∧
          j = STRELKA_VCF_FILTERS.index_t.IndelBCNoise.toNat) ∨
        (i = STRELKA_VCF_FILTERS.index_t.IndelBCNoise.toNat ∧
          j = STRELKA_VCF_FILTERS.index_t.BCNoise.toNat)) ∧
    (∀ idx, STRELKA_VCF_FILTERS.SIZE ≤ idx →
      ∃ e, STRELKA_VCF_FILTERS.get_label idx = .error e) := by
  refine ⟨get_label_defined, ?_, ⟨rfl, rfl⟩, ⟨rfl, rfl, rfl, rfl, rfl, rfl, rfl, rfl⟩, ?_, ?_⟩
  · intro label
    constructor
    · rintro ⟨idx, hlt, h⟩
      have h10 : idx < 10 := hlt
      interval_cases idx <;> (cases h; decide)
    · intro h
      simp only [List.mem_cons, List.mem_singleton, List.not_mem_nil, or_false] at h
      rcases h with rfl | rfl | rfl | rfl | rfl | rfl | rfl | rfl | rfl
      · exact ⟨0, by decide, rfl⟩
      · exact ⟨1, by decide, rfl⟩
      · exact ⟨2, by decide, rfl⟩
      · exact ⟨3, by decide, rfl⟩
      · exact ⟨4, by decide, rfl⟩
      · exact ⟨5, by decide, rfl⟩
      · exact ⟨6, by decide, rfl⟩
      · exact ⟨8, by decide, rfl⟩
      · exact ⟨9, by decide, rfl⟩
  · intro i j hi hj hij heq
    have hne : (⟨i, hi⟩ : Fin 10) ≠ ⟨j, hj⟩ := fun h => hij (Fin.mk.inj h)
    exact get_label_fin_injective ⟨i, hi⟩ ⟨j, hj⟩ hne heq
  · intro idx h
    exact ⟨_, get_label_fails_of_ge idx h⟩

theorem bitset_set_lt {N : Nat} (b : bitset N) (i : Nat) (h : i < N) :
    b.set i = .ok ⟨Function.update b.bits ⟨i, h⟩ true⟩ := by
  simp [bitset.set, h]

theorem bitset_test_update {N : Nat} (b : bitset N) (i : Nat) (h : i < N) (j : Nat) :
    (⟨Function.update b.bits ⟨i, h⟩ true⟩ : bitset N).test j =
      if j = i then .ok true else b.test j := by
  by_cases hj : j < N
  · rw [bitset_test_lt _ j hj, bitset_test_lt _ j hj]
    by_cases hji : j = i
    · subst hji
      simp
    · have : (⟨j, hj⟩ : Fin N) ≠ ⟨i, h⟩ := fun hh => hji (Fin.mk.inj hh)
      simp [Function.update_noteq this, hji]
  · have hji : j ≠ i := fun hh => hj (hh ▸ h)
    simp [bitset.test, hj, hji]

/-- C9: for every filter keeper and every filter ID `i` (an enumerator below `SIZE`),
`set(i)` fails if and only if bit `i` is already set; when bit `i` is not set the call
succeeds, and after a successful call bit `i` is set and every other bit is as before. -/
theorem C9_set_fails_iff_already_set (k : strelka_filter_keeper)
    (i : STRELKA_VCF_FILTERS.index_t) (hi : i.toNat < STRELKA_VCF_FILTERS.SIZE) :
    ((∃ e, k.set i = .error e) ↔ k._filters.test i.toNat = .ok true) ∧
    (k._filters.test i.toNat = .ok false → ∃ k2, k.set i = .ok k2) ∧
    (∀ k2, k.set i = .ok k2 →
      k2._filters.test i.toNat = .ok true ∧
      ∀ j, j ≠ i.toNat → k2._filters.test j = k._filters.test j) := by
  cases hb : k._filters.bits ⟨i.toNat, hi⟩ with
  | true =>
    have hset : k.set i = .error (.assertion "Setting filter twice") := by
      simp [strelka_filter_keeper.set, bitset_test_lt _ _ hi, hb]
    refine ⟨?_, ?_, ?_⟩
    · rw [hset, bitset_test_lt _ _ hi, hb]
      exact ⟨fun _ => rfl, fun _ => ⟨_, rfl⟩⟩
    · rw [bitset_test_lt _ _ hi, hb]
      intro h
      cases h
    · intro k2 h
      rw [hset] at h
      cases h
  | false =>
    have hset : k.set i = .ok ⟨⟨Function.update k._filters.bits ⟨i.toNat, hi⟩ true⟩⟩ := by
      simp [strelka_filter_keeper.set, bitset_test_lt _ _ hi, hb, bitset_set_lt _ _ hi]
    refine ⟨?_, ?_, ?_⟩
    · rw [hset, bitset_test_lt _ _ hi, hb]
      constructor
      · rintro ⟨e, he⟩
        cases he
      · intro h
        cases h
    · intro _
      exact ⟨_, hset⟩
    · intro k2 h
      rw [hset] at h
      injection h with h
      subst h
      constructor
      · rw [bitset_test_update]
        simp
      · intro j hj
        rw [bitset_test_update]
        simp [hj]

/-- C9 at the new keeper and the filter `SpanDel`. -/
theorem C9_set_fails_iff_already_set_witness :
    STRELKA_VCF_FILTERS.index_t.SpanDel.toNat < STRELKA_VCF_FILTERS.SIZE ∧
    (((∃ e, strelka_filter_keeper.new.set .SpanDel = .error e) ↔
        strelka_filter_keeper.new._filters.test
          STRELKA_VCF_FILTERS.index_t.SpanDel.toNat = .ok true) ∧
      (strelka_filter_keeper.new._filters.test
          STRELKA_VCF_FILTERS.index_t.SpanDel.toNat = .ok false →
        ∃ k2, strelka_filter_keeper.new.set .SpanDel = .ok k2) ∧
      (∀ k2, strelka_filter_keeper.new.set .SpanDel = .ok k2 →
        k2._filters.test STRELKA_VCF_FILTERS.index_t.SpanDel.toNat = .ok true ∧
        ∀ j, j ≠ STRELKA_VCF_FILTERS.index_t.SpanDel.toNat →
          k2._filters.test j = strelka_filter_keeper.new._filters.test j)) :=
  ⟨by decide, C9_set_fails_iff_already_set strelka_filter_keeper.new .SpanDel (by decide)⟩

/-! ## The driver loop -/

theorem driver_loop_nil (opt : starling_options) (env : Collaborators) (hist : List Call) :
    driver_loop opt env [] hist = (hist, none) := rfl

theorem driver_loop_cutoff (opt : starling_options) (env : Collaborators) (r : HtsRecord)
    (rest : List HtsRecord) (hist : List Call) (h : is_cutoff opt env r = true) :
    driver_loop opt env (r :: rest) hist = (hist, none) := by
  simp [driver_loop, h]

/-- One turn of the loop for a record that is not cut off. -/
theorem driver_loop_cons (opt : starling_options) (env : Collaborators) (r : HtsRecord)
    (rest : List HtsRecord) (hist : List Call) (h : is_cutoff opt env r = false) :
    driver_loop opt env (r :: rest) hist =
      match (dispatch opt env (hist ++ [Call.set_head_pos (r.currentPos - 1)]) r).2 with
      | some f =>
        (hist ++ Call.set_head_pos (r.currentPos - 1) ::
          (dispatch opt env (hist ++ [Call.set_head_pos (r.currentPos - 1)]) r).1, some f)
      | none =>
        driver_loop opt env rest
          (hist ++ Call.set_head_pos (r.currentPos - 1) ::
            (dispatch opt env (hist ++ [Call.set_head_pos (r.currentPos - 1)]) r).1) := by
  rcases hd : dispatch opt env (hist ++ [Call.set_head_pos (r.currentPos - 1)]) r with ⟨acts, f⟩
  cases f <;> simp [driver_loop, h, hd, List.append_assoc]

theorem driver_loop_append_ok (opt : starling_options) (env : Collaborators) :
    ∀ (pre rest : List HtsRecord) (hist tr : List Call),
      (∀ x ∈ pre, is_cutoff opt env x = false) →
      driver_loop opt env pre hist = (tr, none) →
      driver_loop opt env (pre ++ rest) hist = driver_loop opt env rest tr
  | [], rest, hist, tr, _, h => by
    simp only [driver_loop_nil, Prod.mk.injEq, and_true] at h
    subst h
    rfl
  | r :: pre, rest, hist, tr, hpre, h => by
    have hr : is_cutoff opt env r = false := hpre r (List.mem_cons_self _ _)
    have hpre1 : ∀ x ∈ pre, is_cutoff opt env x = false :=
      fun x hx => hpre x (List.mem_cons_of_mem _ hx)
    rw [List.cons_append, driver_loop_cons opt env r _ hist hr]
    rw [driver_loop_cons opt env r _ hist hr] at h
    cases hf : (dispatch opt env (hist ++ [Call.set_head_pos (r.currentPos - 1)]) r).2 with
    | some f =>
      rw [hf] at h
      cases h
    | none =>
      rw [hf] at h
      simp only
      exact driver_loop_append_ok opt env pre rest _ tr hpre1 h

theorem driver_loop_append_cutoff (opt : starling_options) (env : Collaborators) :
    ∀ (pre : List HtsRecord) (r : HtsRecord) (post : List HtsRecord) (hist : List Call),
      is_cutoff opt env r = true →
      driver_loop opt env (pre ++ r :: post) hist = driver_loop opt env pre hist
  | [], r, post, hist, h => by
    rw [List.nil_append, driver_loop_cutoff opt env r post hist h, driver_loop_nil]
  | x :: pre, r, post, hist, h => by
    cases hx : is_cutoff opt env x with
    | true =>
      rw [List.cons_append, driver_loop_cutoff opt env x _ hist hx,
        driver_loop_cutoff opt env x _ hist hx]
    | false =>
      rw [List.cons_append, driver_loop_cons opt env x _ hist hx,
        driver_loop_cons opt env x _ hist hx]
      cases (dispatch opt env (hist ++ [Call.set_head_pos (x.currentPos - 1)]) x).2 with
      | some f => rfl
      | none => exact driver_loop_append_cutoff opt env pre r post _ h

theorem is_cutoff_eq_true_iff (opt : starling_options) (env : Collaborators) (r : HtsRecord) :
    is_cutoff opt env r = true ↔
      env.report_range_limit.is_end_pos = true ∧
        env.report_range_limit.end_pos + (opt.max_indel_size : pos_t) ≤ r.currentPos := by
  simp [is_cutoff]

theorem is_cutoff_eq_false_of_lt (opt : starling_options) (env : Collaborators) (r : HtsRecord)
    (h : r.currentPos < env.report_range_limit.end_pos + (opt.max_indel_size : pos_t)) :
    is_cutoff opt env r = false := by
  cases hc : is_cutoff opt env r with
  | false => rfl
  | true =>
    exact absurd ((is_cutoff_eq_true_iff opt env r).mp hc).2 (not_le.mpr h)

theorem dispatch_no_head_no_reset (opt : starling_options) (env : Collaborators)
    (hist : List Call) (r : HtsRecord) :
    ∀ c ∈ (dispatch opt env hist r).1, c.isSetHeadPos = false ∧ c ≠ Call.reset := by
  rcases r with ⟨pos, idx, payload⟩
  cases payload with
  | bam read => simp [dispatch, Call.isSetHeadPos, Call.headPos]
  | vcf vcfRecord =>
    simp only [dispatch]
    split_ifs <;> simp [Call.isSetHeadPos, Call.headPos]
  | bed bedRecord =>
    simp only [dispatch]
    split_ifs
    · cases env.parsePloidyFromBedStrict bedRecord.line with
      | error e => simp
      | ok ploidy =>
        simp only
        split_ifs <;> simp [Call.isSetHeadPos, Call.headPos]
    · simp [Call.isSetHeadPos, Call.headPos]
    · simp
  | other => simp [dispatch]

theorem headArgs_append (a b : List Call) : headArgs (a ++ b) = headArgs a ++ headArgs b := by
  simp [headArgs, List.filterMap_append]

theorem headArgs_dispatch (opt : starling_options) (env : Collaborators)
    (hist : List Call) (r : HtsRecord) : headArgs (dispatch opt env hist r).1 = [] := by
  unfold headArgs
  rw [List.filterMap_eq_nil_iff]
  intro c hc
  have := (dispatch_no_head_no_reset opt env hist r c hc).1
  cases hp : c.headPos with
  | none => rfl
  | some p => simp [Call.isSetHeadPos, hp] at this

theorem nonDecreasing_pairwise :
    ∀ (s : List HtsRecord), nonDecreasing s →
      s.Pairwise (fun a b => a.currentPos ≤ b.currentPos)
  | [], _ => List.Pairwise.nil
  | [_], _ => List.pairwise_singleton _ _
  | a :: b :: rest, h => by
    unfold nonDecreasing at h
    simp only [isNonDecreasing, Bool.and_eq_true, decide_eq_true_eq] at h
    have ih := nonDecreasing_pairwise (b :: rest) h.2
    refine List.pairwise_cons.mpr ⟨?_, ih⟩
    intro x hx
    rcases List.mem_cons.mp hx with rfl | hx
    · exact h.1
    · exact le_trans h.1 ((List.pairwise_cons.mp ih).1 x hx)

/-- What the loop adds to the calls made before it: no `reset`, and `set_head_pos` only
with the position before that of a record of the stream; for a stream with non-decreasing
positions these arguments never decrease. -/
theorem driver_loop_calls (opt : starling_options) (env : Collaborators) :
    ∀ (s : List HtsRecord) (hist : List Call),
      ∃ more, (driver_loop opt env s hist).1 = hist ++ more ∧
        Call.reset ∉ more ∧
        (∀ q ∈ headArgs more, ∃ x ∈ s, q = x.currentPos - 1) ∧
        (s.Pairwise (fun a b => a.currentPos ≤ b.currentPos) →
          (headArgs more).Sorted (· ≤ ·))
  | [], hist => ⟨[], by simp [driver_loop_nil], by simp, by simp [headArgs], by simp [headArgs]⟩
  | r :: rest, hist => by
    cases hr : is_cutoff opt env r with
    | true =>
      exact ⟨[], by simp [driver_loop_cutoff opt env r rest hist hr], by simp,
        by simp [headArgs], by simp [headArgs]⟩
    | false =>
      rw [driver_loop_cons opt env r rest hist hr]
      have hno := dispatch_no_head_no_reset opt env
        (hist ++ [Call.set_head_pos (r.currentPos - 1)]) r
      have hha := headArgs_dispatch opt env
        (hist ++ [Call.set_head_pos (r.currentPos - 1)]) r
      cases hf : (dispatch opt env (hist ++ [Call.set_head_pos (r.currentPos - 1)]) r).2 with
      | some f =>
        refine ⟨Call.set_head_pos (r.currentPos - 1) ::
          (dispatch opt env (hist ++ [Call.set_head_pos (r.currentPos - 1)]) r).1,
          rfl, ?_, ?_, ?_⟩
        · intro hmem
          rcases List.mem_cons.mp hmem with h | h
          · cases h
          · exact (hno _ h).2 rfl
        · intro q hq
          have : headArgs (Call.set_head_pos (r.currentPos - 1) ::
              (dispatch opt env (hist ++ [Call.set_head_pos (r.currentPos - 1)]) r).1)
              = [r.currentPos - 1] := by
            rw [← List.singleton_append, headArgs_append, hha]
            rfl
          rw [this] at hq
          exact ⟨r, List.mem_cons_self _ _, List.mem_singleton.mp hq⟩
        · intro _
          have : headArgs (Call.set_head_pos (r.currentPos - 1) ::
              (dispatch opt env (hist ++ [Call.set_head_pos (r.currentPos - 1)]) r).1)
              = [r.currentPos - 1] := by
            rw [← List.singleton_append, headArgs_append, hha]
            rfl
          rw [this]
          exact List.sorted_singleton _
      | none =>
        obtain ⟨more, h1, h2, h3, h4⟩ := driver_loop_calls opt env rest
          (hist ++ Call.set_head_pos (r.currentPos - 1) ::
            (dispatch opt env (hist ++ [Call.set_head_pos (r.currentPos - 1)]) r).1)
        have hargs : headArgs (Call.set_head_pos (r.currentPos - 1) ::
            (dispatch opt env (hist ++ [Call.set_head_pos (r.currentPos - 1)]) r).1 ++ more)
            = (r.currentPos - 1) :: headArgs more := by
          rw [headArgs_append, ← List.singleton_append, headArgs_append, hha]
          rfl
        refine ⟨Call.set_head_pos (r.currentPos - 1) ::
          (dispatch opt env (hist ++ [Call.set_head_pos (r.currentPos - 1)]) r).1 ++ more,
          ?_, ?_, ?_, ?_⟩
        · simp only
          rw [h1]
          simp [List.append_assoc]
        · intro hmem
          rcases List.mem_append.mp hmem with h | h
          · rcases List.mem_cons.mp h with h | h
            · cases h
            · exact (hno _ h).2 rfl
          · exact h2 h
        · intro q hq
          rw [hargs] at hq
          rcases List.mem_cons.mp hq with h | h
          · exact ⟨r, List.mem_cons_self _ _, h⟩
          · obtain ⟨x, hx, hxq⟩ := h3 q h
            exact ⟨x, List.mem_cons_of_mem _ hx, hxq⟩
        · intro hs
          rw [hargs]
          rw [List.pairwise_cons] at hs
          refine List.sorted_cons.mpr ⟨?_, h4 hs.2⟩
          intro q hq
          obtain ⟨x, hx, hxq⟩ := h3 q hq
          have := hs.1 x hx
          rw [hxq]
          exact Int.sub_le_sub_right this 1

theorem driver_loop_alignment (opt : starling_options) (env : Collaborators) :
    ∀ (s : List HtsRecord) (hist : List Call), (∀ x ∈ s, x.isAlignment = true) →
      ∃ more, driver_loop opt env s hist = (hist ++ more, none) ∧
        ∀ c ∈ more, c.isAlignmentRunCall = true
  | [], hist, _ => ⟨[], by simp [driver_loop_nil], by simp⟩
  | r :: rest, hist, hs => by
    have hrest : ∀ x ∈ rest, x.isAlignment = true :=
      fun x hx => hs x (List.mem_cons_of_mem _ hx)
    cases hr : is_cutoff opt env r with
    | true => exact ⟨[], by simp [driver_loop_cutoff opt env r rest hist hr], by simp⟩
    | false =>
      have hbam := hs r (List.mem_cons_self _ _)
      rcases r with ⟨pos, idx, payload⟩
      cases payload with
      | bam read =>
        obtain ⟨more, h1, h2⟩ := driver_loop_alignment opt env rest
          (hist ++ [Call.set_head_pos (pos - 1),
            Call.process_genomic_read read pos env.report_range_limit.begin_pos]) hrest
        refine ⟨Call.set_head_pos (pos - 1) ::
          Call.process_genomic_read read pos env.report_range_limit.begin_pos :: more, ?_, ?_⟩
        · rw [driver_loop_cons opt env _ rest hist hr]
          simp only [dispatch]
          rw [h1]
          simp [List.append_assoc]
        · intro c hc
          rcases List.mem_cons.mp hc with h | h
          · subst h; rfl
          · rcases List.mem_cons.mp h with h | h
            · subst h; rfl
            · exact h2 c h
      | vcf v => simp [HtsRecord.isAlignment, HtsRecord.getCurrentType] at hbam
      | bed b => simp [HtsRecord.isAlignment, HtsRecord.getCurrentType] at hbam
      | other => simp [HtsRecord.isAlignment, HtsRecord.getCurrentType] at hbam

/-- C2: when the report range has an end, the loop stops at a record whose position is at
or beyond `end_pos + max_indel_size` (so at the first such record): the calls made and the
outcome of the run are those of the run on the records before it, with no `set_head_pos`
and no dispatch for that record or a later one; and a record at position
`end_pos + max_indel_size - 1` that the loop reaches gets `set_head_pos` and then its
dispatch. -/
theorem C2_range_cutoff (opt : starling_options) (env : Collaborators)
    (hend : env.report_range_limit.is_end_pos = true) :
    (∀ (pre : List HtsRecord) (r : HtsRecord) (post : List HtsRecord),
      r.currentPos ≥ env.report_range_limit.end_pos + (opt.max_indel_size : pos_t) →
      (∀ hist, driver_loop opt env (pre ++ r :: post) hist = driver_loop opt env pre hist) ∧
      starling_run opt env (pre ++ r :: post) = starling_run opt env pre) ∧
    (∀ (pre : List HtsRecord) (r : HtsRecord) (post : List HtsRecord) (tr : List Call),
      (∀ x ∈ pre,
        x.currentPos < env.report_range_limit.end_pos + (opt.max_indel_size : pos_t)) →
      driver_loop opt env pre [] = (tr, none) →
      r.currentPos = env.report_range_limit.end_pos + (opt.max_indel_size : pos_t) - 1 →
      ∃ more, (driver_loop opt env (pre ++ r :: post) []).1 =
        tr ++ Call.set_head_pos (r.currentPos - 1) ::
          (dispatch opt env (tr ++ [Call.set_head_pos (r.currentPos - 1)]) r).1 ++ more) := by
  constructor
  · intro pre r post hr
    have hcut : is_cutoff opt env r = true := (is_cutoff_eq_true_iff opt env r).mpr ⟨hend, hr⟩
    refine ⟨fun hist => driver_loop_append_cutoff opt env pre r post hist hcut, ?_⟩
    unfold starling_run
    rw [driver_loop_append_cutoff opt env pre r post [] hcut]
  · intro pre r post tr hpre hrun hr
    have hpre1 : ∀ x ∈ pre, is_cutoff opt env x = false :=
      fun x hx => is_cutoff_eq_false_of_lt opt env x (hpre x hx)
    have hrc : is_cutoff opt env r = false :=
      is_cutoff_eq_false_of_lt opt env r (by rw [hr]; exact sub_one_lt _)
    rw [driver_loop_append_ok opt env pre (r :: post) [] tr hpre1 hrun,
      driver_loop_cons opt env r post tr hrc]
    cases hf : (dispatch opt env (tr ++ [Call.set_head_pos (r.currentPos - 1)]) r).2 with
    | some f => exact ⟨[], by simp⟩
    | none =>
      obtain ⟨more, h1, _⟩ := driver_loop_calls opt env post
        (tr ++ Call.set_head_pos (r.currentPos - 1) ::
          (dispatch opt env (tr ++ [Call.set_head_pos (r.currentPos - 1)]) r).1)
      exact ⟨more, by simp only; rw [h1]⟩

/-- C2 on the report range `[100, 200)` with `max_indel_size = 50`: alignments at 249, 250
and 251 give the calls of the alignment at 249 alone, and the alignment at 249 gets
`set_head_pos(248)` and its `process_genomic_read`. -/
theorem C2_range_cutoff_witness :
    exampleCollaborators.report_range_limit.is_end_pos = true ∧
    starling_run exampleOptions exampleCollaborators
        ([alignmentAt 120] ++ alignmentAt 250 :: [alignmentAt 251]) =
      starling_run exampleOptions exampleCollaborators [alignmentAt 120] ∧
    (∃ more, (driver_loop exampleOptions exampleCollaborators
        ([alignmentAt 120] ++ alignmentAt 249 :: [alignmentAt 250]) []).1 =
      [Call.set_head_pos 119, Call.process_genomic_read ⟨"read"⟩ 120 100] ++
        Call.set_head_pos ((alignmentAt 249).currentPos - 1) ::
          (dispatch exampleOptions exampleCollaborators
            ([Call.set_head_pos 119, Call.process_genomic_read ⟨"read"⟩ 120 100] ++
              [Call.set_head_pos ((alignmentAt 249).currentPos - 1)]) (alignmentAt 249)).1
          ++ more) :=
  ⟨rfl,
    ((C2_range_cutoff exampleOptions exampleCollaborators rfl).1
      [alignmentAt 120] (alignmentAt 250) [alignmentAt 251] (by decide)).2,
    (C2_range_cutoff exampleOptions exampleCollaborators rfl).2
      [alignmentAt 120] (alignmentAt 249) [alignmentAt 250]
      [Call.set_head_pos 119, Call.process_genomic_read ⟨"read"⟩ 120 100]
      (by decide) (by decide) (by decide)⟩

/-- C3 (as stated, refuted): on the stream of an alignment at position 5 followed by an
alignment at position 3 no record is cut off, and the calls are `set_head_pos(4)`, the
read at 5, `set_head_pos(2)`, the read at 3: the dispatch of the record at 3 is preceded
by a `set_head_pos` call whose argument 4 is greater than `3 - 1`. -/
theorem C3_counterexample :
    is_cutoff exampleOptions exampleCollaborators (alignmentAt 5) = false ∧
    is_cutoff exampleOptions exampleCollaborators (alignmentAt 3) = false ∧
    driver_loop exampleOptions exampleCollaborators [alignmentAt 5, alignmentAt 3] [] =
      ([Call.set_head_pos 4, Call.process_genomic_read ⟨"read"⟩ 5 100,
        Call.set_head_pos 2, Call.process_genomic_read ⟨"read"⟩ 3 100], none) ∧
    ¬ ((4 : pos_t) ≤ (alignmentAt 3).currentPos - 1) := by
  decide

/-- C3 (amended): for every record at position `p` that the loop reaches and does not cut
off, the calls made for the record are `set_head_pos(p - 1)` followed by the record's
dispatch, which holds no `set_head_pos`: the call is made exactly once for the record and
before its dispatch, and after the record the loop goes on with the later records (or
ends the run if the dispatch failed). In a stream whose positions are non-decreasing up
to the record, no `set_head_pos` call that precedes the record's dispatch has an argument
greater than `p - 1`. -/
theorem C3_set_head_pos_before_dispatch (opt : starling_options) (env : Collaborators)
    (pre : List HtsRecord) (r : HtsRecord) (post : List HtsRecord) (tr : List Call)
    (hpre : ∀ x ∈ pre, is_cutoff opt env x = false)
    (hrun : driver_loop opt env pre [] = (tr, none))
    (hr : is_cutoff opt env r = false) :
    driver_loop opt env (pre ++ r :: post) [] =
      (match (dispatch opt env (tr ++ [Call.set_head_pos (r.currentPos - 1)]) r).2 with
      | some f =>
        (tr ++ Call.set_head_pos (r.currentPos - 1) ::
          (dispatch opt env (tr ++ [Call.set_head_pos (r.currentPos - 1)]) r).1, some f)
      | none =>
        driver_loop opt env post
          (tr ++ Call.set_head_pos (r.currentPos - 1) ::
            (dispatch opt env (tr ++ [Call.set_head_pos (r.currentPos - 1)]) r).1)) ∧
    (∃ more, (driver_loop opt env (pre ++ r :: post) []).1 =
      tr ++ Call.set_head_pos (r.currentPos - 1) ::
        (dispatch opt env (tr ++ [Call.set_head_pos (r.currentPos - 1)]) r).1 ++ more) ∧
    (∀ c ∈ (dispatch opt env (tr ++ [Call.set_head_pos (r.currentPos - 1)]) r).1,
      c.isSetHeadPos = false) ∧
    (nonDecreasing (pre ++ [r]) →
      ∀ q ∈ headArgs (tr ++ Call.set_head_pos (r.currentPos - 1) ::
          (dispatch opt env (tr ++ [Call.set_head_pos (r.currentPos - 1)]) r).1),
        q ≤ r.currentPos - 1) := by
  have hstep : driver_loop opt env (pre ++ r :: post) [] =
      (match (dispatch opt env (tr ++ [Call.set_head_pos (r.currentPos - 1)]) r).2 with
      | some f =>
        (tr ++ Call.set_head_pos (r.currentPos - 1) ::
          (dispatch opt env (tr ++ [Call.set_head_pos (r.currentPos - 1)]) r).1, some f)
      | none =>
        driver_loop opt env post
          (tr ++ Call.set_head_pos (r.currentPos - 1) ::
            (dispatch opt env (tr ++ [Call.set_head_pos (r.currentPos - 1)]) r).1)) := by
    rw [driver_loop_append_ok opt env pre (r :: post) [] tr hpre hrun,
      driver_loop_cons opt env r post tr hr]
  refine ⟨hstep, ?_, ?_, ?_⟩
  · rw [hstep]
    cases hf : (dispatch opt env (tr ++ [Call.set_head_pos (r.currentPos - 1)]) r).2 with
    | some f => exact ⟨[], by simp⟩
    | none =>
      obtain ⟨more, h1, _⟩ := driver_loop_calls opt env post
        (tr ++ Call.set_head_pos (r.currentPos - 1) ::
          (dispatch opt env (tr ++ [Call.set_head_pos (r.currentPos - 1)]) r).1)
      exact ⟨more, by simp only; rw [h1]⟩
  · intro c hc
    exact (dispatch_no_head_no_reset opt env _ r c hc).1
  · intro hs q hq
    rw [headArgs_append, ← List.singleton_append, headArgs_append,
      headArgs_dispatch] at hq
    rcases List.mem_append.mp hq with h | h
    · obtain ⟨more, h1, _, h3, _⟩ := driver_loop_calls opt env pre []
      rw [hrun] at h1
      simp only [List.nil_append] at h1
      subst h1
      obtain ⟨x, hx, hxq⟩ := h3 q h
      have hle : x.currentPos ≤ r.currentPos :=
        (List.pairwise_append.mp (nonDecreasing_pairwise _ hs)).2.2 x hx r
          (List.mem_singleton_self r)
      rw [hxq]
      exact Int.sub_le_sub_right hle 1
    · simp only [headArgs, List.filterMap_cons, Call.headPos, List.filterMap_nil,
        List.append_nil, List.mem_singleton] at h
      rw [h]

/-- C3 (amended) at the alignments at positions 3 and 5 of a sorted stream. -/
theorem C3_set_head_pos_before_dispatch_witness :
    (∀ x ∈ [alignmentAt 3], is_cutoff exampleOptions exampleCollaborators x = false) ∧
    driver_loop exampleOptions exampleCollaborators [alignmentAt 3] [] =
      ([Call.set_head_pos 2, Call.process_genomic_read ⟨"read"⟩ 3 100], none) ∧
    is_cutoff exampleOptions exampleCollaborators (alignmentAt 5) = false ∧
    (∃ more, (driver_loop exampleOptions exampleCollaborators
        ([alignmentAt 3] ++ alignmentAt 5 :: [alignmentAt 7]) []).1 =
      [Call.set_head_pos 2, Call.process_genomic_read ⟨"read"⟩ 3 100] ++
        Call.set_head_pos ((alignmentAt 5).currentPos - 1) ::
        (dispatch exampleOptions exampleCollaborators
          ([Call.set_head_pos 2, Call.process_genomic_read ⟨"read"⟩ 3 100] ++
            [Call.set_head_pos ((alignmentAt 5).currentPos - 1)]) (alignmentAt 5)).1 ++ more) :=
  ⟨by decide, by decide, by decide,
    (C3_set_head_pos_before_dispatch exampleOptions exampleCollaborators
      [alignmentAt 3] (alignmentAt 5) [alignmentAt 7]
      [Call.set_head_pos 2, Call.process_genomic_read ⟨"read"⟩ 3 100]
      (by decide) (by decide) (by decide)).2.1⟩

/-- C4: for every stream whose positions never decrease, the arguments of the
`set_head_pos` calls of the whole run never decrease. -/
theorem C4_set_head_pos_non_decreasing (opt : starling_options) (env : Collaborators)
    (stream : List HtsRecord) (h : nonDecreasing stream) :
    (headArgs (starling_run opt env stream).1).Sorted (· ≤ ·) := by
  unfold starling_run
  split_ifs
  · simp [headArgs]
  · simp [headArgs]
  · obtain ⟨more, h1, _, _, h4⟩ := driver_loop_calls opt env stream []
    rcases hd : driver_loop opt env stream [] with ⟨hist, f⟩
    rw [hd] at h1
    simp only [List.nil_append] at h1
    subst h1
    cases f with
    | some f => exact h4 (nonDecreasing_pairwise _ h)
    | none =>
      simp only
      rw [headArgs_append]
      simpa [headArgs, Call.headPos] using h4 (nonDecreasing_pairwise _ h)

/-- C4 on the sorted stream of alignments at 3, 5 and 5. -/
theorem C4_set_head_pos_non_decreasing_witness :
    nonDecreasing [alignmentAt 3, alignmentAt 5, alignmentAt 5] ∧
    (headArgs (starling_run exampleOptions exampleCollaborators
      [alignmentAt 3, alignmentAt 5, alignmentAt 5]).1).Sorted (· ≤ ·) :=
  ⟨by decide,
    C4_set_head_pos_non_decreasing exampleOptions exampleCollaborators
      [alignmentAt 3, alignmentAt 5, alignmentAt 5] (by decide)⟩

theorem starling_run_guarded (opt : starling_options) (env : Collaborators)
    (stream : List HtsRecord) (hname : opt.bam_filename ≠ "") (htid : 0 ≤ env.tid) :
    starling_run opt env stream =
      match driver_loop opt env stream [] with
      | (hist, some f) => (hist, some f)
      | (hist, none) => (hist ++ [Call.reset], none) := by
  unfold starling_run
  rw [if_neg hname, if_neg (not_lt.mpr htid)]

theorem starling_run_unguarded (opt : starling_options) (env : Collaborators)
    (stream : List HtsRecord) (h : ¬ (opt.bam_filename ≠ "" ∧ 0 ≤ env.tid)) :
    (starling_run opt env stream).1 = [] ∧ (starling_run opt env stream).2 ≠ none := by
  unfold starling_run
  by_cases hname : opt.bam_filename = ""
  · rw [if_pos hname]
    exact ⟨rfl, by simp⟩
  · have htid : env.tid < 0 := by
      by_contra hh
      exact h ⟨hname, not_lt.mp hh⟩
    rw [if_neg hname, if_pos htid]
    exact ⟨rfl, by simp⟩

/-- C5: on every stream, a run without a fatal condition calls `reset()` exactly once, as
the last processor call, after the calls of the loop (whether the loop ran out of records
or was left at the range cutoff); and on a stream of alignment records only, every call
is `set_head_pos`, `process_genomic_read` or that final `reset` (no ploidy, forced-output
or no-compress insert), and the run has no fatal condition once the BAM filename is not
empty and the contig is found. -/
theorem C5_reset_once_at_end (opt : starling_options) (env : Collaborators)
    (stream : List HtsRecord) :
    ((starling_run opt env stream).2 = none →
      ∃ calls, driver_loop opt env stream [] = (calls, none) ∧
        (starling_run opt env stream).1 = calls ++ [Call.reset] ∧
        Call.reset ∉ calls ∧
        (starling_run opt env stream).1.count Call.reset = 1) ∧
    ((∀ x ∈ stream, x.isAlignment = true) →
      (∀ c ∈ (starling_run opt env stream).1, c.isAlignmentRunCall = true) ∧
      (opt.bam_filename ≠ "" → 0 ≤ env.tid → (starling_run opt env stream).2 = none)) := by
  constructor
  · intro h
    by_cases hg : opt.bam_filename ≠ "" ∧ 0 ≤ env.tid
    · obtain ⟨more, h1, h2, _⟩ := driver_loop_calls opt env stream []
      rw [starling_run_guarded opt env stream hg.1 hg.2] at h ⊢
      generalize driver_loop opt env stream [] = res at h h1 ⊢
      obtain ⟨hist, f⟩ := res
      simp only [List.nil_append] at h1
      subst h1
      cases f with
      | some f => simp at h
      | none =>
        refine ⟨hist, rfl, rfl, h2, ?_⟩
        simp only
        rw [List.count_append, List.count_eq_zero_of_not_mem h2]
        rfl
    · exact absurd h (starling_run_unguarded opt env stream hg).2
  · intro hs
    obtain ⟨more, h1, h2⟩ := driver_loop_alignment opt env stream [] hs
    constructor
    · intro c hc
      unfold starling_run at hc
      split_ifs at hc
      · simp at hc
      · simp at hc
      · rw [h1] at hc
        simp only [List.nil_append] at hc
        rcases List.mem_append.mp hc with h | h
        · exact h2 c h
        · rw [List.mem_singleton.mp h]
          rfl
    · intro hname htid
      unfold starling_run
      rw [if_neg hname, if_neg (not_lt.mpr htid), h1]

/-- C5 on the report range `[100, 200)` with `max_indel_size = 50` and alignments at 120,
249, 250 and 260: the run is left at the cutoff and its calls are those for the alignments
at 120 and 249 followed by one `reset`. -/
theorem C5_reset_once_at_end_witness :
    starling_run exampleOptions exampleCollaborators
        [alignmentAt 120, alignmentAt 249, alignmentAt 250, alignmentAt 260] =
      ([Call.set_head_pos 119, Call.process_genomic_read ⟨"read"⟩ 120 100,
        Call.set_head_pos 248, Call.process_genomic_read ⟨"read"⟩ 249 100,
        Call.reset], none) ∧
    (∃ calls, driver_loop exampleOptions exampleCollaborators
        [alignmentAt 120, alignmentAt 249, alignmentAt 250, alignmentAt 260] [] =
          (calls, none) ∧
      (starling_run exampleOptions exampleCollaborators
        [alignmentAt 120, alignmentAt 249, alignmentAt 250, alignmentAt 260]).1 =
          calls ++ [Call.reset] ∧
      Call.reset ∉ calls ∧
      (starling_run exampleOptions exampleCollaborators
        [alignmentAt 120, alignmentAt 249, alignmentAt 250, alignmentAt 260]).1.count
          Call.reset = 1) :=
  ⟨by decide,
    (C5_reset_once_at_end exampleOptions exampleCollaborators
      [alignmentAt 120, alignmentAt 249, alignmentAt 250, alignmentAt 260]).1 (by decide)⟩

/-! ## Assign-once discipline of the keepers -/

theorem index_t_toNat_injective (i j : STRELKA_VCF_FILTERS.index_t)
    (h : i.toNat = j.toNat) : i = j := by
  cases i <;> cases j <;> first | rfl | (exact absurd h (by decide))

theorem filter_set_ok (k k2 : strelka_filter_keeper) (i : STRELKA_VCF_FILTERS.index_t)
    (h : k.set i = .ok k2) :
    k._filters.test i.toNat = .ok false ∧ k2._filters.test i.toNat = .ok true ∧
      ∀ j, j ≠ i.toNat → k2._filters.test j = k._filters.test j := by
  by_cases hi : i.toNat < STRELKA_VCF_FILTERS.SIZE
  · cases hb : k._filters.bits ⟨i.toNat, hi⟩ with
    | true =>
      simp [strelka_filter_keeper.set, bitset_test_lt _ _ hi, hb] at h
    | false =>
      simp only [strelka_filter_keeper.set, bitset_test_lt _ _ hi, hb,
        bitset_set_lt _ _ hi] at h
      injection h with h
      subst h
      refine ⟨by rw [bitset_test_lt _ _ hi, hb], ?_, ?_⟩
      · rw [bitset_test_update]
        simp
      · intro j hj
        rw [bitset_test_update]
        simp [hj]
  · simp [strelka_filter_keeper.set, bitset.test, hi] at h

theorem feature_set_ok {FS : FEATURESET} {V : Type} (k k2 : strelka_feature_keeper FS V)
    (i : Nat) (val : V) (h : k.set i val = .ok k2) :
    k.test i = .ok false ∧ k2.test i = .ok true ∧ ∀ j, j ≠ i → k2.test j = k.test j := by
  by_cases hi : i < FS.SIZE
  · cases hb : k._isFeatureSet.bits ⟨i, hi⟩ with
    | true =>
      simp [strelka_feature_keeper.set, strelka_feature_keeper.test,
        bitset_test_lt _ _ hi, hb] at h
    | false =>
      simp only [strelka_feature_keeper.set, strelka_feature_keeper.test,
        bitset_test_lt _ _ hi, hb, bitset_set_lt _ _ hi, dif_pos hi] at h
      injection h with h
      subst h
      refine ⟨by rw [strelka_feature_keeper.test, bitset_test_lt _ _ hi, hb], ?_, ?_⟩
      · simp only [strelka_feature_keeper.test]
        rw [bitset_test_update]
        simp
      · intro j hj
        simp only [strelka_feature_keeper.test]
        rw [bitset_test_update]
        simp [hj]
  · simp [strelka_feature_keeper.set, strelka_feature_keeper.test, bitset.test, hi] at h

theorem filterSets_cons {V : Type} (i : STRELKA_VCF_FILTERS.index_t) (op : KeeperOp V)
    (ops : List (KeeperOp V)) :
    KeeperPair.filterSets i (op :: ops) =
      (match op with
        | .filter_set j => if j = i then 1 else 0
        | _ => 0) + KeeperPair.filterSets i ops := by
  cases op <;> simp [KeeperPair.filterSets, List.filter_cons, Nat.add_comm]
  split_ifs <;> simp [Nat.add_comm]

theorem featureSets_cons {V : Type} (i : Nat) (op : KeeperOp V) (ops : List (KeeperOp V)) :
    KeeperPair.featureSets i (op :: ops) =
      (match op with
        | .feature_set j _ => if j = i then 1 else 0
        | _ => 0) + KeeperPair.featureSets i ops := by
  cases op <;> simp [KeeperPair.featureSets, List.filter_cons, Nat.add_comm]
  split_ifs <;> simp [Nat.add_comm]

/-- What a successful call other than `clear()` does to the flags of the two keepers. -/
theorem apply_ok_flags {FS : FEATURESET} {V : Type} (fmt : V → String)
    (r r1 : KeeperPair FS V) (op : KeeperOp V) (hclr : KeeperPair.isClear op = false)
    (h : KeeperPair.apply fmt r op = .ok r1) :
    (∀ i, op = .filter_set i →
      r.filters._filters.test i.toNat = .ok false ∧
      r1.filters._filters.test i.toNat = .ok true) ∧
    (∀ n, (∀ i, op = .filter_set i → n ≠ i.toNat) →
      r1.filters._filters.test n = r.filters._filters.test n) ∧
    (∀ i val, op = .feature_set i val →
      r.dfeatures.test i = .ok false ∧ r1.dfeatures.test i = .ok true) ∧
    (∀ n, (∀ i val, op = .feature_set i val → n ≠ i) →
      r1.dfeatures.test n = r.dfeatures.test n) := by
  cases op with
  | filter_set j =>
    simp only [KeeperPair.apply] at h
    cases hs : r.filters.set j with
    | error e => rw [hs] at h; cases h
    | ok f =>
      rw [hs] at h
      injection h with h
      subst h
      obtain ⟨h1, h2, h3⟩ := filter_set_ok _ _ _ hs
      refine ⟨?_, ?_, ?_, ?_⟩
      · intro i hi
        injection hi with hi
        subst hi
        exact ⟨h1, h2⟩
      · intro n hn
        exact h3 n (hn j rfl)
      · intro i val hi
        cases hi
      · intro n _
        rfl
  | filter_write =>
    simp only [KeeperPair.apply] at h
    cases hs : r.filters.write "" with
    | error e => rw [hs] at h; cases h
    | ok f =>
      rw [hs] at h
      injection h with h
      subst h
      exact ⟨fun i hi => (by cases hi), fun _ _ => rfl, fun i val hi => (by cases hi),
        fun _ _ => rfl⟩
  | filter_clear => simp [KeeperPair.isClear] at hclr
  | feature_set j v =>
    simp only [KeeperPair.apply] at h
    cases hs : r.dfeatures.set j v with
    | error e => rw [hs] at h; cases h
    | ok f =>
      rw [hs] at h
      injection h with h
      subst h
      obtain ⟨h1, h2, h3⟩ := feature_set_ok _ _ _ _ hs
      refine ⟨?_, ?_, ?_, ?_⟩
      · intro i hi
        cases hi
      · intro n _
        rfl
      · intro i val hi
        injection hi with hi _
        subst hi
        exact ⟨h1, h2⟩
      · intro n hn
        exact h3 n (hn j v rfl)
  | feature_get j =>
    simp only [KeeperPair.apply] at h
    cases hs : r.dfeatures.get j with
    | error e => rw [hs] at h; cases h
    | ok f =>
      rw [hs] at h
      injection h with h
      subst h
      exact ⟨fun i hi => (by cases hi), fun _ _ => rfl, fun i val hi => (by cases hi),
        fun _ _ => rfl⟩
  | feature_test j =>
    simp only [KeeperPair.apply] at h
    cases hs : r.dfeatures.test j with
    | error e => rw [hs] at h; cases h
    | ok f =>
      rw [hs] at h
      injection h with h
      subst h
      exact ⟨fun i hi => (by cases hi), fun _ _ => rfl, fun i val hi => (by cases hi),
        fun _ _ => rfl⟩
  | feature_write =>
    simp only [KeeperPair.apply] at h
    cases hs : r.dfeatures.write fmt "" with
    | error e => rw [hs] at h; cases h
    | ok f =>
      rw [hs] at h
      injection h with h
      subst h
      exact ⟨fun i hi => (by cases hi), fun _ _ => rfl, fun i val hi => (by cases hi),
        fun _ _ => rfl⟩
  | feature_clear => simp [KeeperPair.isClear] at hclr

theorem filterSets_executed_le {FS : FEATURESET} {V : Type} (fmt : V → String)
    (i : STRELKA_VCF_FILTERS.index_t) :
    ∀ (ops : List (KeeperOp V)) (r : KeeperPair FS V),
      (∀ op ∈ ops, KeeperPair.isClear op = false) →
      KeeperPair.filterSets i (KeeperPair.executed fmt r ops) ≤
        if r.filters._filters.test i.toNat = .ok true then 0 else 1
  | [], r, _ => by simp [KeeperPair.executed, KeeperPair.filterSets]
  | op :: ops, r, hops => by
    have hop := hops op (List.mem_cons_self _ _)
    have hrest : ∀ o ∈ ops, KeeperPair.isClear o = false :=
      fun o ho => hops o (List.mem_cons_of_mem _ ho)
    simp only [KeeperPair.executed]
    cases ha : KeeperPair.apply fmt r op with
    | error e => simp [KeeperPair.filterSets]
    | ok r1 =>
      simp only
      obtain ⟨h1, h2, _, _⟩ := apply_ok_flags fmt r r1 op hop ha
      have ih := filterSets_executed_le fmt i ops r1 hrest
      rw [filterSets_cons]
      by_cases hset : op = .filter_set i
      · obtain ⟨hb, ha1⟩ := h1 i hset
        rw [if_pos ha1] at ih
        rw [hb, hset]
        simp only [if_true]
        have : ¬ ((Except.ok false : Except Failure Bool) = .ok true) := by simp
        rw [if_neg this]
        omega
      · have hsame : r1.filters._filters.test i.toNat = r.filters._filters.test i.toNat := by
          apply h2
          intro j hj hji
          exact hset (by rw [hj, index_t_toNat_injective _ _ hji])
        rw [hsame] at ih
        have hz : (match op with
            | .filter_set j => if j = i then 1 else 0
            | _ => 0) = 0 := by
          cases op <;> simp
          intro hji
          exact hset (by rw [hji])
        rw [hz]
        omega

theorem featureSets_executed_le {FS : FEATURESET} {V : Type} (fmt : V → String) (i : Nat) :
    ∀ (ops : List (KeeperOp V)) (r : KeeperPair FS V),
      (∀ op ∈ ops, KeeperPair.isClear op = false) →
      KeeperPair.featureSets i (KeeperPair.executed fmt r ops) ≤
        if r.dfeatures.test i = .ok true then 0 else 1
  | [], r, _ => by simp [KeeperPair.executed, KeeperPair.featureSets]
  | op :: ops, r, hops => by
    have hop := hops op (List.mem_cons_self _ _)
    have hrest : ∀ o ∈ ops, KeeperPair.isClear o = false :=
      fun o ho => hops o (List.mem_cons_of_mem _ ho)
    simp only [KeeperPair.executed]
    cases ha : KeeperPair.apply fmt r op with
    | error e => simp [KeeperPair.featureSets]
    | ok r1 =>
      simp only
      obtain ⟨_, _, h1, h2⟩ := apply_ok_flags fmt r r1 op hop ha
      have ih := featureSets_executed_le fmt i ops r1 hrest
      rw [featureSets_cons]
      by_cases hset : ∃ val, op = .feature_set i val
      · obtain ⟨val, hset⟩ := hset
        obtain ⟨hb, ha1⟩ := h1 i val hset
        rw [if_pos ha1] at ih
        rw [hb, hset]
        simp only [if_true]
        have : ¬ ((Except.ok false : Except Failure Bool) = .ok true) := by simp
        rw [if_neg this]
        omega
      · have hsame : r1.dfeatures.test i = r.dfeatures.test i := by
          apply h2
          intro j val hj hji
          exact hset ⟨val, by rw [hj, hji]⟩
        rw [hsame] at ih
        have hz : (match op with
            | .feature_set j _ => if j = i then 1 else 0
            | _ => 0) = 0 := by
          cases op <;> simp
          intro hji
          exact hset ⟨_, by rw [hji]⟩
        rw [hz]
        omega

/-- The enumerator `SIZE` is no filter: `set(SIZE)` leaves by the range check of the
bitset, whatever the keeper holds. -/
theorem filter_set_SIZE_fails (k : strelka_filter_keeper) :
    k.set .SIZE = .error .out_of_range := by
  simp [strelka_filter_keeper.set, bitset.test, STRELKA_VCF_FILTERS.index_t.toNat]

/-- C10 (as stated, refuted): `clear()` is a public member of both keepers, and after it
`set` succeeds again: in the sequence `set(HighDepth)`, `clear()`, `set(HighDepth)` on new
keepers every call is carried out and the filter is assigned twice; likewise feature slot
0 is assigned twice in `set(0, 1)`, `clear()`, `set(0, 2)`. -/
theorem C10_counterexample :
    KeeperPair.executed exampleFmt exampleKeepers
        [.filter_set .HighDepth, .filter_clear, .filter_set .HighDepth] =
      [.filter_set .HighDepth, .filter_clear, .filter_set .HighDepth] ∧
    KeeperPair.filterSets .HighDepth
      (KeeperPair.executed exampleFmt exampleKeepers
        [.filter_set .HighDepth, .filter_clear, .filter_set .HighDepth]) = 2 ∧
    KeeperPair.executed exampleFmt exampleKeepers
        [.feature_set 0 1, .feature_clear, .feature_set 0 2] =
      [.feature_set 0 1, .feature_clear, .feature_set 0 2] ∧
    KeeperPair.featureSets 0
      (KeeperPair.executed exampleFmt exampleKeepers
        [.feature_set 0 1, .feature_clear, .feature_set 0 2]) = 2 := by
  decide

/-- C10 (amended): over every sequence of the public operations `set`, `get`, `test` and
`write` applied to the filter keeper and the feature keeper of a record from construction
on, with no call of `clear()`, each filter bit and each feature slot is successfully
assigned at most once (a call of `clear()` resets the flags, after which `set` succeeds
again). -/
theorem C10_assigned_at_most_once {FS : FEATURESET} {V : Type} (fmt : V → String)
    (uninit : Fin FS.SIZE → V) (ops : List (KeeperOp V))
    (h : ∀ op ∈ ops, KeeperPair.isClear op = false) :
    (∀ i : STRELKA_VCF_FILTERS.index_t,
      KeeperPair.filterSets i
        (KeeperPair.executed fmt (KeeperPair.new uninit : KeeperPair FS V) ops) ≤ 1) ∧
    (∀ i : Nat,
      KeeperPair.featureSets i
        (KeeperPair.executed fmt (KeeperPair.new uninit : KeeperPair FS V) ops) ≤ 1) := by
  constructor
  · intro i
    refine le_trans (filterSets_executed_le fmt i ops _ h) ?_
    split_ifs <;> omega
  · intro i
    refine le_trans (featureSets_executed_le fmt i ops _ h) ?_
    split_ifs <;> omega

/-- C10 (amended) on a sequence without `clear()` in which the second `set(HighDepth)`
fails: the calls before it are carried out and every filter and slot is assigned at most
once. -/
theorem C10_assigned_at_most_once_witness :
    (∀ op ∈ ([.filter_set .HighDepth, .feature_set 0 1, .feature_test 0, .filter_write,
        .filter_set .HighDepth, .feature_set 1 1] : List (KeeperOp Int)),
      KeeperPair.isClear op = false) ∧
    KeeperPair.executed exampleFmt exampleKeepers
        [.filter_set .HighDepth, .feature_set 0 1, .feature_test 0, .filter_write,
          .filter_set .HighDepth, .feature_set 1 1] =
      [.filter_set .HighDepth, .feature_set 0 1, .feature_test 0, .filter_write] ∧
    ((∀ i : STRELKA_VCF_FILTERS.index_t,
      KeeperPair.filterSets i
        (KeeperPair.executed exampleFmt
          (KeeperPair.new (fun _ => 0) : KeeperPair exampleFeatures Int)
          [.filter_set .HighDepth, .feature_set 0 1, .feature_test 0, .filter_write,
            .filter_set .HighDepth, .feature_set 1 1]) ≤ 1) ∧
    (∀ i : Nat,
      KeeperPair.featureSets i
        (KeeperPair.executed exampleFmt
          (KeeperPair.new (fun _ => 0) : KeeperPair exampleFeatures Int)
          [.filter_set .HighDepth, .feature_set 0 1, .feature_test 0, .filter_write,
            .filter_set .HighDepth, .feature_set 1 1]) ≤ 1)) :=
  ⟨by decide, by decide,
    C10_assigned_at_most_once exampleFmt (fun _ => 0) _ (by decide)⟩

/-! ## Dispatch of the side inputs -/

/-- The turn of the loop for a record that the loop reaches and does not cut off. -/
theorem driver_loop_at_record (opt : starling_options) (env : Collaborators)
    (pre : List HtsRecord) (r : HtsRecord) (post : List HtsRecord) (tr : List Call)
    (hpre : reaches opt env pre tr) (hr : is_cutoff opt env r = false) :
    driver_loop opt env (pre ++ r :: post) [] =
      match (dispatch opt env (tr ++ [Call.set_head_pos (r.currentPos - 1)]) r).2 with
      | some f => (tr ++ recordCalls opt env tr r, some f)
      | none => driver_loop opt env post (tr ++ recordCalls opt env tr r) := by
  rw [driver_loop_append_ok opt env pre (r :: post) [] tr hpre.1 hpre.2,
    driver_loop_cons opt env r post tr hr]
  rfl

theorem starling_run_of_failure (opt : starling_options) (env : Collaborators)
    (stream : List HtsRecord) (calls : List Call) (f : Failure)
    (hname : opt.bam_filename ≠ "") (htid : 0 ≤ env.tid)
    (h : driver_loop opt env stream [] = (calls, some f)) :
    starling_run opt env stream = (calls, some f) := by
  rw [starling_run_guarded opt env stream hname htid, h]

theorem starling_run_of_success (opt : starling_options) (env : Collaborators)
    (stream : List HtsRecord) (calls : List Call)
    (hname : opt.bam_filename ≠ "") (htid : 0 ≤ env.tid)
    (h : driver_loop opt env stream [] = (calls, none)) :
    starling_run opt env stream = (calls ++ [Call.reset], none) := by
  rw [starling_run_guarded opt env stream hname htid, h]

/-- C14: for every BED record of the ploidy source that the loop reaches, whose parsed
ploidy is 0 or 1 and for which `insert_ploidy_region` returns `false`, the run fails with
the `LogicException` whose message holds the BED line of the record verbatim; the calls
end with that insert, so no later record is dispatched and `reset` is not called. In
particular, with the region index of the spec, the records `[150,250)` with ploidy 1 and
`[200,300)` with ploidy 0 make the second insert fatal, with the second line in the
message. -/
theorem C14_ploidy_conflict_fatal (opt : starling_options) (env : Collaborators)
    (pre : List HtsRecord) (r : HtsRecord) (post : List HtsRecord) (tr : List Call)
    (bedRecord : bed_record) (ploidy : Nat)
    (hpre : reaches opt env pre tr) (hr : is_cutoff opt env r = false)
    (hbed : r.payload = .bed bedRecord)
    (hidx : r.currentIndex = INPUT_TYPE.index_t.PLOIDY_REGION.toNat)
    (hparse : env.parsePloidyFromBedStrict bedRecord.line = .ok ploidy)
    (hploidy : ploidy = 0 ∨ ploidy = 1)
    (hret : env.insert_ploidy_region (tr ++ [Call.set_head_pos (r.currentPos - 1)])
      ⟨bedRecord.begin, bedRecord.«end»⟩ ploidy = false) :
    (driver_loop opt env (pre ++ r :: post) [] =
      (tr ++ [Call.set_head_pos (r.currentPos - 1),
          Call.insert_ploidy_region ⟨bedRecord.begin, bedRecord.«end»⟩ ploidy],
        some (.LogicException
          ("ERROR: ploidy bedfile record conflicts with prior record. Bedfile line: \x27"
            ++ bedRecord.line ++ "\x27\n")))) ∧
    (opt.bam_filename ≠ "" → 0 ≤ env.tid →
      starling_run opt env (pre ++ r :: post) =
        (tr ++ [Call.set_head_pos (r.currentPos - 1),
            Call.insert_ploidy_region ⟨bedRecord.begin, bedRecord.«end»⟩ ploidy],
          some (.LogicException
            ("ERROR: ploidy bedfile record conflicts with prior record. Bedfile line: \x27"
              ++ bedRecord.line ++ "\x27\n")))) ∧
    starling_run exampleOptions specCollaborators
        [ploidyBedAt 150 250 "chr1\t150\t250\t1", ploidyBedAt 200 300 "chr1\t200\t300\t0"] =
      ([Call.set_head_pos 149, Call.insert_ploidy_region ⟨150, 250⟩ 1,
        Call.set_head_pos 199, Call.insert_ploidy_region ⟨200, 300⟩ 0],
        some (.LogicException
          ("ERROR: ploidy bedfile record conflicts with prior record. Bedfile line: \x27"
            ++ "chr1\t200\t300\t0" ++ "\x27\n"))) := by
  have hd : dispatch opt env (tr ++ [Call.set_head_pos (r.currentPos - 1)]) r =
      ([Call.insert_ploidy_region ⟨bedRecord.begin, bedRecord.«end»⟩ ploidy],
        some (.LogicException
          ("ERROR: ploidy bedfile record conflicts with prior record. Bedfile line: \x27"
            ++ bedRecord.line ++ "\x27\n"))) := by
    rcases r with ⟨pos, idx, payload⟩
    simp only at hbed hidx hret
    subst hbed hidx
    simp [dispatch, hparse, hploidy, hret]
  have hloop : driver_loop opt env (pre ++ r :: post) [] =
      (tr ++ [Call.set_head_pos (r.currentPos - 1),
          Call.insert_ploidy_region ⟨bedRecord.begin, bedRecord.«end»⟩ ploidy],
        some (.LogicException
          ("ERROR: ploidy bedfile record conflicts with prior record. Bedfile line: \x27"
            ++ bedRecord.line ++ "\x27\n"))) := by
    rw [driver_loop_at_record opt env pre r post tr hpre hr]
    simp only [recordCalls, hd]
  exact ⟨hloop, fun hname htid => starling_run_of_failure opt env _ _ _ hname htid hloop,
    by decide⟩

/-- C14 at the second of the two conflicting ploidy records of the spec. -/
theorem C14_ploidy_conflict_fatal_witness :
    reaches exampleOptions specCollaborators [ploidyBedAt 150 250 "chr1\t150\t250\t1"]
      [Call.set_head_pos 149, Call.insert_ploidy_region ⟨150, 250⟩ 1] ∧
    driver_loop exampleOptions specCollaborators
        ([ploidyBedAt 150 250 "chr1\t150\t250\t1"] ++
          ploidyBedAt 200 300 "chr1\t200\t300\t0" :: [alignmentAt 210]) [] =
      ([Call.set_head_pos 149, Call.insert_ploidy_region ⟨150, 250⟩ 1] ++
        [Call.set_head_pos ((ploidyBedAt 200 300 "chr1\t200\t300\t0").currentPos - 1),
          Call.insert_ploidy_region ⟨200, 300⟩ 0],
        some (.LogicException
          ("ERROR: ploidy bedfile record conflicts with prior record. Bedfile line: \x27"
            ++ "chr1\t200\t300\t0" ++ "\x27\n"))) :=
  ⟨by decide,
    (C14_ploidy_conflict_fatal exampleOptions specCollaborators
      [ploidyBedAt 150 250 "chr1\t150\t250\t1"] (ploidyBedAt 200 300 "chr1\t200\t300\t0")
      [alignmentAt 210] [Call.set_head_pos 149, Call.insert_ploidy_region ⟨150, 250⟩ 1]
      ⟨200, 300, "chr1\t200\t300\t0"⟩ 0
      (by decide) (by decide) rfl rfl (by decide) (by decide) (by decide)).1⟩

/-- C15: for every BED record of the ploidy source, the dispatch calls
`insert_ploidy_region` (with the range `[begin, end)` of the record and the parsed ploidy)
if and only if the ploidy parsed from the line is 0 or 1; for a record with any other
ploidy there is no insert and no failure, and when the loop reaches such a record it only
calls `set_head_pos` for it and goes on with the next record. -/
theorem C15_ploidy_insert_iff_haploid (opt : starling_options) (env : Collaborators)
    (pre : List HtsRecord) (r : HtsRecord) (post : List HtsRecord) (tr : List Call)
    (bedRecord : bed_record)
    (hpre : reaches opt env pre tr) (hr : is_cutoff opt env r = false)
    (hbed : r.payload = .bed bedRecord)
    (hidx : r.currentIndex = INPUT_TYPE.index_t.PLOIDY_REGION.toNat) :
    (∀ range ploidy,
      Call.insert_ploidy_region range ploidy ∈ recordCalls opt env tr r ↔
        (range = ⟨bedRecord.begin, bedRecord.«end»⟩ ∧
          env.parsePloidyFromBedStrict bedRecord.line = .ok ploidy ∧
          (ploidy = 0 ∨ ploidy = 1))) ∧
    (∀ ploidy, env.parsePloidyFromBedStrict bedRecord.line = .ok ploidy →
      ploidy ≠ 0 → ploidy ≠ 1 →
      recordCalls opt env tr r = [Call.set_head_pos (r.currentPos - 1)] ∧
      driver_loop opt env (pre ++ r :: post) [] =
        driver_loop opt env post (tr ++ [Call.set_head_pos (r.currentPos - 1)])) := by
  rcases r with ⟨pos, idx, payload⟩
  simp only at hbed hidx
  subst hbed hidx
  constructor
  · intro range ploidy
    cases hp : env.parsePloidyFromBedStrict bedRecord.line with
    | error e => simp [recordCalls, dispatch, hp]
    | ok p =>
      by_cases h01 : p = 0 ∨ p = 1
      · have hcalls : recordCalls opt env tr
            ⟨pos, INPUT_TYPE.index_t.PLOIDY_REGION.toNat, .bed bedRecord⟩ =
            [Call.set_head_pos (pos - 1),
              Call.insert_ploidy_region ⟨bedRecord.begin, bedRecord.«end»⟩ p] := by
          cases hret : env.insert_ploidy_region (tr ++ [Call.set_head_pos (pos - 1)])
              ⟨bedRecord.begin, bedRecord.«end»⟩ p <;>
            simp [recordCalls, dispatch, hp, h01, hret]
        rw [hcalls]
        simp only [List.mem_cons, List.mem_singleton, List.not_mem_nil, or_false,
          Except.ok.injEq]
        constructor
        · rintro (h | h)
          · cases h
          · injection h with h1 h2
            subst h1 h2
            exact ⟨rfl, rfl, h01⟩
        · rintro ⟨rfl, rfl, _⟩
          exact Or.inr rfl
      · have hcalls : recordCalls opt env tr
            ⟨pos, INPUT_TYPE.index_t.PLOIDY_REGION.toNat, .bed bedRecord⟩ =
            [Call.set_head_pos (pos - 1)] := by
          simp [recordCalls, dispatch, hp, h01]
        rw [hcalls]
        simp only [List.mem_singleton, Except.ok.injEq]
        constructor
        · intro h
          cases h
        · rintro ⟨_, rfl, h⟩
          exact absurd h h01
  · intro ploidy hp h0 h1
    have h01 : ¬ (ploidy = 0 ∨ ploidy = 1) := fun h => h.elim h0 h1
    have hd : dispatch opt env (tr ++ [Call.set_head_pos (pos - 1)])
        ⟨pos, INPUT_TYPE.index_t.PLOIDY_REGION.toNat, .bed bedRecord⟩ = ([], none) := by
      simp [dispatch, hp, h01]
    refine ⟨by simp only [recordCalls, hd], ?_⟩
    rw [driver_loop_at_record opt env pre _ post tr hpre hr]
    simp only [recordCalls, hd]

/-- C15 at a ploidy BED record with ploidy 2 that follows an alignment. -/
theorem C15_ploidy_insert_iff_haploid_witness :
    reaches exampleOptions specCollaborators [alignmentAt 120]
      [Call.set_head_pos 119, Call.process_genomic_read ⟨"read"⟩ 120 100] ∧
    spec_parsePloidyFromBedStrict "chr1\t150\t250\t2" = .ok 2 ∧
    driver_loop exampleOptions specCollaborators
        ([alignmentAt 120] ++ ploidyBedAt 150 250 "chr1\t150\t250\t2" ::
          [alignmentAt 160]) [] =
      ([Call.set_head_pos 119, Call.process_genomic_read ⟨"read"⟩ 120 100,
        Call.set_head_pos 149,
        Call.set_head_pos 159, Call.process_genomic_read ⟨"read"⟩ 160 100], none) ∧
    (recordCalls exampleOptions specCollaborators
        [Call.set_head_pos 119, Call.process_genomic_read ⟨"read"⟩ 120 100]
        (ploidyBedAt 150 250 "chr1\t150\t250\t2") =
        [Call.set_head_pos ((ploidyBedAt 150 250 "chr1\t150\t250\t2").currentPos - 1)] ∧
      driver_loop exampleOptions specCollaborators
        ([alignmentAt 120] ++ ploidyBedAt 150 250 "chr1\t150\t250\t2" ::
          [alignmentAt 160]) [] =
      driver_loop exampleOptions specCollaborators [alignmentAt 160]
        ([Call.set_head_pos 119, Call.process_genomic_read ⟨"read"⟩ 120 100] ++
          [Call.set_head_pos ((ploidyBedAt 150 250 "chr1\t150\t250\t2").currentPos - 1)])) :=
  ⟨by decide, by decide, by decide,
    (C15_ploidy_insert_iff_haploid exampleOptions specCollaborators
      [alignmentAt 120] (ploidyBedAt 150 250 "chr1\t150\t250\t2") [alignmentAt 160]
      [Call.set_head_pos 119, Call.process_genomic_read ⟨"read"⟩ 120 100]
      ⟨150, 250, "chr1\t150\t250\t2"⟩ (by decide) (by decide) rfl rfl).2 2
      (by decide) (by decide) (by decide)⟩

/-- C16: for every record of the forced-genotype VCF that is not an indel and is an SNV
with 1-based position `k`, the calls of the loop body are `set_head_pos` and then one
`insert_forced_output_pos(k - 1)`: that call is made exactly once for the record, and
there is no `process_candidate_indel`. For the record `chr1 101 . A T` the call is
`insert_forced_output_pos(100)`. -/
theorem C16_forced_snv_position (opt : starling_options) (env : Collaborators)
    (pre : List HtsRecord) (r : HtsRecord) (post : List HtsRecord) (tr : List Call)
    (vcfRecord : vcf_record)
    (hpre : reaches opt env pre tr) (hr : is_cutoff opt env r = false)
    (hvcf : r.payload = .vcf vcfRecord)
    (hidx : r.currentIndex = INPUT_TYPE.index_t.FORCED_GT_VARIANTS.toNat)
    (hindel : vcfRecord.is_indel = false) (hsnv : vcfRecord.is_snv = true) :
    recordCalls opt env tr r =
      [Call.set_head_pos (r.currentPos - 1),
        Call.insert_forced_output_pos (vcfRecord.pos - 1)] ∧
    (recordCalls opt env tr r).count (Call.insert_forced_output_pos (vcfRecord.pos - 1))
      = 1 ∧
    (∀ m v s f, Call.process_candidate_indel m v s f ∉ recordCalls opt env tr r) ∧
    driver_loop opt env (pre ++ r :: post) [] =
      driver_loop opt env post
        (tr ++ [Call.set_head_pos (r.currentPos - 1),
          Call.insert_forced_output_pos (vcfRecord.pos - 1)]) ∧
    recordCalls exampleOptions exampleCollaborators []
        (forcedVcfAt 101 false true false "chr1\t101\t.\tA\tT") =
      [Call.set_head_pos 99, Call.insert_forced_output_pos 100] := by
  rcases r with ⟨pos, idx, payload⟩
  simp only at hvcf hidx
  subst hvcf hidx
  have hd : dispatch opt env (tr ++ [Call.set_head_pos (pos - 1)])
      ⟨pos, INPUT_TYPE.index_t.FORCED_GT_VARIANTS.toNat, .vcf vcfRecord⟩ =
      ([Call.insert_forced_output_pos (vcfRecord.pos - 1)], none) := by
    simp [dispatch, hindel, hsnv, INPUT_TYPE.index_t.toNat]
  have hc : recordCalls opt env tr
      ⟨pos, INPUT_TYPE.index_t.FORCED_GT_VARIANTS.toNat, .vcf vcfRecord⟩ =
      [Call.set_head_pos (pos - 1), Call.insert_forced_output_pos (vcfRecord.pos - 1)] := by
    simp only [recordCalls, hd]
  refine ⟨hc, ?_, ?_, ?_, by decide⟩
  · rw [hc]
    simp [List.count_cons]
  · intro m v s f
    rw [hc]
    simp
  · rw [driver_loop_at_record opt env pre _ post tr hpre hr, hc]
    simp only [hd]

/-- C16 at the forced-genotype record `chr1 101 . A T`. -/
theorem C16_forced_snv_position_witness :
    reaches exampleOptions exampleCollaborators [] [] ∧
    starling_run exampleOptions exampleCollaborators
        [forcedVcfAt 101 false true false "chr1\t101\t.\tA\tT"] =
      ([Call.set_head_pos 99, Call.insert_forced_output_pos 100, Call.reset], none) ∧
    (recordCalls exampleOptions exampleCollaborators []
        (forcedVcfAt 101 false true false "chr1\t101\t.\tA\tT")).count
      (Call.insert_forced_output_pos (101 - 1)) = 1 :=
  ⟨by decide, by decide,
    (C16_forced_snv_position exampleOptions exampleCollaborators []
      (forcedVcfAt 101 false true false "chr1\t101\t.\tA\tT") [] []
      ⟨101, false, true, false, "chr1\t101\t.\tA\tT"⟩
      (by decide) (by decide) rfl rfl rfl rfl).2.1⟩

/-- C18: for every VCF record of the candidate indel source or the forced-genotype source
that is an indel and that the loop reaches: if it is not left-shifted the run fails (the
assertion) after `set_head_pos`, with no `process_candidate_indel` call; if it is
left-shifted the loop body calls `process_candidate_indel` exactly once, with
`max_indel_size` and the record, with `forced = false` for the candidate source (the
defaults of the signature) and with sample 0 and `forced = true` for the forced-genotype
source. A record of the candidate source that is not an indel gets `set_head_pos` only. -/
theorem C18_indel_dispatch (opt : starling_options) (env : Collaborators)
    (pre : List HtsRecord) (r : HtsRecord) (post : List HtsRecord) (tr : List Call)
    (vcfRecord : vcf_record)
    (hpre : reaches opt env pre tr) (hr : is_cutoff opt env r = false)
    (hvcf : r.payload = .vcf vcfRecord) :
    (r.currentIndex = INPUT_TYPE.index_t.CANDIDATE_INDELS.toNat →
      vcfRecord.is_indel = true → vcfRecord.is_left_shifted = false →
      driver_loop opt env (pre ++ r :: post) [] =
        (tr ++ [Call.set_head_pos (r.currentPos - 1)],
          some (.assertion "Indels are not left-shifted in candidate indel VCF"))) ∧
    (r.currentIndex = INPUT_TYPE.index_t.FORCED_GT_VARIANTS.toNat →
      vcfRecord.is_indel = true → vcfRecord.is_left_shifted = false →
      driver_loop opt env (pre ++ r :: post) [] =
        (tr ++ [Call.set_head_pos (r.currentPos - 1)],
          some (.assertion "Indels are not left-shifted in forced genotype VCF"))) ∧
    (r.currentIndex = INPUT_TYPE.index_t.CANDIDATE_INDELS.toNat →
      vcfRecord.is_indel = true → vcfRecord.is_left_shifted = true →
      recordCalls opt env tr r =
        [Call.set_head_pos (r.currentPos - 1),
          Call.process_candidate_indel opt.max_indel_size vcfRecord default_sample_no false] ∧
      driver_loop opt env (pre ++ r :: post) [] =
        driver_loop opt env post (tr ++ recordCalls opt env tr r)) ∧
    (r.currentIndex = INPUT_TYPE.index_t.FORCED_GT_VARIANTS.toNat →
      vcfRecord.is_indel = true → vcfRecord.is_left_shifted = true →
      recordCalls opt env tr r =
        [Call.set_head_pos (r.currentPos - 1),
          Call.process_candidate_indel opt.max_indel_size vcfRecord 0 true] ∧
      driver_loop opt env (pre ++ r :: post) [] =
        driver_loop opt env post (tr ++ recordCalls opt env tr r)) ∧
    (r.currentIndex = INPUT_TYPE.index_t.CANDIDATE_INDELS.toNat →
      vcfRecord.is_indel = false →
      recordCalls opt env tr r = [Call.set_head_pos (r.currentPos - 1)] ∧
      driver_loop opt env (pre ++ r :: post) [] =
        driver_loop opt env post (tr ++ recordCalls opt env tr r)) := by
  rcases r with ⟨pos, idx, payload⟩
  simp only at hvcf
  subst hvcf
  have hstep := driver_loop_at_record opt env pre ⟨pos, idx, .vcf vcfRecord⟩ post tr hpre hr
  refine ⟨?_, ?_, ?_, ?_, ?_⟩
  · intro hidx hindel hls
    simp only at hidx
    subst hidx
    have hd : dispatch opt env (tr ++ [Call.set_head_pos (pos - 1)])
        ⟨pos, INPUT_TYPE.index_t.CANDIDATE_INDELS.toNat, .vcf vcfRecord⟩ =
        ([], some (.assertion "Indels are not left-shifted in candidate indel VCF")) := by
      simp [dispatch, hindel, hls]
    rw [hstep]
    simp only [recordCalls]
    rw [hd]
  · intro hidx hindel hls
    simp only at hidx
    subst hidx
    have hd : dispatch opt env (tr ++ [Call.set_head_pos (pos - 1)])
        ⟨pos, INPUT_TYPE.index_t.FORCED_GT_VARIANTS.toNat, .vcf vcfRecord⟩ =
        ([], some (.assertion "Indels are not left-shifted in forced genotype VCF")) := by
      simp [dispatch, hindel, hls, INPUT_TYPE.index_t.toNat]
    rw [hstep]
    simp only [recordCalls]
    rw [hd]
  · intro hidx hindel hls
    simp only at hidx
    subst hidx
    have hd : dispatch opt env (tr ++ [Call.set_head_pos (pos - 1)])
        ⟨pos, INPUT_TYPE.index_t.CANDIDATE_INDELS.toNat, .vcf vcfRecord⟩ =
        ([Call.process_candidate_indel opt.max_indel_size vcfRecord default_sample_no false],
          none) := by
      simp [dispatch, hindel, hls, default_is_forced_output]
    rw [hstep]
    simp only [recordCalls]
    rw [hd]
    exact ⟨rfl, rfl⟩
  · intro hidx hindel hls
    simp only at hidx
    subst hidx
    have hd : dispatch opt env (tr ++ [Call.set_head_pos (pos - 1)])
        ⟨pos, INPUT_TYPE.index_t.FORCED_GT_VARIANTS.toNat, .vcf vcfRecord⟩ =
        ([Call.process_candidate_indel opt.max_indel_size vcfRecord 0 true], none) := by
      simp [dispatch, hindel, hls, INPUT_TYPE.index_t.toNat]
    rw [hstep]
    simp only [recordCalls]
    rw [hd]
    exact ⟨rfl, rfl⟩
  · intro hidx hindel
    simp only at hidx
    subst hidx
    have hd : dispatch opt env (tr ++ [Call.set_head_pos (pos - 1)])
        ⟨pos, INPUT_TYPE.index_t.CANDIDATE_INDELS.toNat, .vcf vcfRecord⟩ = ([], none) := by
      simp [dispatch, hindel]
    rw [hstep]
    simp only [recordCalls]
    rw [hd]
    exact ⟨rfl, rfl⟩

/-- C18 at a left-shifted deletion of the forced-genotype VCF and at a deletion of the
candidate VCF that is not left-shifted. -/
theorem C18_indel_dispatch_witness :
    reaches exampleOptions exampleCollaborators [alignmentAt 120]
      [Call.set_head_pos 119, Call.process_genomic_read ⟨"read"⟩ 120 100] ∧
    recordCalls exampleOptions exampleCollaborators
        [Call.set_head_pos 119, Call.process_genomic_read ⟨"read"⟩ 120 100]
        (forcedVcfAt 151 true false true "chr1\t151\t.\tACG\tA") =
      [Call.set_head_pos ((forcedVcfAt 151 true false true "chr1\t151\t.\tACG\tA").currentPos - 1),
        Call.process_candidate_indel exampleOptions.max_indel_size
          ⟨151, true, false, true, "chr1\t151\t.\tACG\tA"⟩ 0 true] ∧
    driver_loop exampleOptions exampleCollaborators
        ([alignmentAt 120] ++ candidateVcfAt 151 true false false "chr1\t151\t.\tACG\tA" ::
          [alignmentAt 160]) [] =
      ([Call.set_head_pos 119, Call.process_genomic_read ⟨"read"⟩ 120 100] ++
        [Call.set_head_pos
          ((candidateVcfAt 151 true false false "chr1\t151\t.\tACG\tA").currentPos - 1)],
        some (.assertion "Indels are not left-shifted in candidate indel VCF")) :=
  ⟨by decide,
    ((C18_indel_dispatch exampleOptions exampleCollaborators [alignmentAt 120]
      (forcedVcfAt 151 true false true "chr1\t151\t.\tACG\tA") [alignmentAt 160]
      [Call.set_head_pos 119, Call.process_genomic_read ⟨"read"⟩ 120 100]
      ⟨151, true, false, true, "chr1\t151\t.\tACG\tA"⟩
      (by decide) (by decide) rfl).2.2.2.1 rfl rfl rfl).1,
    (C18_indel_dispatch exampleOptions exampleCollaborators [alignmentAt 120]
      (candidateVcfAt 151 true false false "chr1\t151\t.\tACG\tA") [alignmentAt 160]
      [Call.set_head_pos 119, Call.process_genomic_read ⟨"read"⟩ 120 100]
      ⟨151, true, false, false, "chr1\t151\t.\tACG\tA"⟩
      (by decide) (by decide) rfl).1 rfl rfl rfl⟩

/-! ## Which records are dispatched -/

theorem driver_loop_split (opt : starling_options) (env : Collaborators) :
    ∀ (pre s : List HtsRecord) (hist tr2 : List Call),
      (∀ x ∈ pre, is_cutoff opt env x = false) →
      driver_loop opt env (pre ++ s) hist = (tr2, none) →
      ∃ tr, driver_loop opt env pre hist = (tr, none) ∧
        driver_loop opt env s tr = (tr2, none)
  | [], s, hist, tr2, _, h => ⟨hist, rfl, h⟩
  | x :: pre, s, hist, tr2, hpre, h => by
    have hx : is_cutoff opt env x = false := hpre x (List.mem_cons_self _ _)
    have hpre1 : ∀ y ∈ pre, is_cutoff opt env y = false :=
      fun y hy => hpre y (List.mem_cons_of_mem _ hy)
    rw [List.cons_append, driver_loop_cons opt env x _ hist hx] at h
    rw [driver_loop_cons opt env x pre hist hx]
    cases hf : (dispatch opt env (hist ++ [Call.set_head_pos (x.currentPos - 1)]) x).2 with
    | some f =>
      rw [hf] at h
      cases h
    | none =>
      rw [hf] at h
      exact driver_loop_split opt env pre s _ tr2 hpre1 h

theorem is_cutoff_congr (opt : starling_options) (env : Collaborators) (a b : HtsRecord)
    (h : a.currentPos = b.currentPos) : is_cutoff opt env a = is_cutoff opt env b := by
  simp [is_cutoff, h]

theorem dispatch_ploidy_bed_calls (opt : starling_options) (env : Collaborators)
    (hist : List Call) (r : HtsRecord) (bedRecord : bed_record)
    (hb : r.payload = .bed bedRecord)
    (hidx : r.currentIndex = INPUT_TYPE.index_t.PLOIDY_REGION.toNat) :
    ∀ c ∈ (dispatch opt env hist r).1, ∃ ploidy,
      c = Call.insert_ploidy_region ⟨bedRecord.begin, bedRecord.«end»⟩ ploidy ∧
      env.parsePloidyFromBedStrict bedRecord.line = .ok ploidy := by
  rcases r with ⟨pos, idx, payload⟩
  simp only at hb hidx
  subst hb hidx
  intro c hc
  cases hp : env.parsePloidyFromBedStrict bedRecord.line with
  | error e => simp [dispatch, hp] at hc
  | ok p =>
    by_cases h01 : p = 0 ∨ p = 1
    · cases hret : env.insert_ploidy_region hist ⟨bedRecord.begin, bedRecord.«end»⟩ p <;>
        (simp [dispatch, hp, h01, hret] at hc; exact ⟨p, hc, rfl⟩)
    · simp [dispatch, hp, h01] at hc

/-- C17 (as stated, refuted): an alignment and a ploidy BED record share position 150;
the run calls `set_head_pos(149)` twice, once for each of the two records, not once. -/
theorem C17_counterexample :
    starling_run exampleOptions specCollaborators
        [alignmentAt 150, ploidyBedAt 150 250 "chr1\t150\t250\t1"] =
      ([Call.set_head_pos 149, Call.process_genomic_read ⟨"read"⟩ 150 100,
        Call.set_head_pos 149, Call.insert_ploidy_region ⟨150, 250⟩ 1, Call.reset], none) ∧
    (starling_run exampleOptions specCollaborators
        [alignmentAt 150, ploidyBedAt 150 250 "chr1\t150\t250\t1"]).1.count
      (Call.set_head_pos 149) = 2 := by
  decide

/-- C17 (amended): when an alignment record and a ploidy BED record share the position
`p`, the alignment comes before the BED record in the merged stream, and the loop reaches
the BED record, the driver calls `set_head_pos(p - 1)` once for each of the two records
(so twice for that position, with the same argument), and the `process_genomic_read` of
the alignment is made before the dispatch of the BED record, whose only call, if it makes
one, is the `insert_ploidy_region` of its range. -/
theorem C17_shared_position (opt : starling_options) (env : Collaborators)
    (pre : List HtsRecord) (a : HtsRecord) (mid : List HtsRecord) (b : HtsRecord)
    (post : List HtsRecord) (tr2 : List Call) (read : bam_record) (bedRecord : bed_record)
    (ha : a.payload = .bam read) (hb : b.payload = .bed bedRecord)
    (hidx : b.currentIndex = INPUT_TYPE.index_t.PLOIDY_REGION.toNat)
    (hpos : a.currentPos = b.currentPos)
    (hreach : reaches opt env (pre ++ a :: mid) tr2) :
    ∃ tr between more, reaches opt env pre tr ∧
      tr2 = tr ++ [Call.set_head_pos (b.currentPos - 1),
        Call.process_genomic_read read b.currentPos env.report_range_limit.begin_pos]
        ++ between ∧
      (driver_loop opt env (pre ++ a :: mid ++ b :: post) []).1 =
        tr ++ [Call.set_head_pos (b.currentPos - 1),
          Call.process_genomic_read read b.currentPos env.report_range_limit.begin_pos]
          ++ between
          ++ Call.set_head_pos (b.currentPos - 1) ::
            (dispatch opt env (tr2 ++ [Call.set_head_pos (b.currentPos - 1)]) b).1
          ++ more ∧
      (∀ c ∈ (dispatch opt env (tr2 ++ [Call.set_head_pos (b.currentPos - 1)]) b).1,
        ∃ ploidy,
          c = Call.insert_ploidy_region ⟨bedRecord.begin, bedRecord.«end»⟩ ploidy ∧
          env.parsePloidyFromBedStrict bedRecord.line = .ok ploidy) := by
  have hbcalls := dispatch_ploidy_bed_calls opt env
    (tr2 ++ [Call.set_head_pos (b.currentPos - 1)]) b bedRecord hb hidx
  have hcut_pre : ∀ x ∈ pre, is_cutoff opt env x = false :=
    fun x hx => hreach.1 x (List.mem_append_left _ hx)
  have hcut_a : is_cutoff opt env a = false :=
    hreach.1 a (List.mem_append_right _ (List.mem_cons_self _ _))
  have hcut_b : is_cutoff opt env b = false := by
    rw [← is_cutoff_congr opt env a b hpos]
    exact hcut_a
  obtain ⟨tr, h1, h2⟩ := driver_loop_split opt env pre (a :: mid) [] tr2 hcut_pre hreach.2
  have hda : dispatch opt env (tr ++ [Call.set_head_pos (a.currentPos - 1)]) a =
      ([Call.process_genomic_read read a.currentPos env.report_range_limit.begin_pos],
        none) := by
    rcases a with ⟨pos, idx, payload⟩
    simp only at ha
    subst ha
    simp [dispatch]
  rw [driver_loop_cons opt env a mid tr hcut_a, hda] at h2
  simp only at h2
  obtain ⟨between, hb1, _⟩ := driver_loop_calls opt env mid
    (tr ++ [Call.set_head_pos (a.currentPos - 1),
      Call.process_genomic_read read a.currentPos env.report_range_limit.begin_pos])
  rw [h2] at hb1
  simp only at hb1
  have hstep : driver_loop opt env ((pre ++ a :: mid) ++ b :: post) [] = _ :=
    driver_loop_append_ok opt env (pre ++ a :: mid) (b :: post) [] tr2 hreach.1 hreach.2
  rw [driver_loop_cons opt env b post tr2 hcut_b] at hstep
  have hassoc : pre ++ a :: mid ++ b :: post = (pre ++ a :: mid) ++ b :: post := by
    simp [List.append_assoc]
  rw [hpos] at hb1
  cases hf : (dispatch opt env (tr2 ++ [Call.set_head_pos (b.currentPos - 1)]) b).2 with
  | some f =>
    rw [hf] at hstep
    refine ⟨tr, between, [], ⟨hcut_pre, h1⟩, hb1, ?_, hbcalls⟩
    rw [hassoc, hstep]
    simp only [List.append_nil]
    rw [hb1]
  | none =>
    rw [hf] at hstep
    obtain ⟨more, hm, _⟩ := driver_loop_calls opt env post
      (tr2 ++ Call.set_head_pos (b.currentPos - 1) ::
        (dispatch opt env (tr2 ++ [Call.set_head_pos (b.currentPos - 1)]) b).1)
    refine ⟨tr, between, more, ⟨hcut_pre, h1⟩, hb1, ?_, hbcalls⟩
    rw [hassoc, hstep]
    simp only
    rw [hm, hb1]

/-- C17 (amended) at an alignment and a ploidy BED record that share position 150. -/
theorem C17_shared_position_witness :
    reaches exampleOptions specCollaborators ([] ++ alignmentAt 150 :: [])
      [Call.set_head_pos 149, Call.process_genomic_read ⟨"read"⟩ 150 100] ∧
    (driver_loop exampleOptions specCollaborators
        ([] ++ alignmentAt 150 :: [] ++ ploidyBedAt 150 250 "chr1\t150\t250\t1" :: []) []).1 =
      [Call.set_head_pos 149, Call.process_genomic_read ⟨"read"⟩ 150 100,
        Call.set_head_pos 149, Call.insert_ploidy_region ⟨150, 250⟩ 1] ∧
    (∃ tr between more, reaches exampleOptions specCollaborators [] tr ∧
      [Call.set_head_pos 149, Call.process_genomic_read ⟨"read"⟩ 150 100] =
        tr ++ [Call.set_head_pos
            ((ploidyBedAt 150 250 "chr1\t150\t250\t1").currentPos - 1),
          Call.process_genomic_read ⟨"read"⟩
            (ploidyBedAt 150 250 "chr1\t150\t250\t1").currentPos
            specCollaborators.report_range_limit.begin_pos]
          ++ between ∧
      (driver_loop exampleOptions specCollaborators
        ([] ++ alignmentAt 150 :: [] ++ ploidyBedAt 150 250 "chr1\t150\t250\t1" :: []) []).1 =
        tr ++ [Call.set_head_pos
            ((ploidyBedAt 150 250 "chr1\t150\t250\t1").currentPos - 1),
          Call.process_genomic_read ⟨"read"⟩
            (ploidyBedAt 150 250 "chr1\t150\t250\t1").currentPos
            specCollaborators.report_range_limit.begin_pos]
          ++ between
          ++ Call.set_head_pos ((ploidyBedAt 150 250 "chr1\t150\t250\t1").currentPos - 1) ::
            (dispatch exampleOptions specCollaborators
              ([Call.set_head_pos 149, Call.process_genomic_read ⟨"read"⟩ 150 100] ++
                [Call.set_head_pos
                  ((ploidyBedAt 150 250 "chr1\t150\t250\t1").currentPos - 1)])
              (ploidyBedAt 150 250 "chr1\t150\t250\t1")).1
          ++ more ∧
      (∀ c ∈ (dispatch exampleOptions specCollaborators
          ([Call.set_head_pos 149, Call.process_genomic_read ⟨"read"⟩ 150 100] ++
            [Call.set_head_pos
              ((ploidyBedAt 150 250 "chr1\t150\t250\t1").currentPos - 1)])
          (ploidyBedAt 150 250 "chr1\t150\t250\t1")).1,
        ∃ ploidy,
          c = Call.insert_ploidy_region
            ⟨(⟨150, 250, "chr1\t150\t250\t1"⟩ : bed_record).begin,
              (⟨150, 250, "chr1\t150\t250\t1"⟩ : bed_record).«end»⟩ ploidy ∧
          specCollaborators.parsePloidyFromBedStrict
            (⟨150, 250, "chr1\t150\t250\t1"⟩ : bed_record).line = .ok ploidy)) :=
  ⟨by decide, by decide,
    C17_shared_position exampleOptions specCollaborators [] (alignmentAt 150) []
      (ploidyBedAt 150 250 "chr1\t150\t250\t1") []
      [Call.set_head_pos 149, Call.process_genomic_read ⟨"read"⟩ 150 100]
      ⟨"read"⟩ ⟨150, 250, "chr1\t150\t250\t1"⟩ rfl rfl rfl rfl (by decide)⟩

theorem driver_loop_calls_eq_callsFor (opt : starling_options) (env : Collaborators) :
    ∀ (s : List HtsRecord) (hist : List Call),
      (driver_loop opt env s hist).1 = callsFor opt env (dispatched opt env s hist) hist
  | [], hist => rfl
  | r :: rest, hist => by
    cases hr : is_cutoff opt env r with
    | true => simp [driver_loop, dispatched, callsFor, hr]
    | false =>
      rw [driver_loop_cons opt env r rest hist hr]
      rcases hd : dispatch opt env (hist ++ [Call.set_head_pos (r.currentPos - 1)]) r
        with ⟨acts, f⟩
      cases f with
      | some f => simp [dispatched, callsFor, recordCalls, hr, hd]
      | none =>
        simp only [dispatched, hr, hd, callsFor, recordCalls]
        have := driver_loop_calls_eq_callsFor opt env rest
          (hist ++ Call.set_head_pos (r.currentPos - 1) :: acts)
        simpa [List.append_assoc] using this

theorem dispatched_of_no_failure (opt : starling_options) (env : Collaborators) :
    ∀ (s : List HtsRecord) (hist : List Call), (driver_loop opt env s hist).2 = none →
      dispatched opt env s hist = s.takeWhile (fun r => !is_cutoff opt env r)
  | [], _, _ => rfl
  | r :: rest, hist, h => by
    cases hr : is_cutoff opt env r with
    | true => simp [dispatched, List.takeWhile, hr]
    | false =>
      rw [driver_loop_cons opt env r rest hist hr] at h
      rcases hd : dispatch opt env (hist ++ [Call.set_head_pos (r.currentPos - 1)]) r
        with ⟨acts, f⟩
      rw [hd] at h
      cases f with
      | some f => simp at h
      | none =>
        simp only at h
        have ih := dispatched_of_no_failure opt env rest _ h
        simp only [dispatched, hr, hd, List.takeWhile, Bool.not_false]
        simpa [List.append_assoc] using ih

theorem dispatched_append_cutoff (opt : starling_options) (env : Collaborators) :
    ∀ (pre : List HtsRecord) (c : HtsRecord) (post : List HtsRecord) (hist : List Call),
      is_cutoff opt env c = true →
      dispatched opt env (pre ++ c :: post) hist = dispatched opt env pre hist
  | [], c, post, hist, h => by simp [dispatched, h]
  | x :: pre, c, post, hist, h => by
    cases hx : is_cutoff opt env x with
    | true => simp [dispatched, hx]
    | false =>
      rcases hd : dispatch opt env (hist ++ [Call.set_head_pos (x.currentPos - 1)]) x
        with ⟨acts, f⟩
      cases f with
      | some f => simp [dispatched, hx, hd]
      | none =>
        have ih := dispatched_append_cutoff opt env pre c post
          (hist ++ [Call.set_head_pos (x.currentPos - 1)] ++ acts) h
        simp only [List.cons_append, dispatched, hx, hd]
        simp only [Bool.false_eq_true, if_false]
        exact congrArg (List.cons x) ih

theorem dispatched_length_le (opt : starling_options) (env : Collaborators) :
    ∀ (s : List HtsRecord) (hist : List Call), (dispatched opt env s hist).length ≤ s.length
  | [], _ => by simp [dispatched]
  | r :: rest, hist => by
    cases hr : is_cutoff opt env r with
    | true => simp [dispatched, hr]
    | false =>
      rcases hd : dispatch opt env (hist ++ [Call.set_head_pos (r.currentPos - 1)]) r
        with ⟨acts, f⟩
      cases f with
      | some f => simp [dispatched, hr, hd]
      | none =>
        simp only [dispatched, hr, hd, List.length_cons]
        exact Nat.succ_le_succ (dispatched_length_le opt env rest _)

theorem takeWhile_eq_filter_of_sorted (opt : starling_options) (env : Collaborators) :
    ∀ (s : List HtsRecord), s.Pairwise (fun a b => a.currentPos ≤ b.currentPos) →
      s.takeWhile (fun r => !is_cutoff opt env r) = s.filter (fun r => !is_cutoff opt env r)
  | [], _ => rfl
  | r :: rest, hs => by
    rw [List.pairwise_cons] at hs
    cases hr : is_cutoff opt env r with
    | false =>
      simp only [List.takeWhile, List.filter, hr, Bool.not_false]
      rw [takeWhile_eq_filter_of_sorted opt env rest hs.2]
    | true =>
      simp only [List.takeWhile, List.filter, hr, Bool.not_true]
      symm
      rw [List.filter_eq_nil_iff]
      intro x hx
      have hle := hs.1 x hx
      have hc := (is_cutoff_eq_true_iff opt env r).mp hr
      have : is_cutoff opt env x = true :=
        (is_cutoff_eq_true_iff opt env x).mpr ⟨hc.1, le_trans hc.2 hle⟩
      simp [this]

theorem takeWhile_longest (opt : starling_options) (env : Collaborators) :
    ∀ (s : List HtsRecord),
      ∃ rest, s = s.takeWhile (fun r => !is_cutoff opt env r) ++ rest ∧
        (∀ x ∈ s.takeWhile (fun r => !is_cutoff opt env r), is_cutoff opt env x = false) ∧
        (∀ y ys, rest = y :: ys → is_cutoff opt env y = true)
  | [] => ⟨[], rfl, by simp, by simp⟩
  | r :: s => by
    cases hr : is_cutoff opt env r with
    | true =>
      refine ⟨r :: s, by simp [List.takeWhile, hr], by simp [List.takeWhile, hr], ?_⟩
      intro y ys h
      injection h with h1 _
      rw [← h1]
      exact hr
    | false =>
      obtain ⟨rest, h1, h2, h3⟩ := takeWhile_longest opt env s
      refine ⟨rest, ?_, ?_, h3⟩
      · simp only [List.takeWhile, hr, Bool.not_false, List.cons_append]
        rw [← h1]
      · intro x hx
        simp only [List.takeWhile, hr, Bool.not_false, List.mem_cons] at hx
        rcases hx with rfl | hx
        · exact hr
        · exact h2 x hx

/-- C19 (as stated, refuted): both records of the stream, a candidate indel at position 10
that is not left-shifted and an alignment at position 20, are below the bound 250, so the
longest prefix below the bound is the whole stream; the run ends at the assertion for the
first record and the alignment is never dispatched. -/
theorem C19_counterexample :
    nonDecreasing [candidateVcfAt 11 true false false "chr1\t11\t.\tACG\tA", alignmentAt 20] ∧
    [candidateVcfAt 11 true false false "chr1\t11\t.\tACG\tA", alignmentAt 20].takeWhile
        (fun r => !is_cutoff exampleOptions exampleCollaborators r) =
      [candidateVcfAt 11 true false false "chr1\t11\t.\tACG\tA", alignmentAt 20] ∧
    dispatched exampleOptions exampleCollaborators
        [candidateVcfAt 11 true false false "chr1\t11\t.\tACG\tA", alignmentAt 20] [] =
      [candidateVcfAt 11 true false false "chr1\t11\t.\tACG\tA"] ∧
    starling_run exampleOptions exampleCollaborators
        [candidateVcfAt 11 true false false "chr1\t11\t.\tACG\tA", alignmentAt 20] =
      ([Call.set_head_pos 9],
        some (.assertion "Indels are not left-shifted in candidate indel VCF")) := by
  decide

/-- C19 (amended): on every run that no fatal condition ends, the records the driver
dispatches are exactly the longest prefix of the merged stream in which every position is
below `end_pos + max_indel_size` (the whole stream when `is_end_pos` is false), and the
calls of the run are those of these records in stream order; for a stream with
non-decreasing positions this prefix holds all records below the bound, while in any
stream the records after the first out-of-range record are not dispatched. -/
theorem C19_dispatched_records (opt : starling_options) (env : Collaborators)
    (stream : List HtsRecord) (h : (driver_loop opt env stream []).2 = none) :
    dispatched opt env stream [] = stream.takeWhile (fun r => !is_cutoff opt env r) ∧
    (∃ rest, stream = dispatched opt env stream [] ++ rest ∧
      (∀ x ∈ dispatched opt env stream [],
        ¬ (env.report_range_limit.is_end_pos = true ∧
          env.report_range_limit.end_pos + (opt.max_indel_size : pos_t) ≤ x.currentPos)) ∧
      (∀ y ys, rest = y :: ys →
        env.report_range_limit.is_end_pos = true ∧
          env.report_range_limit.end_pos + (opt.max_indel_size : pos_t) ≤ y.currentPos)) ∧
    (env.report_range_limit.is_end_pos = false → dispatched opt env stream [] = stream) ∧
    (driver_loop opt env stream []).1 =
      callsFor opt env (dispatched opt env stream []) [] ∧
    (nonDecreasing stream →
      dispatched opt env stream [] = stream.filter (fun r => !is_cutoff opt env r)) ∧
    (∀ pre c post, stream = pre ++ c :: post → is_cutoff opt env c = true →
      dispatched opt env stream [] = dispatched opt env pre [] ∧
      (dispatched opt env stream []).length ≤ pre.length) := by
  have hd := dispatched_of_no_failure opt env stream [] h
  obtain ⟨rest, h1, h2, h3⟩ := takeWhile_longest opt env stream
  refine ⟨hd, ⟨rest, ?_, ?_, ?_⟩, ?_, driver_loop_calls_eq_callsFor opt env stream [], ?_, ?_⟩
  · rw [hd]
    exact h1
  · intro x hx hcut
    rw [hd] at hx
    have := h2 x hx
    rw [(is_cutoff_eq_true_iff opt env x).mpr hcut] at this
    cases this
  · intro y ys hy
    exact (is_cutoff_eq_true_iff opt env y).mp (h3 y ys hy)
  · intro hend
    cases rest with
    | nil =>
      rw [hd]
      simpa using h1.symm
    | cons y ys =>
      have := (is_cutoff_eq_true_iff opt env y).mp (h3 y ys rfl)
      rw [hend] at this
      cases this.1
  · intro hs
    rw [hd]
    exact takeWhile_eq_filter_of_sorted opt env stream (nonDecreasing_pairwise stream hs)
  · intro pre c post hst hc
    subst hst
    rw [dispatched_append_cutoff opt env pre c post [] hc]
    exact ⟨rfl, dispatched_length_le opt env pre []⟩

/-- C19 (amended) on a stream that is not sorted: alignments at 120, 260 and 130 with the
bound at 250; the alignment at 130 follows the out-of-range record and is not dispatched. -/
theorem C19_dispatched_records_witness :
    (driver_loop exampleOptions exampleCollaborators
      [alignmentAt 120, alignmentAt 260, alignmentAt 130] []).2 = none ∧
    dispatched exampleOptions exampleCollaborators
      [alignmentAt 120, alignmentAt 260, alignmentAt 130] [] = [alignmentAt 120] ∧
    dispatched exampleOptions exampleCollaborators
        [alignmentAt 120, alignmentAt 260, alignmentAt 130] [] =
      [alignmentAt 120, alignmentAt 260, alignmentAt 130].takeWhile
        (fun r => !is_cutoff exampleOptions exampleCollaborators r) :=
  ⟨by decide, by decide,
    (C19_dispatched_records exampleOptions exampleCollaborators
      [alignmentAt 120, alignmentAt 260, alignmentAt 130] (by decide)).1⟩

/-! ## Writing the development features -/

theorem feature_test_lt {FS : FEATURESET} {V : Type} (k : strelka_feature_keeper FS V)
    (i : Nat) (h : i < FS.SIZE) : k.test i = .ok (k._isFeatureSet.bits ⟨i, h⟩) := by
  simp [strelka_feature_keeper.test, bitset.test, h]

theorem feature_test_ok_lt {FS : FEATURESET} {V : Type} (k : strelka_feature_keeper FS V)
    (i : Nat) (b : Bool) (h : k.test i = .ok b) : i < FS.SIZE := by
  by_contra hge
  simp [strelka_feature_keeper.test, bitset.test, hge] at h

theorem feature_get_of_set {FS : FEATURESET} {V : Type} (k : strelka_feature_keeper FS V)
    (i : Fin FS.SIZE) (h : k.test i.val = .ok true) : k.get i.val = .ok (k._featureVal i) := by
  simp [strelka_feature_keeper.get, h, i.isLt]

theorem feature_get_of_unset {FS : FEATURESET} {V : Type} (k : strelka_feature_keeper FS V)
    (i : Nat) (h : k.test i = .ok false) :
    k.get i = .error (.assertion "Requesting undefined feature") := by
  simp [strelka_feature_keeper.get, h]

theorem intercalate_go_eq_foldl {α : Type} (s : String) (p : α → String) :
    ∀ (l : List α) (acc : String),
      String.intercalate.go acc s (l.map p) = l.foldl (fun a i => a ++ s ++ p i) acc
  | [], _ => rfl
  | x :: l, acc => by
    simp only [List.map_cons, String.intercalate.go, List.foldl_cons]
    exact intercalate_go_eq_foldl s p l _

/-- The loop of `write` over indices above zero whose slots are all assigned: every pair
is written after a comma. -/
theorem feature_write_loop_tail {FS : FEATURESET} {V : Type} (fmt : V → String)
    (k : strelka_feature_keeper FS V) :
    ∀ (l : List (Fin FS.SIZE)) (os : String),
      (∀ i ∈ l, 0 < i.val ∧ k.test i.val = .ok true) →
      strelka_feature_keeper.write_loop fmt k (l.map Fin.val) os =
        .ok (l.foldl (fun a i =>
          a ++ "," ++ (FS.get_feature_label i.val ++ ":" ++ fmt (k._featureVal i))) os)
  | [], _, _ => rfl
  | i :: l, os, h => by
    have hi := h i (List.mem_cons_self _ _)
    have hl : ∀ j ∈ l, 0 < j.val ∧ k.test j.val = .ok true :=
      fun j hj => h j (List.mem_cons_of_mem _ hj)
    simp only [List.map_cons, strelka_feature_keeper.write_loop,
      strelka_feature_keeper.write_body, feature_get_of_set k i hi.2, hi.1, if_true,
      List.foldl_cons]
    rw [feature_write_loop_tail fmt k l _ hl]
    simp [String.append_assoc]

theorem finRange_head (n : Nat) :
    List.finRange n = [] ∨
      ∃ (z : Fin n) (rest : List (Fin n)),
        List.finRange n = z :: rest ∧ z.val = 0 ∧ ∀ i ∈ rest, 0 < i.val := by
  cases n with
  | zero => exact Or.inl List.finRange_zero
  | succ m =>
    refine Or.inr ⟨0, (List.finRange m).map Fin.succ, List.finRange_succ_eq_map m, rfl, ?_⟩
    intro i hi
    obtain ⟨j, _, rfl⟩ := List.mem_map.mp hi
    simp

/-- The text `write` produces when every slot is assigned. -/
theorem feature_write_ok {FS : FEATURESET} {V : Type} (fmt : V → String)
    (k : strelka_feature_keeper FS V) (os : String)
    (h : ∀ i, i < FS.SIZE → k.test i = .ok true) :
    k.write fmt os = .ok (os ++ ",".intercalate ((List.finRange FS.SIZE).map
      (fun i => FS.get_feature_label i.val ++ ":" ++ fmt (k._featureVal i)))) := by
  unfold strelka_feature_keeper.write
  rw [← List.map_coe_finRange]
  rcases finRange_head FS.SIZE with hnil | ⟨z, rest, hfr, hz, hrest⟩
  · rw [hnil]
    simp [strelka_feature_keeper.write_loop, String.intercalate]
  · rw [hfr]
    have hzt : k.test z.val = .ok true := h z.val z.isLt
    have hl : ∀ i ∈ rest, 0 < i.val ∧ k.test i.val = .ok true :=
      fun i hi => ⟨hrest i hi, h i.val i.isLt⟩
    have hget0 : k.get 0 = .ok (k._featureVal z) := by
      rw [← hz]
      exact feature_get_of_set k z hzt
    simp only [List.map_cons, strelka_feature_keeper.write_loop,
      strelka_feature_keeper.write_body, hz, hget0,
      gt_iff_lt, lt_self_iff_false, if_false]
    rw [feature_write_loop_tail fmt k rest _ hl]
    simp only [String.intercalate]
    rw [← intercalate_go_eq_foldl "," _ rest
      (os ++ FS.get_feature_label 0 ++ ":" ++ fmt (k._featureVal z)),
      String.append_assoc, String.append_assoc, intercalate_go_append]
    simp [String.append_assoc]

theorem feature_write_loop_fail {FS : FEATURESET} {V : Type} (fmt : V → String)
    (k : strelka_feature_keeper FS V) :
    ∀ (l1 : List Nat) (j : Nat) (l2 : List Nat) (os : String),
      (∀ i ∈ l1, k.test i = .ok true) → k.test j = .ok false →
      strelka_feature_keeper.write_loop fmt k (l1 ++ j :: l2) os =
        .error (.assertion "Requesting undefined feature")
  | [], j, l2, os, _, hj => by
    simp [strelka_feature_keeper.write_loop, strelka_feature_keeper.write_body,
      feature_get_of_unset k j hj]
  | i :: l1, j, l2, os, h, hj => by
    have hi := h i (List.mem_cons_self _ _)
    have hlt := feature_test_ok_lt k i true hi
    have hget := feature_get_of_set k ⟨i, hlt⟩ hi
    simp only at hget
    simp only [List.cons_append, strelka_feature_keeper.write_loop,
      strelka_feature_keeper.write_body, hget]
    exact feature_write_loop_fail fmt k l1 j l2 _
      (fun x hx => h x (List.mem_cons_of_mem _ hx)) hj

theorem range_split (n j : Nat) (h : j < n) :
    ∃ l2, List.range n = List.range j ++ j :: l2 := by
  obtain ⟨b, rfl⟩ : ∃ b, n = j + (b + 1) := ⟨n - j - 1, by omega⟩
  refine ⟨(List.range b).map (fun x => j + (x + 1)), ?_⟩
  rw [List.range_add, List.range_succ_eq_map]
  simp [Function.comp_def]

theorem feature_write_fail {FS : FEATURESET} {V : Type} (fmt : V → String)
    (k : strelka_feature_keeper FS V) (os : String) (j : Nat) (hj : j < FS.SIZE)
    (hbefore : ∀ i, i < j → k.test i = .ok true) (hunset : k.test j = .ok false) :
    k.write fmt os = .error (.assertion "Requesting undefined feature") := by
  obtain ⟨l2, hl2⟩ := range_split FS.SIZE j hj
  unfold strelka_feature_keeper.write
  rw [hl2]
  exact feature_write_loop_fail fmt k (List.range j) j l2 os
    (fun i hi => hbefore i (List.mem_range.mp hi)) hunset

/-- C20: `write` of the development-feature keeper succeeds if and only if every one of
the `SIZE` slots is assigned; it visits the indices `0 .. SIZE-1` in order and reads each
with `get`, so it fails (the assertion of `get`) at the first slot that is not assigned;
when it succeeds it appends exactly `SIZE` pairs `label:value`, one for each index in
ascending order, joined by commas; a keeper as constructed or as cleared cannot be written
when `SIZE > 0`. -/
theorem C20_feature_keeper_write {FS : FEATURESET} {V : Type} (fmt : V → String)
    (k : strelka_feature_keeper FS V) (os : String) :
    ((∃ text, k.write fmt os = .ok text) ↔ ∀ i, i < FS.SIZE → k.test i = .ok true) ∧
    (∀ j, j < FS.SIZE → (∀ i, i < j → k.test i = .ok true) → k.test j = .ok false →
      k.write fmt os = .error (.assertion "Requesting undefined feature")) ∧
    (∀ text, k.write fmt os = .ok text →
      text = os ++ ",".intercalate ((List.finRange FS.SIZE).map
        (fun i => FS.get_feature_label i.val ++ ":" ++ fmt (k._featureVal i))) ∧
      ((List.finRange FS.SIZE).map
        (fun i => FS.get_feature_label i.val ++ ":" ++ fmt (k._featureVal i))).length
          = FS.SIZE ∧
      ∀ i : Fin FS.SIZE, k.get i.val = .ok (k._featureVal i)) ∧
    (0 < FS.SIZE →
      (∀ uninit : Fin FS.SIZE → V,
        (strelka_feature_keeper.new uninit : strelka_feature_keeper FS V).write fmt os =
          .error (.assertion "Requesting undefined feature")) ∧
      k.clear.write fmt os = .error (.assertion "Requesting undefined feature")) := by
  have hiff : (∃ text, k.write fmt os = .ok text) ↔
      ∀ i, i < FS.SIZE → k.test i = .ok true := by
    constructor
    · rintro ⟨text, ht⟩
      by_contra hnot
      have hex : ∃ j, j < FS.SIZE ∧ k.test j = .ok false := by
        by_contra hno
        apply hnot
        intro i hi
        rw [feature_test_lt k i hi]
        cases hb : k._isFeatureSet.bits ⟨i, hi⟩ with
        | true => rfl
        | false => exact absurd ⟨i, hi, by rw [feature_test_lt k i hi, hb]⟩ hno
      classical
      have hj := Nat.find_spec hex
      have hmin : ∀ i, i < Nat.find hex → k.test i = .ok true := by
        intro i hi
        have hlt : i < FS.SIZE := lt_trans hi hj.1
        have := Nat.find_min hex hi
        rw [feature_test_lt k i hlt] at this ⊢
        cases hb : k._isFeatureSet.bits ⟨i, hlt⟩ with
        | true => rfl
        | false => exact absurd ⟨hlt, by rw [hb]⟩ this
      rw [feature_write_fail fmt k os (Nat.find hex) hj.1 hmin hj.2] at ht
      cases ht
    · intro h
      exact ⟨_, feature_write_ok fmt k os h⟩
  refine ⟨hiff, fun j hj hb hu => feature_write_fail fmt k os j hj hb hu, ?_, ?_⟩
  · intro text ht
    have hall := hiff.mp ⟨text, ht⟩
    rw [feature_write_ok fmt k os hall] at ht
    injection ht with ht
    refine ⟨ht.symm, by simp, ?_⟩
    intro i
    exact feature_get_of_set k i (hall i.val i.isLt)
  · intro hpos
    constructor
    · intro uninit
      exact feature_write_fail fmt _ os 0 hpos (fun i hi => absurd hi (Nat.not_lt_zero i))
        (by simp [strelka_feature_keeper.new, strelka_feature_keeper.clear,
          strelka_feature_keeper.test, bitset.test, bitset.reset, hpos])
    · exact feature_write_fail fmt _ os 0 hpos (fun i hi => absurd hi (Nat.not_lt_zero i))
        (by simp [strelka_feature_keeper.clear, strelka_feature_keeper.test, bitset.test,
          bitset.reset, hpos])

/-- C20 on the example keeper of two features: it cannot be written as constructed, nor
with slot 0 only, and with both slots assigned it is written as two pairs. -/
theorem C20_feature_keeper_write_witness :
    exampleKeepers.dfeatures.write exampleFmt "" =
      .error (.assertion "Requesting undefined feature") ∧
    (exampleKeepers.dfeatures.set 0 1).bind (fun k => k.write exampleFmt "") =
      .error (.assertion "Requesting undefined feature") ∧
    ((exampleKeepers.dfeatures.set 1 1).bind (fun k => k.set 0 0)).bind
      (fun k => k.write exampleFmt "") = .ok "F0:0,F1:1" ∧
    ((∃ text, exampleKeepers.dfeatures.write exampleFmt "" = .ok text) ↔
      ∀ i, i < exampleFeatures.SIZE → exampleKeepers.dfeatures.test i = .ok true) :=
  ⟨by decide, by decide, by decide,
    (C20_feature_keeper_write exampleFmt exampleKeepers.dfeatures "").1⟩

/-! ## The production feature table -/

theorem at_assignEntries_same {V : Type} (k : Nat) (v : V) :
    ∀ l : List (Nat × V),
      (feature_type.assignEntries l k v).find? (fun e => e.1 == k) = some (k, v)
  | [] => by simp [feature_type.assignEntries]
  | (k1, v1) :: rest => by
    unfold feature_type.assignEntries
    split_ifs with h1 h2
    · simp
    · simp
    · have hne : ¬ k1 = k := fun h => h2 h.symm
      simp [List.find?_cons, hne]
      exact at_assignEntries_same k v rest

theorem at_assignEntries_other {V : Type} (k : Nat) (v : V) (j : Nat) (hj : j ≠ k) :
    ∀ l : List (Nat × V),
      (feature_type.assignEntries l k v).find? (fun e => e.1 == j) =
        l.find? (fun e => e.1 == j)
  | [] => by
    have : ¬ k = j := fun h => hj h.symm
    simp [feature_type.assignEntries, List.find?_cons, this]
  | (k1, v1) :: rest => by
    have hkj : ¬ k = j := fun h => hj h.symm
    unfold feature_type.assignEntries
    split_ifs with h1 h2
    · simp [List.find?_cons, hkj]
    · subst h2
      simp [List.find?_cons, hkj]
    · by_cases h3 : k1 = j
      · simp [List.find?_cons, h3]
      · simp [List.find?_cons, h3]
        exact at_assignEntries_other k v j hj rest

theorem mem_assignEntries {V : Type} (k : Nat) (v : V) :
    ∀ l : List (Nat × V), k ∉ l.map Prod.fst →
      ∀ e, e ∈ feature_type.assignEntries l k v ↔ e = (k, v) ∨ e ∈ l
  | [], _, e => by simp [feature_type.assignEntries]
  | (k1, v1) :: rest, hk, e => by
    have hne : k ≠ k1 := fun h => hk (by simp [h])
    have hrest : k ∉ rest.map Prod.fst := fun h => hk (by simp at h ⊢; exact Or.inr h)
    unfold feature_type.assignEntries
    split_ifs with h1
    · simp
    · simp only [List.mem_cons, mem_assignEntries k v rest hrest e]
      tauto

theorem sorted_assignEntries {V : Type} (k : Nat) (v : V) :
    ∀ l : List (Nat × V), k ∉ l.map Prod.fst → (l.map Prod.fst).Sorted (· < ·) →
      ((feature_type.assignEntries l k v).map Prod.fst).Sorted (· < ·)
  | [], _, _ => by simp [feature_type.assignEntries]
  | (k1, v1) :: rest, hk, hs => by
    have hne : k ≠ k1 := fun h => hk (by simp [h])
    have hrest : k ∉ rest.map Prod.fst := fun h => hk (by simp at h ⊢; exact Or.inr h)
    simp only [List.map_cons, List.sorted_cons] at hs
    unfold feature_type.assignEntries
    split_ifs with h1
    · simp only [List.map_cons, List.sorted_cons, List.mem_cons]
      refine ⟨?_, hs⟩
      rintro b (rfl | hb)
      · exact h1
      · exact lt_trans h1 (hs.1 b hb)
    · have hlt : k1 < k := lt_of_le_of_ne (not_lt.mp h1) (Ne.symm hne)
      simp only [List.map_cons, List.sorted_cons]
      refine ⟨?_, sorted_assignEntries k v rest hrest hs.2⟩
      intro b hb
      obtain ⟨e, he, rfl⟩ := List.mem_map.mp hb
      rcases (mem_assignEntries k v rest hrest e).mp he with rfl | he
      · exact hlt
      · exact hs.1 e.1 (List.mem_map_of_mem _ he)

theorem feature_at_of_mem_keys {V : Type} (m : feature_type V) (k : Nat)
    (h : k ∈ m.keys) : ∃ v, m.«at» k = .ok v := by
  unfold feature_type.keys at h
  obtain ⟨e, he, hk⟩ := List.mem_map.mp h
  unfold feature_type.«at»
  cases hf : m.entries.find? (fun e => e.1 == k) with
  | some x => exact ⟨x.2, rfl⟩
  | none =>
    rw [List.find?_eq_none] at hf
    exact absurd (by simp [hk]) (hf e he)

theorem shared_test_lt {FS DFS : FEATURESET} {V : Type}
    (m : strelka_shared_modifiers FS DFS V) (i : Nat) (h : i < FS.SIZE) :
    m.test_feature i = .ok (m._isFeatureSet.bits ⟨i, h⟩) ∧
      m._isFeatureSet.test i = .ok (m._isFeatureSet.bits ⟨i, h⟩) := by
  simp [strelka_shared_modifiers.test_feature, bitset.get, bitset.test, h]

theorem shared_test_ok_lt {FS DFS : FEATURESET} {V : Type}
    (m : strelka_shared_modifiers FS DFS V) (i : Nat) (b : Bool)
    (h : m.test_feature i = .ok b) : i < FS.SIZE := by
  by_contra hge
  simp [strelka_shared_modifiers.test_feature, bitset.get, hge] at h

/-- What a successful `set_feature(i, val)` does to the record. -/
theorem shared_set_ok {FS DFS : FEATURESET} {V : Type}
    (m m1 : strelka_shared_modifiers FS DFS V) (i : Nat) (val : V)
    (h : m.set_feature i val = .ok m1) :
    ∃ hi : i < FS.SIZE, m._isFeatureSet.bits ⟨i, hi⟩ = false ∧
      m1 = ⟨m.isEVS, m.EVS, m.filters, m.dfeatures,
        ⟨Function.update m._isFeatureSet.bits ⟨i, hi⟩ true⟩, m._featureVal.assign i val⟩ := by
  by_cases hi : i < FS.SIZE
  · refine ⟨hi, ?_⟩
    cases hb : m._isFeatureSet.bits ⟨i, hi⟩ with
    | true =>
      simp [strelka_shared_modifiers.set_feature, bitset_test_lt _ _ hi, hb] at h
    | false =>
      simp only [strelka_shared_modifiers.set_feature, bitset_test_lt _ _ hi, hb,
        bitset_set_lt _ _ hi] at h
      injection h with h
      exact ⟨rfl, h.symm⟩
  · simp [strelka_shared_modifiers.set_feature, bitset.test, hi] at h

theorem shared_set_of_unset {FS DFS : FEATURESET} {V : Type}
    (m : strelka_shared_modifiers FS DFS V) (i : Nat) (val : V) (hi : i < FS.SIZE)
    (hb : m._isFeatureSet.bits ⟨i, hi⟩ = false) :
    m.set_feature i val = .ok ⟨m.isEVS, m.EVS, m.filters, m.dfeatures,
      ⟨Function.update m._isFeatureSet.bits ⟨i, hi⟩ true⟩, m._featureVal.assign i val⟩ := by
  simp [strelka_shared_modifiers.set_feature, bitset_test_lt _ _ hi, hb,
    bitset_set_lt _ _ hi]

theorem bitset_get_update {N : Nat} (b : bitset N) (i : Nat) (h : i < N) (j : Nat) :
    (⟨Function.update b.bits ⟨i, h⟩ true⟩ : bitset N).get j =
      if j = i then .ok true else b.get j := by
  by_cases hj : j < N
  · by_cases hji : j = i
    · subst hji
      simp [bitset.get, hj]
    · have : (⟨j, hj⟩ : Fin N) ≠ ⟨i, h⟩ := fun hh => hji (Fin.mk.inj hh)
      simp [bitset.get, hj, Function.update_noteq this, hji]
  · have hji : j ≠ i := fun hh => hj (hh ▸ h)
    simp [bitset.get, hj, hji]

/-- After a successful `set_feature(i, val)`: slot `i` is assigned and holds `val`, and
the flag and the value of every other slot are as before. -/
theorem shared_set_effect {FS DFS : FEATURESET} {V : Type}
    (m m1 : strelka_shared_modifiers FS DFS V) (i : Nat) (val : V)
    (h : m.set_feature i val = .ok m1) :
    m1.test_feature i = .ok true ∧ m1.get_feature i = .ok val ∧
      ∀ j, j ≠ i → m1.test_feature j = m.test_feature j ∧
        m1.get_feature j = m.get_feature j := by
  obtain ⟨hi, hb, rfl⟩ := shared_set_ok m m1 i val h
  refine ⟨?_, ?_, ?_⟩
  · simp only [strelka_shared_modifiers.test_feature]
    rw [bitset_get_update]
    simp
  · simp only [strelka_shared_modifiers.get_feature]
    rw [bitset_test_update]
    simp only [if_true, feature_type.«at», feature_type.assign, at_assignEntries_same]
  · intro j hj
    constructor
    · simp only [strelka_shared_modifiers.test_feature]
      rw [bitset_get_update]
      simp [hj]
    · simp only [strelka_shared_modifiers.get_feature]
      rw [bitset_test_update]
      simp only [hj, if_false, feature_type.«at», feature_type.assign,
        at_assignEntries_other i val j hj]

theorem shared_set_wellFormed {FS DFS : FEATURESET} {V : Type}
    (m m1 : strelka_shared_modifiers FS DFS V) (i : Nat) (val : V)
    (hwf : m.wellFormed) (h : m.set_feature i val = .ok m1) :
    m1.wellFormed ∧
      ∀ e, e ∈ m1._featureVal.entries ↔ e = (i, val) ∨ e ∈ m._featureVal.entries := by
  obtain ⟨hi, hb, rfl⟩ := shared_set_ok m m1 i val h
  have hnot : i ∉ m._featureVal.entries.map Prod.fst := by
    intro hmem
    have := (hwf.2 i).mp hmem
    rw [bitset_test_lt _ _ hi, hb] at this
    cases this
  refine ⟨⟨?_, ?_⟩, ?_⟩
  · exact sorted_assignEntries i val _ hnot hwf.1
  · intro j
    simp only [feature_type.keys, feature_type.assign]
    rw [bitset_test_update]
    constructor
    · intro hj
      obtain ⟨e, he, rfl⟩ := List.mem_map.mp hj
      rcases (mem_assignEntries i val _ hnot e).mp he with rfl | he
      · simp
      · have := (hwf.2 e.1).mp (List.mem_map_of_mem _ he)
        split_ifs
        · rfl
        · exact this
    · intro hj
      by_cases hji : j = i
      · subst hji
        exact List.mem_map.mpr ⟨(j, val), (mem_assignEntries j val _ hnot _).mpr (Or.inl rfl),
          rfl⟩
      · rw [if_neg hji] at hj
        obtain ⟨e, he, rfl⟩ := List.mem_map.mp ((hwf.2 j).mpr hj)
        exact List.mem_map.mpr ⟨e, (mem_assignEntries i val _ hnot _).mpr (Or.inr he), rfl⟩
  · intro e
    exact mem_assignEntries i val _ hnot e

theorem shared_new_wellFormed {FS DFS : FEATURESET} {V : Type} (zero : V)
    (uninit : Fin DFS.SIZE → V) :
    (strelka_shared_modifiers.new zero uninit : strelka_shared_modifiers FS DFS V).wellFormed := by
  refine ⟨by simp [strelka_shared_modifiers.new, feature_type.keys], ?_⟩
  intro i
  simp only [strelka_shared_modifiers.new, feature_type.keys, List.map_nil,
    List.not_mem_nil, false_iff]
  by_cases hi : i < FS.SIZE
  · simp [bitset.test, hi]
  · simp [bitset.test, hi]

theorem shared_set_features_spec {FS DFS : FEATURESET} {V : Type} :
    ∀ (later : List (Nat × V)) (m m2 : strelka_shared_modifiers FS DFS V),
      m.set_features later = .ok m2 →
      (m.wellFormed → m2.wellFormed ∧
        ∀ e, e ∈ m2._featureVal.entries ↔ e ∈ later ∨ e ∈ m._featureVal.entries) ∧
      (∀ i v, m.test_feature i = .ok true → m.get_feature i = .ok v →
        m2.test_feature i = .ok true ∧ m2.get_feature i = .ok v)
  | [], m, m2, h => by
    simp only [strelka_shared_modifiers.set_features] at h
    injection h with h
    subst h
    exact ⟨fun hwf => ⟨hwf, by simp⟩, fun _ _ h1 h2 => ⟨h1, h2⟩⟩
  | (j, w) :: later, m, m2, h => by
    simp only [strelka_shared_modifiers.set_features] at h
    cases hs : m.set_feature j w with
    | error e => rw [hs] at h; cases h
    | ok m1 =>
      rw [hs] at h
      simp only at h
      obtain ⟨ih1, ih2⟩ := shared_set_features_spec later m1 m2 h
      constructor
      · intro hwf
        obtain ⟨hwf1, hmem1⟩ := shared_set_wellFormed m m1 j w hwf hs
        obtain ⟨hwf2, hmem2⟩ := ih1 hwf1
        refine ⟨hwf2, ?_⟩
        intro e
        rw [hmem2 e, hmem1 e, List.mem_cons]
        tauto
      · intro i v ht hg
        obtain ⟨_, _, hother⟩ := shared_set_effect m m1 j w hs
        have hij : i ≠ j := by
          intro hij
          subst hij
          obtain ⟨hi, hb, _⟩ := shared_set_ok m m1 i w hs
          rw [(shared_test_lt m i hi).1, hb] at ht
          cases ht
        obtain ⟨h1, h2⟩ := hother i hij
        exact ih2 i v (by rw [h1]; exact ht) (by rw [h2]; exact hg)

/-- C11: for every record, every feature ID `i` that is not yet assigned and every value
`v`, `set_feature(i, v)` succeeds, and after it `test_feature(i)` is true and
`get_feature(i)` returns `v`; the flag and the value of every other feature ID are as
before; after any further successful `set_feature` calls `get_feature(i)` still returns
`v`. The same holds for `set`, `test` and `get` of `strelka_feature_keeper`. On a record
as constructed `test_feature(i)` (and `test(i)` of the keeper) is false for every `i`
below `SIZE`. -/
theorem C11_set_then_get {FS DFS : FEATURESET} {V : Type}
    (m : strelka_shared_modifiers FS DFS V) (i : Nat) (v : V)
    (hunset : m.test_feature i = .ok false) :
    (∃ m1, m.set_feature i v = .ok m1 ∧
      m1.test_feature i = .ok true ∧ m1.get_feature i = .ok v ∧
      (∀ j, j ≠ i → m1.test_feature j = m.test_feature j ∧
        m1.get_feature j = m.get_feature j) ∧
      (∀ later m2, m1.set_features later = .ok m2 →
        m2.test_feature i = .ok true ∧ m2.get_feature i = .ok v)) ∧
    (∀ (k : strelka_feature_keeper DFS V) (j : Nat) (w : V), k.test j = .ok false →
      ∃ k1, k.set j w = .ok k1 ∧ k1.test j = .ok true ∧ k1.get j = .ok w ∧
        ∀ j2, j2 ≠ j → k1.test j2 = k.test j2 ∧ k1.get j2 = k.get j2) ∧
    (∀ (zero : V) (uninit : Fin DFS.SIZE → V) (j : Nat), j < FS.SIZE →
      (strelka_shared_modifiers.new zero uninit :
        strelka_shared_modifiers FS DFS V).test_feature j = .ok false) ∧
    (∀ (uninit : Fin DFS.SIZE → V) (j : Nat), j < DFS.SIZE →
      (strelka_feature_keeper.new uninit : strelka_feature_keeper DFS V).test j
        = .ok false) := by
  refine ⟨?_, ?_, ?_, ?_⟩
  · have hi := shared_test_ok_lt m i false hunset
    have hb : m._isFeatureSet.bits ⟨i, hi⟩ = false := by
      rw [(shared_test_lt m i hi).1] at hunset
      injection hunset
    have hs := shared_set_of_unset m i v hi hb
    obtain ⟨h1, h2, h3⟩ := shared_set_effect m _ i v hs
    refine ⟨_, hs, h1, h2, h3, ?_⟩
    intro later m2 hl
    exact (shared_set_features_spec later _ m2 hl).2 i v h1 h2
  · intro k j w hk
    have hj := feature_test_ok_lt k j false hk
    have hb : k._isFeatureSet.bits ⟨j, hj⟩ = false := by
      rw [feature_test_lt k j hj] at hk
      injection hk
    have hs : k.set j w = .ok ⟨⟨Function.update k._isFeatureSet.bits ⟨j, hj⟩ true⟩,
        Function.update k._featureVal ⟨j, hj⟩ w⟩ := by
      simp [strelka_feature_keeper.set, hk, hj, bitset_set_lt _ _ hj]
    refine ⟨_, hs, ?_, ?_, ?_⟩
    · simp only [strelka_feature_keeper.test]
      rw [bitset_test_update]
      simp
    · simp only [strelka_feature_keeper.get, strelka_feature_keeper.test]
      rw [bitset_test_update]
      simp [hj]
    · intro j2 hj2
      have ht : (⟨⟨Function.update k._isFeatureSet.bits ⟨j, hj⟩ true⟩,
          Function.update k._featureVal ⟨j, hj⟩ w⟩ : strelka_feature_keeper DFS V).test j2
          = k.test j2 := by
        simp only [strelka_feature_keeper.test]
        rw [bitset_test_update]
        simp [hj2]
      refine ⟨ht, ?_⟩
      simp only [strelka_feature_keeper.get]
      rw [ht]
      by_cases hlt : j2 < DFS.SIZE
      · have hne : (⟨j2, hlt⟩ : Fin DFS.SIZE) ≠ ⟨j, hj⟩ := fun hh => hj2 (Fin.mk.inj hh)
        simp [hlt, Function.update_noteq hne]
      · simp [hlt]
  · intro zero uninit j hj
    simp [strelka_shared_modifiers.new, strelka_shared_modifiers.test_feature, bitset.get, hj]
  · intro uninit j hj
    simp [strelka_feature_keeper.new, strelka_feature_keeper.clear,
      strelka_feature_keeper.test, bitset.test, bitset.reset, hj]

/-- C11 on the example record: feature 1 is assigned the value 1, then feature 0. -/
theorem C11_set_then_get_witness :
    exampleRecord.test_feature 1 = .ok false ∧
    (exampleRecord.set_feature 1 1).bind (fun m => m.get_feature 1) = .ok 1 ∧
    ((exampleRecord.set_feature 1 1).bind (fun m => m.set_feature 0 0)).bind
      (fun m => m.get_feature 1) = .ok 1 ∧
    (∃ m1, exampleRecord.set_feature 1 1 = .ok m1 ∧
      m1.test_feature 1 = .ok true ∧ m1.get_feature 1 = .ok 1 ∧
      (∀ j, j ≠ 1 → m1.test_feature j = exampleRecord.test_feature j ∧
        m1.get_feature j = exampleRecord.get_feature j) ∧
      (∀ later m2, m1.set_features later = .ok m2 →
        m2.test_feature 1 = .ok true ∧ m2.get_feature 1 = .ok 1)) :=
  ⟨by decide, by decide, by decide, (C11_set_then_get exampleRecord 1 1 (by decide)).1⟩

/-- C12: for every record state that the members keep (`wellFormed`: it holds of a new
record and after every successful `set_feature`) and every feature ID `i` below `SIZE`:
`get_feature(i)` fails if and only if slot `i` is not assigned, `set_feature(i, v)` fails
if and only if slot `i` is already assigned, and `test_feature(i)` does not fail. The same
holds for `get`, `set` and `test` of every `strelka_feature_keeper`. -/
theorem C12_get_set_failures {FS DFS : FEATURESET} {V : Type}
    (m : strelka_shared_modifiers FS DFS V) (i : Nat) (v : V)
    (hwf : m.wellFormed) (hi : i < FS.SIZE) :
    (((∃ e, m.get_feature i = .error e) ↔ m.test_feature i = .ok false) ∧
      ((∃ e, m.set_feature i v = .error e) ↔ m.test_feature i = .ok true) ∧
      (∃ b, m.test_feature i = .ok b)) ∧
    (∀ (k : strelka_feature_keeper DFS V) (j : Nat) (w : V), j < DFS.SIZE →
      ((∃ e, k.get j = .error e) ↔ k.test j = .ok false) ∧
      ((∃ e, k.set j w = .error e) ↔ k.test j = .ok true) ∧
      (∃ b, k.test j = .ok b)) ∧
    ((∀ (zero : V) (uninit : Fin DFS.SIZE → V),
        (strelka_shared_modifiers.new zero uninit :
          strelka_shared_modifiers FS DFS V).wellFormed) ∧
      (∀ m1 j w, m.set_feature j w = .ok m1 → m1.wellFormed)) := by
  refine ⟨?_, ?_, shared_new_wellFormed, fun m1 j w h => (shared_set_wellFormed m m1 j w hwf h).1⟩
  · obtain ⟨ht, hbt⟩ := shared_test_lt m i hi
    cases hb : m._isFeatureSet.bits ⟨i, hi⟩ with
    | false =>
      rw [hb] at ht hbt
      have hs := shared_set_of_unset m i v hi hb
      refine ⟨?_, ?_, ⟨false, ht⟩⟩
      · rw [ht]
        simp [strelka_shared_modifiers.get_feature, hbt]
      · rw [ht, hs]
        simp
    | true =>
      rw [hb] at ht hbt
      obtain ⟨x, hx⟩ := feature_at_of_mem_keys m._featureVal i ((hwf.2 i).mpr hbt)
      refine ⟨?_, ?_, ⟨true, ht⟩⟩
      · rw [ht]
        simp [strelka_shared_modifiers.get_feature, hbt, hx]
      · rw [ht]
        simp [strelka_shared_modifiers.set_feature, hbt]
  · intro k j w hj
    have ht := feature_test_lt k j hj
    cases hb : k._isFeatureSet.bits ⟨j, hj⟩ with
    | false =>
      rw [hb] at ht
      refine ⟨?_, ?_, ⟨false, ht⟩⟩
      · rw [ht]
        simp [strelka_feature_keeper.get, ht]
      · rw [ht]
        simp [strelka_feature_keeper.set, ht, hj, bitset_set_lt _ _ hj]
    | true =>
      rw [hb] at ht
      refine ⟨?_, ?_, ⟨true, ht⟩⟩
      · rw [ht]
        simp [strelka_feature_keeper.get, ht, hj]
      · rw [ht]
        simp [strelka_feature_keeper.set, ht]

/-- C12 on the example record as constructed, at feature 1. -/
theorem C12_get_set_failures_witness :
    exampleRecord.wellFormed ∧ 1 < exampleFeatures.SIZE ∧
    exampleRecord.get_feature 1 = .error (.assertion "_isFeatureSet.test(i)") ∧
    ((exampleRecord.set_feature 1 1).bind (fun m => m.set_feature 1 0)).bind
      (fun m => m.get_feature 1) = .error (.assertion "Set scoring feature twice") ∧
    ((∃ e, exampleRecord.get_feature 1 = .error e) ↔
      exampleRecord.test_feature 1 = .ok false) :=
  ⟨shared_new_wellFormed 0 (fun _ => 0), by decide, by decide, by decide,
    (C12_get_set_failures exampleRecord 1 1 (shared_new_wellFormed 0 (fun _ => 0))
      (by decide)).1.1⟩

theorem write_features_loop_tail {V : Type} (FS : FEATURESET) (fmt : V → String) :
    ∀ (l : List (Nat × V)) (ix : Nat) (os : String), 0 < ix →
      strelka_shared_modifiers.write_features_loop FS fmt l ix os =
        l.foldl (fun a e => a ++ "," ++ (FS.get_feature_label e.1 ++ ":" ++ fmt e.2)) os
  | [], _, _, _ => rfl
  | e :: l, ix, os, h => by
    simp only [strelka_shared_modifiers.write_features_loop, gt_iff_lt, h, if_true,
      List.foldl_cons]
    rw [write_features_loop_tail FS fmt l (ix + 1) _ (Nat.succ_pos ix)]
    simp [String.append_assoc]

/-- The text `write_features` produces: the pairs of the map in the order of iteration,
as `label:value`, joined by commas. -/
theorem write_features_spec {FS DFS : FEATURESET} {V : Type} (fmt : V → String)
    (m : strelka_shared_modifiers FS DFS V) (os : String) :
    m.write_features fmt os = os ++ ",".intercalate (m._featureVal.entries.map
      (fun e => FS.get_feature_label e.1 ++ ":" ++ fmt e.2)) := by
  unfold strelka_shared_modifiers.write_features
  cases m._featureVal.entries with
  | nil => simp [strelka_shared_modifiers.write_features_loop, String.intercalate]
  | cons e l =>
    simp only [strelka_shared_modifiers.write_features_loop, gt_iff_lt, lt_self_iff_false,
      if_false, List.map_cons, String.intercalate]
    rw [write_features_loop_tail FS fmt l 1 _ Nat.one_pos,
      ← intercalate_go_eq_foldl "," _ l (os ++ FS.get_feature_label e.1 ++ ":" ++ fmt e.2),
      String.append_assoc, String.append_assoc, intercalate_go_append]
    simp [String.append_assoc]

theorem find_of_mem_of_nodup_keys {V : Type} :
    ∀ (l : List (Nat × V)), (l.map Prod.fst).Nodup → ∀ i v, (i, v) ∈ l →
      l.find? (fun e => e.1 == i) = some (i, v)
  | [], _, _, _, h => by cases h
  | (k1, v1) :: rest, hnd, i, v, h => by
    simp only [List.map_cons, List.nodup_cons] at hnd
    rcases List.mem_cons.mp h with heq | hmem
    · injection heq with h1 h2
      subst h1 h2
      simp [List.find?_cons]
    · have hne : ¬ k1 = i := by
        intro hk
        subst hk
        exact hnd.1 (List.mem_map_of_mem Prod.fst hmem)
      have hbeq : (k1 == i) = false := by simpa using hne
      simp only [List.find?_cons, hbeq]
      exact find_of_mem_of_nodup_keys rest hnd.2 i v hmem

theorem entries_eq_of_same_members {V : Type} (l₁ l₂ : List (Nat × V))
    (h₁ : (l₁.map Prod.fst).Sorted (· < ·)) (h₂ : (l₂.map Prod.fst).Sorted (· < ·))
    (h : ∀ e, e ∈ l₁ ↔ e ∈ l₂) : l₁ = l₂ := by
  haveI : IsAntisymm (Nat × V) (fun a b => a.1 < b.1) :=
    ⟨fun a b hab hba => absurd hab (lt_asymm hba)⟩
  have s₁ : l₁.Sorted (fun a b => a.1 < b.1) := List.pairwise_map.mp h₁
  have s₂ : l₂.Sorted (fun a b => a.1 < b.1) := List.pairwise_map.mp h₂
  have n₁ : l₁.Nodup := List.Nodup.of_map Prod.fst h₁.nodup
  have n₂ : l₂.Nodup := List.Nodup.of_map Prod.fst h₂.nodup
  exact List.eq_of_perm_of_sorted ((List.perm_ext_iff_of_nodup n₁ n₂).mpr h) s₁ s₂

/-- C13: for every record state that the members keep, `write_features` appends the pairs
`label:value` of the assigned feature slots in ascending feature-ID order, joined by
single commas with none before the first or after the last; the pairs written are those
of the slots that `test_feature` reports as assigned, with the values `get_feature`
returns; two records filled by `set_feature` with the same assignments in different
orders are written as the same text; and `write` of a `strelka_feature_keeper` whose
slots are all assigned appends one pair for each index in ascending order. -/
theorem C13_write_features_order {FS DFS : FEATURESET} {V : Type} (fmt : V → String)
    (m : strelka_shared_modifiers FS DFS V) (os : String) (hwf : m.wellFormed) :
    m.write_features fmt os = os ++ ",".intercalate (m._featureVal.entries.map
      (fun e => FS.get_feature_label e.1 ++ ":" ++ fmt e.2)) ∧
    (m._featureVal.entries.map Prod.fst).Sorted (· < ·) ∧
    (∀ i v, (i, v) ∈ m._featureVal.entries ↔
      (m.test_feature i = .ok true ∧ m.get_feature i = .ok v)) ∧
    (∀ (zero : V) (uninit : Fin DFS.SIZE → V) (as bs : List (Nat × V))
      (m1 m2 : strelka_shared_modifiers FS DFS V), as.Perm bs →
      (strelka_shared_modifiers.new zero uninit).set_features as = .ok m1 →
      (strelka_shared_modifiers.new zero uninit).set_features bs = .ok m2 →
      m1.write_features fmt os = m2.write_features fmt os) ∧
    (∀ k : strelka_feature_keeper DFS V, (∀ i, i < DFS.SIZE → k.test i = .ok true) →
      k.write fmt os = .ok (os ++ ",".intercalate ((List.finRange DFS.SIZE).map
        (fun i => DFS.get_feature_label i.val ++ ":" ++ fmt (k._featureVal i))))) := by
  refine ⟨write_features_spec fmt m os, hwf.1, ?_, ?_,
    fun k hk => feature_write_ok fmt k os hk⟩
  · intro i v
    constructor
    · intro hmem
      have hkey : i ∈ m._featureVal.keys := List.mem_map_of_mem Prod.fst hmem
      have hbit := (hwf.2 i).mp hkey
      have hi : i < FS.SIZE := by
        by_contra hge
        simp [bitset.test, hge] at hbit
      have hb : m._isFeatureSet.bits ⟨i, hi⟩ = true := by
        rw [bitset_test_lt _ _ hi] at hbit
        injection hbit
      refine ⟨by rw [(shared_test_lt m i hi).1, hb], ?_⟩
      simp only [strelka_shared_modifiers.get_feature, hbit, feature_type.«at»,
        find_of_mem_of_nodup_keys _ hwf.1.nodup i v hmem]
    · rintro ⟨ht, hg⟩
      have hi := shared_test_ok_lt m i true ht
      have hbit : m._isFeatureSet.test i = .ok true := by
        rw [(shared_test_lt m i hi).2, ← (shared_test_lt m i hi).1, ht]
      simp only [strelka_shared_modifiers.get_feature, hbit, feature_type.«at»] at hg
      cases hf : m._featureVal.entries.find? (fun e => e.1 == i) with
      | none => rw [hf] at hg; cases hg
      | some e =>
        rw [hf] at hg
        injection hg with hv
        have hk : e.1 = i := by simpa using List.find?_some hf
        have hm := List.mem_of_find?_eq_some hf
        rcases e with ⟨a, b⟩
        simp only at hk hv
        subst hk hv
        exact hm
  · intro zero uninit as bs m1 m2 hperm h1 h2
    obtain ⟨hwf1, hmem1⟩ := (shared_set_features_spec as _ m1 h1).1
      (shared_new_wellFormed zero uninit)
    obtain ⟨hwf2, hmem2⟩ := (shared_set_features_spec bs _ m2 h2).1
      (shared_new_wellFormed zero uninit)
    have heq : m1._featureVal.entries = m2._featureVal.entries := by
      apply entries_eq_of_same_members _ _ hwf1.1 hwf2.1
      intro e
      rw [hmem1 e, hmem2 e]
      simp only [strelka_shared_modifiers.new, List.not_mem_nil, or_false]
      exact hperm.mem_iff
    rw [write_features_spec, write_features_spec, heq]

/-- C13 on the example record of three features: assigned in the orders 2, 0, 1 and
1, 2, 0 it is written as the same text, in feature-ID order. -/
theorem C13_write_features_order_witness :
    (exampleRecord3.set_features [(2, 1), (0, 0), (1, 1)]).map
        (fun m => m.write_features exampleFmt "") =
      .ok "QSS_NT:0,N_FDP_RATE:1,T_FDP_RATE:1" ∧
    (exampleRecord3.set_features [(1, 1), (2, 1), (0, 0)]).map
        (fun m => m.write_features exampleFmt "") =
      .ok "QSS_NT:0,N_FDP_RATE:1,T_FDP_RATE:1" ∧
    exampleRecord3.wellFormed ∧
    exampleRecord3.write_features exampleFmt "" = "" ++ ",".intercalate
      (exampleRecord3._featureVal.entries.map
        (fun e => exampleFeatures3.get_feature_label e.1 ++ ":" ++ exampleFmt e.2)) :=
  ⟨by decide, by decide, shared_new_wellFormed 0 (fun _ => 0),
    (C13_write_features_order exampleFmt exampleRecord3 ""
      (shared_new_wellFormed 0 (fun _ => 0))).1⟩
